import Mathlib

/-!
# DAGI marketplace ledger and agent: a shallow embedding of `blockchain.cpp` and `agent.cpp`

The C++ class `BlockchainLedger` and the record type `Transaction` are translated
function by function, and so is the class `ModelAgent` with the member functions of
`AIModel` it calls (their own conventions are stated at their sections).  Conventions
of the embedding:

* `double` is modelled by exact rationals `ℚ` (no NaN, no infinities); arithmetic is
  exact, except the additions of the total that guards `addCollaborativeTransaction`,
  whose rounding decides whether the call throws: they are the parameter `addDouble`;
* `std::time_t` is modelled by `Int`; every call of `std::time(nullptr)` becomes an
  explicit argument `now`;
* `std::map<std::string, T>` is modelled by a key-sorted association list
  (`StrMap T`), iterated in key order as the C++ container is;
* a thrown `std::runtime_error` is modelled by `Outcome.thrown`, which also keeps the
  ledger state at the moment of the throw;
* `std::hash<std::string>` and `std::log10` are library functions: they are fields of
  `StdLib`, a parameter of everything that calls them.
* `std::sort` with a comparator that leaves ties is a library call whose result the
  standard leaves open among entries with equal scores: it is an argument of
  `getTopContributors`.
-/

namespace DAGI

/-! ## Library parameters and `utils::hashString` -/

/-- What the ledger takes from the library and the machine. -/
structure StdLib where
  /-- The value of `std::hash<std::string>` (a `size_t`). -/
  strHash : String → Nat
  /-- The value of `std::log10` on the modelled doubles. -/
  log10 : ℚ → ℚ
  /-- The double `a + b` as the machine computes it, that is, rounded to a double.  It is
  used where the rounding decides what a call does: in the total that guards
  `addCollaborativeTransaction`.  Exact addition is the default. -/
  addDouble : ℚ → ℚ → ℚ := fun a b => a + b

/-- Sixteen zero-padded lower-case hexadecimal digits of a 64-bit value:
`ss << std::hex << std::setfill('0') << std::setw(16) << hash`. -/
def hex16 (n : Nat) : String :=
  String.mk ((List.range 16).map fun i => Nat.digitChar ((n / 16 ^ (15 - i)) % 16))

/-- Embedding of `utils::hashString`. -/
def hashString (lib : StdLib) (input : String) : String :=
  hex16 (lib.strHash input % 2 ^ 64)

/-! ## Formatting of doubles: `std::fixed << std::setprecision(6)` -/

/-- Round to the nearest integer, ties to even. -/
def roundHalfEven (q : ℚ) : Int :=
  let f := Int.floor q
  let r := q - f
  if r < 1 / 2 then f else if 1 / 2 < r then f + 1 else if f % 2 = 0 then f else f + 1

/-- Six decimal digits, zero padded on the left. -/
def pad6 (n : Nat) : String :=
  let s := toString n
  String.mk (List.replicate (6 - s.length) '0') ++ s

/-- The text `ss << std::fixed << std::setprecision(6) << x` writes. -/
def fixed6 (x : ℚ) : String :=
  let n := (roundHalfEven (|x| * 1000000)).toNat
  (if x < 0 then "-" else "") ++ toString (n / 1000000) ++ "." ++ pad6 (n % 1000000)

/-! ## `std::map<std::string, T>` -/

/-- A `std::map<std::string, T>`: association list kept sorted by key, keys unique. -/
abbrev StrMap (β : Type) := List (String × β)

namespace StrMap

/-- Embedding of `map.find(k)` (`none` is `end()`). -/
def find {β : Type} (m : StrMap β) (k : String) : Option β :=
  match m with
  | [] => none
  | (k', v) :: rest => if k = k' then some v else find rest k

/-- Embedding of `map[k] = v`: replaces the entry for `k` or inserts it in key order. -/
def insert {β : Type} (m : StrMap β) (k : String) (v : β) : StrMap β :=
  match m with
  | [] => [(k, v)]
  | (k', v') :: rest =>
    if k < k' then (k, v) :: (k', v') :: rest
    else if k = k' then (k, v) :: rest
    else (k', v') :: insert rest k v

end StrMap

/-! ## Plain data types of `blockchain.hpp` -/

structure Vote where
  modelId : String
  voterId : String
  rating : Int
  review : String
  timestamp : Int
deriving DecidableEq, Repr

structure UserReputation where
  score : ℚ
  totalVotes : Int
  modelsShared : Int
  reviews : List String
deriving DecidableEq, Repr

structure Documentation where
  modelId : String
  authorId : String
  content : String
  tags : List String
  timestamp : Int
  upvotes : Int
  comments : List String
deriving DecidableEq, Repr

structure QualityMetrics where
  accuracy : ℚ
  reliability : ℚ
  userCount : Int
  avgResponseTime : ℚ
  validations : List String
  lastAudit : Int
deriving DecidableEq, Repr

structure ResourceUsage where
  cpuHours : ℚ
  gpuHours : ℚ
  memoryGB : ℚ
  bandwidthGB : ℚ
  costTokens : ℚ
deriving DecidableEq, Repr

structure ModelVersion where
  version : Nat
  commitHash : String
  parentHash : String
  timestamp : Int
  changes : String
  canRollback : Bool
deriving DecidableEq, Repr

/-! ## `Transaction` -/

/-- Embedding of `struct Transaction`.  The C++ members `from` and `to` are
`sender` and `receiver` here (`from` is a reserved word). -/
structure Transaction where
  type : String
  modelId : String
  sender : String
  receiver : String
  amount : ℚ
  timestamp : Int
  expiryTime : Int
  signature : String
  previousHash : String
  isCollaborative : Bool
  contributors : List String
  resourceContribution : ℚ
  rewardShares : StrMap ℚ
deriving DecidableEq, Repr

namespace Transaction

/-- Embedding of the constructor `Transaction::Transaction`; `now` is the value of
`std::time(nullptr)`. -/
def new (now : Int) (type modelId sender receiver : String) (amount : ℚ)
    (rentalDuration : Int) : Transaction :=
  { type := type
    modelId := modelId
    sender := sender
    receiver := receiver
    amount := amount
    timestamp := now
    expiryTime := if 0 < rentalDuration then now + rentalDuration else 0
    signature := ""
    previousHash := ""
    isCollaborative := false
    contributors := []
    resourceContribution := 0
    rewardShares := [] }

/-- The order `std::sort` uses on `std::pair<std::string, double>`. -/
def pairLE (a b : String × ℚ) : Prop := a.1 < b.1 ∨ (a.1 = b.1 ∧ a.2 ≤ b.2)

instance : DecidableRel pairLE := fun a b => by unfold pairLE; infer_instance

/-- The text `calculateHash` writes into its string stream before the collaborative
part. -/
def baseData (tx : Transaction) : String :=
  tx.type ++ tx.modelId ++ tx.sender ++ tx.receiver ++ fixed6 tx.amount
    ++ toString tx.timestamp ++ toString tx.expiryTime ++ tx.previousHash

/-- The text `calculateHash` adds for a collaborative record.  `std::sort` over a total
order has one possible result; it is computed here by insertion sort. -/
def collaborativeData (tx : Transaction) : String :=
  "collaborative"
    ++ String.join (tx.contributors.insertionSort (· ≤ ·))
    ++ fixed6 tx.resourceContribution
    ++ String.join ((tx.rewardShares.insertionSort pairLE).map fun p => p.1 ++ fixed6 p.2)

/-- The whole content `ss.str()` of the string stream of `calculateHash`. -/
def hashData (tx : Transaction) : String :=
  if tx.isCollaborative then tx.baseData ++ tx.collaborativeData else tx.baseData

/-- Embedding of `Transaction::calculateHash`. -/
def calculateHash (lib : StdLib) (tx : Transaction) : String :=
  hashString lib tx.hashData

/-- Embedding of `Transaction::verifySignature`. -/
def verifySignature (lib : StdLib) (tx : Transaction) : Bool :=
  if tx.signature = "" then false
  else
    let dataToVerify := tx.calculateHash lib
    let expectedSignature := hashString lib ("mock_private_key" ++ dataToVerify)
    decide (tx.signature = expectedSignature)

/-- Embedding of `Transaction::sign`. -/
def sign (lib : StdLib) (tx : Transaction) (privateKey : String) : Transaction :=
  let dataToSign := tx.calculateHash lib
  { tx with signature := hashString lib (privateKey ++ dataToSign) }

end Transaction

/-! ## `BlockchainLedger`: state and outcomes -/

/-- The private members of `class BlockchainLedger`. -/
structure Ledger where
  transactions : List Transaction := []
  modelVotes : StrMap (List Vote) := []
  userReputations : StrMap UserReputation := []
  modelDocs : StrMap (List Documentation) := []
  modelQuality : StrMap QualityMetrics := []
  resourceMetrics : StrMap ResourceUsage := []
  versionHistory : StrMap (List ModelVersion) := []
deriving DecidableEq, Repr

/-- How a member function ends: it returns a value, or it throws a
`std::runtime_error`.  Both cases carry the ledger as the call left it. -/
inductive Outcome (α : Type) where
  | returned (ledger : Ledger) (value : α)
  | thrown (ledger : Ledger) (what : String)
deriving DecidableEq, Repr

namespace Outcome

/-- The ledger after the call. -/
def ledger {α : Type} : Outcome α → Ledger
  | returned l _ => l
  | thrown l _ => l

/-- Whether the call ended with an exception. -/
def failed {α : Type} : Outcome α → Bool
  | returned _ _ => false
  | thrown _ _ => true

end Outcome

namespace Ledger

/-- The empty ledger (a default-constructed `BlockchainLedger`). -/
def empty : Ledger := {}

/-- The link every append computes:
`transactions.empty() ? hashString("genesis_block") : transactions.back().calculateHash()`. -/
def tailHash (lib : StdLib) (txs : List Transaction) : String :=
  match txs.getLast? with
  | none => hashString lib "genesis_block"
  | some back => back.calculateHash lib

/-- The re-check before `push_back`:
`!transactions.empty() && tx.previousHash != transactions.back().calculateHash()`. -/
def linkBroken (lib : StdLib) (txs : List Transaction) (tx : Transaction) : Bool :=
  match txs.getLast? with
  | none => false
  | some back => decide (tx.previousHash ≠ back.calculateHash lib)

/-- Embedding of `BlockchainLedger::addTransaction`. -/
def addTransaction (lib : StdLib) (l : Ledger) (now : Int) (type modelId sender receiver : String)
    (amount : ℚ) (rentalDuration : Int) : Outcome Unit :=
  let tx := Transaction.new now type modelId sender receiver amount rentalDuration
  let tx := { tx with previousHash := tailHash lib l.transactions }
  let tx := tx.sign lib "mock_private_key"
  if !tx.verifySignature lib then
    .thrown l "Transaction signature verification failed"
  else if linkBroken lib l.transactions tx then
    .thrown l "Invalid chain link in new transaction"
  else
    .returned { l with transactions := l.transactions ++ [tx] } ()

/-- The loop `tx.rewardShares[contributors[i]] = contributions[i] / totalContribution`
of `addCollaborativeTransaction` (the two vectors have the same size there). -/
def normalizedShares (contributors : List String) (contributions : List ℚ)
    (totalContribution : ℚ) : StrMap ℚ :=
  (contributors.zip contributions).foldl
    (fun shares p => shares.insert p.1 (p.2 / totalContribution)) []

/-- Embedding of `BlockchainLedger::addCollaborativeTransaction`. -/
def addCollaborativeTransaction (lib : StdLib) (l : Ledger) (now : Int) (modelId : String)
    (contributors : List String) (contributions : List ℚ) : Outcome Unit :=
  if contributors.length ≠ contributions.length ∨ contributors = [] then
    .thrown l "Invalid contributors or contributions"
  else
    let tx := Transaction.new now "COLLABORATIVE" modelId "" "" 0 0
    let tx := { tx with isCollaborative := true, contributors := contributors }
    let totalContribution := contributions.foldl lib.addDouble 0
    if totalContribution ≤ 0 then
      .thrown l "Total contribution must be positive"
    else
      let tx := { tx with resourceContribution := totalContribution }
      let tx := { tx with
        rewardShares := normalizedShares contributors contributions totalContribution }
      let tx := { tx with previousHash := tailHash lib l.transactions }
      let tx := tx.sign lib "mock_private_key"
      if !tx.verifySignature lib then
        .thrown l "Collaborative transaction signature verification failed"
      else
        .returned { l with transactions := l.transactions ++ [tx] } ()

/-- The `std::accumulate` of `verifyChain` over the reward shares, in key order. -/
def totalShares (tx : Transaction) : ℚ :=
  tx.rewardShares.foldl (fun sum pair => sum + pair.2) 0

/-- The `for` loop of `verifyChain` from index `i` on, with `expectedPreviousHash` as it
stands on entry.  The result is the index the failure message names, `none` when the loop
runs to its end. -/
def verifyFrom (lib : StdLib) (expectedPreviousHash : String) (i : Nat) :
    List Transaction → Option Nat
  | [] => none
  | tx :: rest =>
    if tx.previousHash ≠ expectedPreviousHash then some i
    else if !tx.verifySignature lib then some i
    else if tx.isCollaborative && decide (tx.contributors = []) then some i
    else if tx.isCollaborative && decide (|totalShares tx - 1| > 1 / 1000000) then some i
    else verifyFrom lib (tx.calculateHash lib) (i + 1) rest

/-- The scan of `verifyChain`: the index of the record at which it returns `false`
(`0` for the two genesis checks), `none` when it returns `true`. -/
def firstInvalid (lib : StdLib) : List Transaction → Option Nat
  | [] => none
  | genesis :: rest =>
    if genesis.previousHash ≠ hashString lib "genesis_block" then some 0
    else if !genesis.verifySignature lib then some 0
    else verifyFrom lib (genesis.calculateHash lib) 1 rest

/-- Embedding of `BlockchainLedger::verifyChain`. -/
def verifyChain (lib : StdLib) (l : Ledger) : Bool :=
  (firstInvalid lib l.transactions).isNone

/-- Embedding of `BlockchainLedger::getUserReputation`. -/
def getUserReputation (l : Ledger) (userId : String) : UserReputation :=
  match l.userReputations.find userId with
  | some rep => rep
  | none => { score := 0, totalVotes := 0, modelsShared := 0, reviews := [] }

/-- Embedding of `BlockchainLedger::updateReputationScore`; `userReputations[userId]`
creates a zero entry for a user not yet known. -/
def updateReputationScore (l : Ledger) (userId : String) (change : ℚ) : Ledger :=
  let rep : UserReputation := (l.userReputations.find userId).getD
    { score := 0, totalVotes := 0, modelsShared := 0, reviews := [] }
  let rep : UserReputation :=
    { rep with score := max 0 (rep.score + change), totalVotes := rep.totalVotes + 1 }
  { l with userReputations := l.userReputations.insert userId rep }

/-- Embedding of `BlockchainLedger::addVote`. -/
def addVote (l : Ledger) (now : Int) (modelId voterId : String) (rating : Int)
    (review : String) : Outcome Unit :=
  if rating < 1 ∨ rating > 5 then
    .thrown l "Rating must be between 1 and 5"
  else
    let vote : Vote :=
      { modelId := modelId, voterId := voterId, rating := rating, review := review,
        timestamp := now }
    let l := { l with modelVotes :=
      l.modelVotes.insert modelId ((l.modelVotes.find modelId).getD [] ++ [vote]) }
    match l.transactions.find? (fun tx => tx.modelId = modelId ∧ tx.type = "CREATE") with
    | some tx => .returned (updateReputationScore l tx.sender (((rating : ℚ) - 3) * (1 / 10))) ()
    | none => .returned l ()

/-- Embedding of `BlockchainLedger::updateResourceContribution`.  The local record `tx`
of the C++ body is built and dropped; the record appended is the one of the
`addTransaction("RESOURCE", ...)` call. -/
def updateResourceContribution (lib : StdLib) (l : Ledger) (now : Int) (userId : String)
    (hours : ℚ) : Outcome Unit :=
  let reputationChange := lib.log10 (1 + hours) * (1 / 10)
  let l := updateReputationScore l userId reputationChange
  addTransaction lib l now "RESOURCE" "" userId "" 0 0

/-- The first loop of `distributeRewards`: for every collaborative record of the model
and every contributor it lists, `shares[contributor] += rep.score * resourceContribution`
and then `totalShares += shares[contributor]`.  Returns `(shares, totalShares)`. -/
def accumulateShares (l : Ledger) (modelId : String) : StrMap ℚ × ℚ :=
  l.transactions.foldl
    (fun acc transaction =>
      if transaction.modelId = modelId ∧ transaction.isCollaborative = true then
        transaction.contributors.foldl
          (fun (acc : StrMap ℚ × ℚ) contributor =>
            let rep := getUserReputation l contributor
            let shares := acc.1.insert contributor
              ((acc.1.find contributor).getD 0 + rep.score * transaction.resourceContribution)
            (shares, acc.2 + (shares.find contributor).getD 0))
          acc
      else acc)
    ([], 0)

/-- The values the second loop of `distributeRewards` writes into the local map
`shares`: `share = (share / totalShares) * totalReward`, in key order.  (For
`totalShares = 0` the C++ quotient is NaN or infinite; the rational quotient is `0`.) -/
def payouts (shares : StrMap ℚ) (totalShares totalReward : ℚ) : StrMap ℚ :=
  shares.map fun p => (p.1, (p.2 / totalShares) * totalReward)

/-- Embedding of `BlockchainLedger::distributeRewards`.  The record takes its
`rewardShares` from the local map before the second loop rewrites that map. -/
def distributeRewards (lib : StdLib) (l : Ledger) (now : Int) (modelId : String)
    (totalReward : ℚ) : Outcome Unit :=
  let tx := Transaction.new now "REWARD" modelId "system" "" totalReward 0
  let tx := { tx with previousHash := tailHash lib l.transactions }
  let acc := accumulateShares l modelId
  let tx := { tx with rewardShares := acc.1 }
  let l := (payouts acc.1 acc.2 totalReward).foldl
    (fun l p => updateReputationScore l p.1 (p.2 * (1 / 100))) l
  let tx := tx.sign lib "mock_private_key"
  if !tx.verifySignature lib then
    .thrown l "Reward transaction signature verification failed"
  else if linkBroken lib l.transactions tx then
    .thrown l "Invalid chain link in reward transaction"
  else
    .returned { l with transactions := l.transactions ++ [tx] } ()

/-- Embedding of `BlockchainLedger::calculateUserReward`. -/
def calculateUserReward (l : Ledger) (userId modelId : String) : ℚ :=
  l.transactions.foldl
    (fun totalReward tx =>
      if tx.type = "REWARD" ∧ tx.modelId = modelId then
        match tx.rewardShares.find userId with
        | some share => totalReward + share
        | none => totalReward
      else totalReward)
    0

/-- Embedding of `BlockchainLedger::updateRewardShares`. -/
def updateRewardShares (l : Ledger) (now : Int) (modelId : String) (shares : StrMap ℚ) :
    Outcome Unit :=
  let tx := Transaction.new now "REWARD_UPDATE" modelId "" "" 0 0
  let tx := { tx with rewardShares := shares }
  .returned { l with transactions := l.transactions ++ [tx] } ()

/-- Embedding of `BlockchainLedger::addModelVersion`. -/
def addModelVersion (l : Ledger) (modelId : String) (version : ModelVersion) : Outcome Unit :=
  .returned { l with versionHistory :=
    l.versionHistory.insert modelId ((l.versionHistory.find modelId).getD [] ++ [version]) } ()

/-- Embedding of `BlockchainLedger::rollbackVersion`; `versionHistory[modelId]` creates
an empty history for a model not yet known. -/
def rollbackVersion (lib : StdLib) (l : Ledger) (now : Int) (modelId : String)
    (targetVersion : Nat) : Outcome Bool :=
  let history := (l.versionHistory.find modelId).getD []
  let l := { l with versionHistory := l.versionHistory.insert modelId history }
  if history = [] then .returned l false
  else
    match history.find? (fun v => v.version = targetVersion ∧ v.canRollback = true) with
    | some _ =>
      let tx := Transaction.new now "ROLLBACK" modelId "" "" 0 0
      let tx := { tx with previousHash := tailHash lib l.transactions }
      let tx := tx.sign lib "mock_private_key"
      if !tx.verifySignature lib then
        .thrown l "Rollback transaction signature verification failed"
      else if linkBroken lib l.transactions tx then
        .thrown l "Invalid chain link in rollback transaction"
      else
        .returned { l with transactions := l.transactions ++ [tx] } true
    | none => .returned l false

/-- Embedding of `BlockchainLedger::getVersionHistory`. -/
def getVersionHistory (l : Ledger) (modelId : String) : List ModelVersion :=
  match l.versionHistory.find modelId with
  | some history => history
  | none => []

/-- Embedding of `BlockchainLedger::addDocumentation`. -/
def addDocumentation (l : Ledger) (now : Int) (modelId authorId content : String)
    (tags : List String) : Outcome Unit :=
  let doc : Documentation :=
    { modelId := modelId, authorId := authorId, content := content, tags := tags,
      timestamp := now, upvotes := 0, comments := [] }
  let l := { l with modelDocs :=
    l.modelDocs.insert modelId ((l.modelDocs.find modelId).getD [] ++ [doc]) }
  .returned (updateReputationScore l authorId (1 / 5)) ()

/-- Embedding of `BlockchainLedger::upvoteDocumentation`; `modelDocs[modelId]` creates an
empty entry for a model without documentation. -/
def upvoteDocumentation (l : Ledger) (modelId _voterId : String) : Outcome Unit :=
  let docs := (l.modelDocs.find modelId).getD []
  let l := { l with modelDocs := l.modelDocs.insert modelId docs }
  match docs.getLast? with
  | none => .returned l ()
  | some back =>
    let upvoted : Documentation := { back with upvotes := back.upvotes + 1 }
    let l := { l with modelDocs := l.modelDocs.insert modelId (docs.dropLast ++ [upvoted]) }
    .returned (updateReputationScore l upvoted.authorId (1 / 20)) ()

/-- Embedding of `BlockchainLedger::addDocComment`. -/
def addDocComment (l : Ledger) (modelId userId comment : String) : Outcome Unit :=
  let docs := (l.modelDocs.find modelId).getD []
  let l := { l with modelDocs := l.modelDocs.insert modelId docs }
  match docs.getLast? with
  | none => .returned l ()
  | some back =>
    let commented : Documentation := { back with comments := back.comments ++ [comment] }
    let l := { l with modelDocs := l.modelDocs.insert modelId (docs.dropLast ++ [commented]) }
    .returned (updateReputationScore l userId (1 / 50)) ()

/-- Embedding of `BlockchainLedger::updateQualityMetrics`. -/
def updateQualityMetrics (l : Ledger) (modelId : String) (metrics : QualityMetrics) :
    Outcome Unit :=
  .returned { l with modelQuality := l.modelQuality.insert modelId metrics } ()

/-- Embedding of `BlockchainLedger::validateModel`; `modelQuality[modelId]` creates a
zero-initialised entry for a model without metrics. -/
def validateModel (l : Ledger) (now : Int) (modelId validatorId : String) : Outcome Bool :=
  let metrics : QualityMetrics := (l.modelQuality.find modelId).getD
    { accuracy := 0, reliability := 0, userCount := 0, avgResponseTime := 0,
      validations := [], lastAudit := 0 }
  let metrics : QualityMetrics :=
    { metrics with validations := metrics.validations ++ [validatorId], lastAudit := now }
  let l := { l with modelQuality := l.modelQuality.insert modelId metrics }
  .returned (updateReputationScore l validatorId (1 / 10)) true

/-- Embedding of `BlockchainLedger::trackResourceUsage`. -/
def trackResourceUsage (l : Ledger) (modelId : String) (usage : ResourceUsage) :
    Outcome Unit :=
  .returned { l with resourceMetrics := l.resourceMetrics.insert modelId usage } ()

/-- Embedding of `BlockchainLedger::optimizeResourceAllocation`; `resourceMetrics[modelId]`
creates a zero-initialised entry for a model without metrics. -/
def optimizeResourceAllocation (l : Ledger) (modelId : String) : Outcome ℚ :=
  let usage : ResourceUsage := (l.resourceMetrics.find modelId).getD
    { cpuHours := 0, gpuHours := 0, memoryGB := 0, bandwidthGB := 0, costTokens := 0 }
  let efficiency : ℚ :=
    if usage.cpuHours + usage.gpuHours > 0 then
      usage.costTokens / (usage.cpuHours + usage.gpuHours)
    else 0
  let usage : ResourceUsage := { usage with costTokens := usage.costTokens * (9 / 10) }
  .returned { l with resourceMetrics := l.resourceMetrics.insert modelId usage } efficiency

/-- Embedding of `BlockchainLedger::isModelAvailableForRent`, the clock reading `now`
made an argument. -/
def isModelAvailableForRent (l : Ledger) (now : Int) (modelId : String) : Bool :=
  !l.transactions.any fun tx =>
    decide (tx.modelId = modelId ∧ tx.type = "RENT") &&
      decide (tx.expiryTime = 0 ∨ tx.expiryTime > now)

/-- Embedding of `BlockchainLedger::isModelRentedBy`, the clock reading `now` made an
argument. -/
def isModelRentedBy (l : Ledger) (now : Int) (modelId user : String) : Bool :=
  l.transactions.any fun tx =>
    decide (tx.modelId = modelId ∧ tx.type = "RENT" ∧ tx.receiver = user) &&
      decide (tx.expiryTime = 0 ∨ tx.expiryTime > now)

/-- Embedding of `BlockchainLedger::getModelRating`. -/
def getModelRating (l : Ledger) (modelId : String) : ℚ :=
  match l.modelVotes.find modelId with
  | none => 0
  | some votes =>
    if votes = [] then 0
    else
      let sum := votes.foldl (fun acc v => acc + (v.rating : ℚ)) 0
      sum / (votes.length : ℚ)

/-- The loop of `calculateFairPrice`: the value of its local `totalResources`. -/
def totalResources (l : Ledger) (modelId : String) : ℚ :=
  l.transactions.foldl
    (fun totalResources tx =>
      if tx.modelId = modelId ∧ (tx.type = "RESOURCE_CONTRIBUTION" ∨ tx.isCollaborative = true) then
        totalResources + tx.resourceContribution
      else totalResources)
    0

/-- Embedding of `BlockchainLedger::calculateFairPrice`. -/
def calculateFairPrice (lib : StdLib) (l : Ledger) (modelId : String) : ℚ :=
  let basePrice : ℚ := 100
  let rating := getModelRating l modelId
  let ratingFactor := 1 / 2 + rating / 10
  basePrice * ratingFactor * lib.log10 (1 + totalResources l modelId)

/-- Embedding of `BlockchainLedger::getTopContributors`.  `stdSort` is the library call
`std::sort(contributors.begin(), contributors.end(), comp)` with the comparator
`comp(a, b) = a.second > b.second`: the library leaves the order of entries with equal
scores unspecified, so the sort is an argument, constrained where needed by
`SortsByScore`. -/
def getTopContributors (stdSort : List (String × ℚ) → List (String × ℚ)) (l : Ledger) :
    List String :=
  let contributors := l.userReputations.map fun p => (p.1, p.2.score)
  ((stdSort contributors).map Prod.fst).take 10

end Ledger

/-! ## Sequences of public calls -/

/-- A call of one of the public member functions that can change the ledger, with its
arguments and the clock reading at the call. -/
inductive Call where
  | addTransaction (now : Int) (type modelId sender receiver : String) (amount : ℚ)
      (rentalDuration : Int)
  | addCollaborativeTransaction (now : Int) (modelId : String) (contributors : List String)
      (contributions : List ℚ)
  | distributeRewards (now : Int) (modelId : String) (totalReward : ℚ)
  | rollbackVersion (now : Int) (modelId : String) (targetVersion : Nat)
  | updateResourceContribution (now : Int) (userId : String) (hours : ℚ)
  | updateRewardShares (now : Int) (modelId : String) (shares : StrMap ℚ)
  | addVote (now : Int) (modelId voterId : String) (rating : Int) (review : String)
  | addModelVersion (modelId : String) (version : ModelVersion)
  | addDocumentation (now : Int) (modelId authorId content : String) (tags : List String)
  | upvoteDocumentation (modelId voterId : String)
  | addDocComment (modelId userId comment : String)
  | updateQualityMetrics (modelId : String) (metrics : QualityMetrics)
  | validateModel (now : Int) (modelId validatorId : String)
  | trackResourceUsage (modelId : String) (usage : ResourceUsage)
  | optimizeResourceAllocation (modelId : String)
deriving DecidableEq, Repr

namespace Call

/-- Runs a call on a ledger.  The flag is `true` when the call succeeded: it did not
throw and, for `rollbackVersion`, returned `true`. -/
def run (lib : StdLib) (l : Ledger) : Call → Ledger × Bool
  | addTransaction now type modelId sender receiver amount rentalDuration =>
    let o := l.addTransaction lib now type modelId sender receiver amount rentalDuration
    (o.ledger, !o.failed)
  | addCollaborativeTransaction now modelId contributors contributions =>
    let o := l.addCollaborativeTransaction lib now modelId contributors contributions
    (o.ledger, !o.failed)
  | distributeRewards now modelId totalReward =>
    let o := l.distributeRewards lib now modelId totalReward
    (o.ledger, !o.failed)
  | rollbackVersion now modelId targetVersion =>
    match l.rollbackVersion lib now modelId targetVersion with
    | .returned l1 ok => (l1, ok)
    | .thrown l1 _ => (l1, false)
  | updateResourceContribution now userId hours =>
    let o := l.updateResourceContribution lib now userId hours
    (o.ledger, !o.failed)
  | updateRewardShares now modelId shares =>
    let o := l.updateRewardShares now modelId shares
    (o.ledger, !o.failed)
  | addVote now modelId voterId rating review =>
    let o := l.addVote now modelId voterId rating review
    (o.ledger, !o.failed)
  | addModelVersion modelId version =>
    let o := l.addModelVersion modelId version
    (o.ledger, !o.failed)
  | addDocumentation now modelId authorId content tags =>
    let o := l.addDocumentation now modelId authorId content tags
    (o.ledger, !o.failed)
  | upvoteDocumentation modelId voterId =>
    let o := l.upvoteDocumentation modelId voterId
    (o.ledger, !o.failed)
  | addDocComment modelId userId comment =>
    let o := l.addDocComment modelId userId comment
    (o.ledger, !o.failed)
  | updateQualityMetrics modelId metrics =>
    let o := l.updateQualityMetrics modelId metrics
    (o.ledger, !o.failed)
  | validateModel now modelId validatorId =>
    let o := l.validateModel now modelId validatorId
    (o.ledger, !o.failed)
  | trackResourceUsage modelId usage =>
    let o := l.trackResourceUsage modelId usage
    (o.ledger, !o.failed)
  | optimizeResourceAllocation modelId =>
    let o := l.optimizeResourceAllocation modelId
    (o.ledger, !o.failed)

/-- The ledger after a sequence of calls, each run on the state the previous one left. -/
def runAll (lib : StdLib) (l : Ledger) (calls : List Call) : Ledger :=
  calls.foldl (fun l c => (run lib l c).1) l

end Call

/-! ## Keys of the `std::map`s and `std::set`s that are not strings -/

/-- A key type of a `std::map` or `std::set` other than `std::string`, with the integer
value that orders its keys. -/
class MapKey (κ : Type) where
  rank : κ → Nat

instance : MapKey Nat where
  rank := fun n => n

/-- A `std::map<K, T>` over such keys: association list in key order, keys unique. -/
abbrev RankMap (κ β : Type) := List (κ × β)

namespace RankMap

/-- Embedding of `map.find(k)` (`none` is `end()`). -/
def find {κ β : Type} [MapKey κ] (m : RankMap κ β) (k : κ) : Option β :=
  match m with
  | [] => none
  | (k', v) :: rest => if MapKey.rank k = MapKey.rank k' then some v else find rest k

/-- Embedding of `map[k] = v`: replaces the entry for `k` or inserts it in key order. -/
def insert {κ β : Type} [MapKey κ] (m : RankMap κ β) (k : κ) (v : β) : RankMap κ β :=
  match m with
  | [] => [(k, v)]
  | (k', v') :: rest =>
    if MapKey.rank k < MapKey.rank k' then (k, v) :: (k', v') :: rest
    else if MapKey.rank k = MapKey.rank k' then (k, v) :: rest
    else (k', v') :: insert rest k v

/-- The effect of reading `map[k]` on the map: an absent key is created with the
value-initialised entry `dflt`. -/
def touch {κ β : Type} [MapKey κ] (m : RankMap κ β) (k : κ) (dflt : β) : RankMap κ β :=
  match m.find k with
  | some _ => m
  | none => m.insert k dflt

end RankMap

/-! ## `AIModel` (`model.hpp`, `model.cpp`)

Only what `ModelAgent` calls is embedded.  Conventions: the text written to `std::cout`
and `std::cerr` is not modelled; the draws of the `std::mt19937` that `train` creates are
an explicit argument `rnd` (draw number `i` is `rnd i`); memory allocation never
fails; a function that can throw
returns `Except`, the error being the `what()` of the exception; a `std::string` is a
sequence of one-byte characters. -/

/-- Values of `enum class MediaType`. -/
inductive MediaType where
  | TEXT
  | IMAGE
  | AUDIO
  | VIDEO
deriving DecidableEq, Repr

/-- The integer `static_cast<int>(type)`: `TEXT = 1, IMAGE = 2, AUDIO = 4, VIDEO = 8`. -/
def MediaType.toInt : MediaType → Nat
  | MediaType.TEXT => 1
  | MediaType.IMAGE => 2
  | MediaType.AUDIO => 4
  | MediaType.VIDEO => 8

instance : MapKey MediaType where
  rank := MediaType.toInt

/-- Embedding of `struct MediaProperties`.  The three members `text`, `visual` and `audio`
of its anonymous union share their storage: `word0` to `word3` are the four
`unsigned int` words of it. -/
structure MediaProperties where
  inputSize : Nat := 0
  outputSize : Nat := 0
  /-- Storage of `text.maxSequenceLength`, `visual.width` and `audio.sampleRate`. -/
  word0 : Nat := 0
  /-- Storage of `text.vocabularySize`, `visual.height` and `audio.channels`. -/
  word1 : Nat := 0
  /-- Storage of `visual.channels` and `audio.bitDepth`. -/
  word2 : Nat := 0
  /-- Storage of `visual.frameRate`. -/
  word3 : Nat := 0
deriving DecidableEq, Repr

/-- The private members of `class AIModel`. -/
structure AIModel where
  id : String
  name : String
  supportedTypes : List MediaType
  accuracy : ℚ
  weights : List Nat
  version : Nat
  validated : Bool
  weightHistory : RankMap Nat (List Nat)
  mediaProps : RankMap MediaType MediaProperties
deriving DecidableEq, Repr

namespace AIModel

/-- Embedding of `AIModel::supportsMediaType`. -/
def supportsMediaType (m : AIModel) (type : MediaType) : Bool :=
  m.supportedTypes.any fun t => decide (MapKey.rank t = MapKey.rank type)

/-- Embedding of `AIModel::validateMediaType`. -/
def validateMediaType (m : AIModel) (type : MediaType) : Except String Unit :=
  if !m.supportsMediaType type then .error "Model does not support this media type"
  else .ok ()

/-- The summand of `totalWeightSize` for one supported type in `AIModel::train`: a
product of `unsigned int` values. -/
def weightSize (type : MediaType) (props : MediaProperties) : Nat :=
  match type with
  | MediaType.TEXT => (props.word1 * props.outputSize) % 2 ^ 32
  | MediaType.IMAGE => (props.word0 * props.word1 * props.word2 * props.outputSize) % 2 ^ 32
  | MediaType.AUDIO => (props.word0 * props.word1 * props.outputSize) % 2 ^ 32
  | MediaType.VIDEO =>
    (props.word0 * props.word1 * props.word2 * props.word3 * props.outputSize) % 2 ^ 32

/-- The byte `static_cast<uint8_t>(x * 255)` for a draw `x ≥ 0`. -/
def weightByte (x : ℚ) : Nat :=
  (Int.floor (x * 255)).toNat % 256

/-- Embedding of `AIModel::train`.  Draw 0 is added to the accuracy, draw `i + 1` fills
weight `i`. -/
def train (rnd : Nat → ℚ) (m : AIModel) : AIModel :=
  let accuracy := m.accuracy + rnd 0
  let accuracy := if accuracy > 1 then 1 else accuracy
  let sized := m.supportedTypes.foldl
    (fun (acc : RankMap MediaType MediaProperties × Nat) type =>
      let mediaProps := acc.1.touch type {}
      let props := (mediaProps.find type).getD {}
      (mediaProps, (acc.2 + weightSize type props) % 2 ^ 64))
    (m.mediaProps, 0)
  let weights := (List.range sized.2).map fun i => weightByte (rnd (i + 1))
  { m with
    accuracy := accuracy
    mediaProps := sized.1
    weights := weights
    weightHistory := m.weightHistory.insert m.version weights
    version := (m.version + 1) % 2 ^ 32 }

/-- Embedding of `AIModel::trainWithText`. -/
def trainWithText (rnd : Nat → ℚ) (m : AIModel) (_text : String) : Except String AIModel :=
  match m.validateMediaType MediaType.TEXT with
  | .error what => .error what
  | .ok _ => .ok (train rnd m)

/-- Embedding of `AIModel::trainWithImage`; reading `mediaProps[MediaType::IMAGE]` creates
the entry when it is absent. -/
def trainWithImage (rnd : Nat → ℚ) (m : AIModel) (_imageData : List Nat) :
    Except String AIModel :=
  match m.validateMediaType MediaType.IMAGE with
  | .error what => .error what
  | .ok _ => .ok (train rnd { m with mediaProps := m.mediaProps.touch MediaType.IMAGE {} })

/-- Embedding of `AIModel::trainWithAudio`. -/
def trainWithAudio (rnd : Nat → ℚ) (m : AIModel) (_audioData : List Nat) :
    Except String AIModel :=
  match m.validateMediaType MediaType.AUDIO with
  | .error what => .error what
  | .ok _ => .ok (train rnd { m with mediaProps := m.mediaProps.touch MediaType.AUDIO {} })

/-- Embedding of `AIModel::trainWithVideo`. -/
def trainWithVideo (rnd : Nat → ℚ) (m : AIModel) (_videoData : List Nat) :
    Except String AIModel :=
  match m.validateMediaType MediaType.VIDEO with
  | .error what => .error what
  | .ok _ => .ok (train rnd { m with mediaProps := m.mediaProps.touch MediaType.VIDEO {} })

/-- Embedding of `AIModel::processText` (a `const` member function);
`mediaProps.at(MediaType::TEXT)` throws `std::out_of_range` for an absent key. -/
def processText (m : AIModel) (input : String) : Except String String :=
  match m.validateMediaType MediaType.TEXT with
  | .error what => .error what
  | .ok _ =>
    match m.mediaProps.find MediaType.TEXT with
    | none => .error "map::at"
    | some props =>
      .ok ("Processed: " ++ String.mk (input.data.take (min input.length props.word0)))

/-- Embedding of `AIModel::processImage`. -/
def processImage (m : AIModel) (input : List Nat) : Except String (List Nat) :=
  match m.validateMediaType MediaType.IMAGE with
  | .error what => .error what
  | .ok _ => .ok input

/-- Embedding of `AIModel::processAudio`. -/
def processAudio (m : AIModel) (input : List Nat) : Except String (List Nat) :=
  match m.validateMediaType MediaType.AUDIO with
  | .error what => .error what
  | .ok _ => .ok input

/-- Embedding of `AIModel::processVideo`. -/
def processVideo (m : AIModel) (input : List Nat) : Except String (List Nat) :=
  match m.validateMediaType MediaType.VIDEO with
  | .error what => .error what
  | .ok _ => .ok input

end AIModel

/-! ## `ModelAgent` (`agent.hpp`, `agent.cpp`)

The agent holds its model through a `std::shared_ptr`, taken to be non-null; the model
is a field of the agent state.  Dereferencing `end()` is undefined behaviour: a function
that can do so returns `Option`, `none` standing for it.  The text `ss << x` writes for
a `double` in the default format is the parameter `showDouble`. -/

/-- Values of `enum class AgentState`. -/
inductive AgentState where
  | IDLE
  | PROCESSING
  | TRAINING
  | ERROR
deriving DecidableEq, Repr

/-- Values of `enum class AgentAction`. -/
inductive AgentAction where
  | ANALYZE
  | TRAIN
  | PROCESS
  | WAIT
deriving DecidableEq, Repr

/-- The integer `static_cast<int>(action)`. -/
def AgentAction.toInt : AgentAction → Nat
  | .ANALYZE => 0
  | .TRAIN => 1
  | .PROCESS => 2
  | .WAIT => 3

instance : MapKey AgentAction where
  rank := AgentAction.toInt

/-- Embedding of `struct AgentContext`. -/
structure AgentContext where
  mediaType : MediaType
  input : String
  binaryData : List Nat
  parameters : StrMap String
deriving DecidableEq, Repr

/-- Embedding of `struct ModelAgent::Decision`. -/
structure Decision where
  action : AgentAction
  context : AgentContext
  success : Bool
deriving DecidableEq, Repr

/-- The private members of `class ModelAgent`. -/
structure ModelAgent where
  model : AIModel
  state : AgentState
  lastReasoning : String
  actionScores : RankMap AgentAction ℚ
  decisionHistory : List Decision
deriving DecidableEq, Repr

/-- Embedding of `std::min(a, b)`: `(b < a) ? b : a`. -/
def stdMin (a b : ℚ) : ℚ := if b < a then b else a

/-- Embedding of `std::max(a, b)`: `(a < b) ? b : a`. -/
def stdMax (a b : ℚ) : ℚ := if a < b then b else a

/-- Embedding of `std::max_element` with the comparator `a.second < b.second`: the first
of the largest elements, `none` (the iterator `end()`) for an empty range. -/
def maxElement : List (AgentAction × ℚ) → Option (AgentAction × ℚ)
  | [] => none
  | x :: rest => some (rest.foldl (fun largest y => if largest.2 < y.2 then y else largest) x)

/-- Embedding of `feedback.find(pattern) != std::string::npos`. -/
def containsText (feedback pattern : String) : Bool :=
  feedback.data.tails.any fun t => pattern.data.isPrefixOf t

namespace ModelAgent

/-- Embedding of the constructor `ModelAgent::ModelAgent`. -/
def new (model : AIModel) : ModelAgent :=
  { model := model
    state := .IDLE
    lastReasoning := ""
    actionScores :=
      (((RankMap.insert [] AgentAction.ANALYZE 1).insert .TRAIN 1).insert .PROCESS 1).insert
        .WAIT (1 / 2)
    decisionHistory := [] }

/-- Embedding of `ModelAgent::setState`. -/
def setState (a : ModelAgent) (newState : AgentState) : ModelAgent :=
  { a with state := newState }

/-- Embedding of `ModelAgent::validateContext`. -/
def validateContext (a : ModelAgent) (context : AgentContext) : Bool :=
  if !a.model.supportsMediaType context.mediaType then false
  else
    match context.mediaType with
    | MediaType.TEXT => !decide (context.input = "")
    | MediaType.IMAGE => !decide (context.binaryData = [])
    | MediaType.AUDIO => !decide (context.binaryData = [])
    | MediaType.VIDEO => !decide (context.binaryData = [])

/-- The condition `context.parameters.find("mode") != context.parameters.end() &&
context.parameters.at("mode") == value`. -/
def modeIs (context : AgentContext) (value : String) : Bool :=
  match context.parameters.find "mode" with
  | some mode => decide (mode = value)
  | none => false

/-- Embedding of `ModelAgent::evaluateAction`: the state after the call (reading
`actionScores[action]` creates an absent entry with score 0) and the returned score. -/
def evaluateAction (a : ModelAgent) (action : AgentAction) (context : AgentContext) :
    ModelAgent × ℚ :=
  let a := { a with actionScores := a.actionScores.touch action 0 }
  let score := (a.actionScores.find action).getD 0
  let score :=
    match action with
    | .TRAIN =>
      let score := score * (1 - a.model.accuracy)
      match context.mediaType with
      | MediaType.TEXT => score * (12 / 10)
      | MediaType.IMAGE => score * (11 / 10)
      | MediaType.AUDIO => score * 1
      | MediaType.VIDEO => score * (9 / 10)
    | .PROCESS =>
      let score := score * a.model.accuracy
      if context.mediaType = MediaType.TEXT ∧ context.input = "" then score * (1 / 2)
      else if context.mediaType ≠ MediaType.TEXT ∧ context.binaryData = [] then score * (1 / 2)
      else score
    | .ANALYZE =>
      let score := score * (8 / 10)
      if modeIs context "analysis" then score * (15 / 10) else score
    | .WAIT =>
      let score := score * (1 / 2)
      if (context.mediaType = MediaType.TEXT ∧ context.input = "") ∨
          (context.mediaType ≠ MediaType.TEXT ∧ context.binaryData = []) then score * 2
      else score
  let score :=
    if a.decisionHistory ≠ [] then
      let successRate : ℚ :=
        (a.decisionHistory.countP fun d => decide (d.action = action) && d.success) /
          a.decisionHistory.length
      score * (1 / 2 + successRate)
    else score
  (a, score)

/-- Embedding of `ModelAgent::generateReasoning`. -/
def generateReasoning (showDouble : ℚ → String) (a : ModelAgent) (action : AgentAction)
    (context : AgentContext) : String :=
  "Selected action: " ++ toString action.toInt ++ " for media type " ++
    toString context.mediaType.toInt ++ " because: " ++
    match action with
    | .ANALYZE =>
      "Input requires analysis" ++
        match context.parameters.find "mode" with
        | some mode => " (mode: " ++ mode ++ ")"
        | none => ""
    | .TRAIN =>
      "Model accuracy can be improved (current: " ++ showDouble a.model.accuracy ++ ")"
    | .PROCESS =>
      "Model is ready to process input" ++
        if context.mediaType = MediaType.TEXT then " of length " ++ toString context.input.length
        else " of size " ++ toString context.binaryData.length ++ " bytes"
    | .WAIT => "Insufficient context for other actions"

/-- Embedding of `ModelAgent::decideNextAction`; `none` when `actionScores` is empty, where
`maxScore` is `scores.end()` and is dereferenced. -/
def decideNextAction (showDouble : ℚ → String) (a : ModelAgent) (context : AgentContext) :
    Option (ModelAgent × AgentAction) :=
  let evaluated := a.actionScores.foldl
    (fun (acc : ModelAgent × List (AgentAction × ℚ)) entry =>
      let r := acc.1.evaluateAction entry.1 context
      (r.1, acc.2 ++ [(entry.1, r.2)]))
    (a, [])
  match maxElement evaluated.2 with
  | none => none
  | some maxScore =>
    some ({ evaluated.1 with
            lastReasoning := generateReasoning showDouble evaluated.1 maxScore.1 context },
          maxScore.1)

/-- Embedding of `ModelAgent::logDecision`. -/
def logDecision (a : ModelAgent) (action : AgentAction) (context : AgentContext)
    (success : Bool) : ModelAgent :=
  let history := a.decisionHistory ++ [Decision.mk action context success]
  { a with decisionHistory := if history.length > 1000 then history.tail else history }

/-- Embedding of `ModelAgent::updateBehavior`. -/
def updateBehavior (a : ModelAgent) (context : AgentContext) (success : Bool) : ModelAgent :=
  let learningRate : ℚ := 1 / 10
  let penalty : ℚ := 8 / 10
  let reward : ℚ := 12 / 10
  { a with actionScores := a.actionScores.map fun entry =>
      let action := entry.1
      let score := entry.2
      let contextMultiplier : ℚ :=
        match context.parameters.find "mode" with
        | some mode =>
          if mode = "training" ∧ action = .TRAIN then 1 * (1 + learningRate)
          else if mode = "analysis" ∧ action = .ANALYZE then 1 * (1 + learningRate)
          else 1
        | none => 1
      let score :=
        if success then score * (reward * contextMultiplier)
        else score * (penalty * contextMultiplier)
      (action, stdMax (1 / 10) (stdMin score 2)) }

/-- What the `try` block of `executeAction` does to the model: the model after it, or the
exception it throws.  Every `throw` precedes the first change of the model. -/
def runAction (rnd : Nat → ℚ) (model : AIModel) (action : AgentAction)
    (context : AgentContext) : Except String AIModel :=
  match action with
  | .ANALYZE => .ok model
  | .TRAIN =>
    match context.mediaType with
    | MediaType.TEXT => model.trainWithText rnd context.input
    | MediaType.IMAGE => model.trainWithImage rnd context.binaryData
    | MediaType.AUDIO => model.trainWithAudio rnd context.binaryData
    | MediaType.VIDEO => model.trainWithVideo rnd context.binaryData
  | .PROCESS =>
    match context.mediaType with
    | MediaType.TEXT => (model.processText context.input).map fun _ => model
    | MediaType.IMAGE => (model.processImage context.binaryData).map fun _ => model
    | MediaType.AUDIO => (model.processAudio context.binaryData).map fun _ => model
    | MediaType.VIDEO => (model.processVideo context.binaryData).map fun _ => model
  | .WAIT => .ok model

/-- Embedding of `ModelAgent::executeAction`. -/
def executeAction (rnd : Nat → ℚ) (a : ModelAgent) (action : AgentAction)
    (context : AgentContext) : ModelAgent :=
  match runAction rnd a.model action context with
  | .ok model =>
    ({ a with model := model }.logDecision action context true).updateBehavior context true
  | .error _ =>
    ((a.setState .ERROR).logDecision action context false).updateBehavior context false

/-- Embedding of `ModelAgent::processContext`. -/
def processContext (showDouble : ℚ → String) (rnd : Nat → ℚ) (a : ModelAgent)
    (context : AgentContext) : Option ModelAgent :=
  if !a.validateContext context then
    some { a.setState .ERROR with lastReasoning := "Invalid context provided" }
  else
    match (a.setState .PROCESSING).decideNextAction showDouble context with
    | none => none
    | some (a, nextAction) => some (a.executeAction rnd nextAction context)

/-- Embedding of `ModelAgent::learn`. -/
def learn (a : ModelAgent) (_context : AgentContext) (feedback : String) : ModelAgent :=
  let isPositive := containsText feedback "good" || containsText feedback "excellent"
  let isNegative := containsText feedback "needs improvement" || containsText feedback "poor"
  if isPositive then
    { a with actionScores :=
        a.actionScores.insert .PROCESS ((a.actionScores.find .PROCESS).getD 0 * (11 / 10)) }
  else if isNegative then
    { a with actionScores :=
        a.actionScores.insert .TRAIN ((a.actionScores.find .TRAIN).getD 0 * (11 / 10)) }
  else a

end ModelAgent

/-! ## Sequences of agent calls -/

/-- A call of one of the public member functions of `ModelAgent` that can change the
agent, with its arguments and the random draws of the model; `modelChanged` is a change
the owner of the shared model makes between two calls. -/
inductive AgentCall where
  | processContext (rnd : Nat → ℚ) (context : AgentContext)
  | decideNextAction (context : AgentContext)
  | executeAction (rnd : Nat → ℚ) (action : AgentAction) (context : AgentContext)
  | setState (newState : AgentState)
  | evaluateAction (action : AgentAction) (context : AgentContext)
  | updateBehavior (context : AgentContext) (success : Bool)
  | learn (context : AgentContext) (feedback : String)
  | modelChanged (model : AIModel)

namespace AgentCall

/-- Runs a call on an agent; `none` when the call has undefined behaviour. -/
def run (showDouble : ℚ → String) (a : ModelAgent) : AgentCall → Option ModelAgent
  | processContext rnd context => a.processContext showDouble rnd context
  | decideNextAction context => (a.decideNextAction showDouble context).map fun r => r.1
  | executeAction rnd action context => some (a.executeAction rnd action context)
  | setState newState => some (a.setState newState)
  | evaluateAction action context => some (a.evaluateAction action context).1
  | updateBehavior context success => some (a.updateBehavior context success)
  | learn context feedback => some (a.learn context feedback)
  | modelChanged model => some { a with model := model }

/-- The agent after a sequence of calls, each run on the state the previous one left. -/
def runAll (showDouble : ℚ → String) (a : ModelAgent) : List AgentCall → Option ModelAgent
  | [] => some a
  | c :: rest =>
    match run showDouble a c with
    | some a1 => runAll showDouble a1 rest
    | none => none

end AgentCall

/-! ## The order used by `std::sort` on the reward-share pairs is a total order -/

instance : IsTotal (String × ℚ) Transaction.pairLE where
  total a b := by
    unfold Transaction.pairLE
    rcases lt_trichotomy a.1 b.1 with h | h | h
    · exact Or.inl (Or.inl h)
    · rcases le_total a.2 b.2 with h2 | h2
      · exact Or.inl (Or.inr ⟨h, h2⟩)
      · exact Or.inr (Or.inr ⟨h.symm, h2⟩)
    · exact Or.inr (Or.inl h)

instance : IsTrans (String × ℚ) Transaction.pairLE where
  trans a b c hab hbc := by
    unfold Transaction.pairLE at *
    rcases hab with h | ⟨h, h2⟩
    · rcases hbc with h' | ⟨h', _⟩
      · exact Or.inl (lt_trans h h')
      · exact Or.inl (h' ▸ h)
    · rcases hbc with h' | ⟨h', h2'⟩
      · exact Or.inl (h ▸ h')
      · exact Or.inr ⟨h.trans h', le_trans h2 h2'⟩

instance : IsAntisymm (String × ℚ) Transaction.pairLE where
  antisymm a b hab hba := by
    unfold Transaction.pairLE at *
    rcases hab with h | ⟨h, h2⟩
    · rcases hba with h' | ⟨h', _⟩
      · exact absurd h (lt_asymm h')
      · exact absurd h (h' ▸ lt_irrefl _)
    · rcases hba with h' | ⟨_, h2'⟩
      · exact absurd h' (h ▸ lt_irrefl _)
      · exact Prod.ext h (le_antisymm h2 h2')

/-! ## Definitions used to state the properties -/

/-- The number a list of decimal digit characters denotes. -/
def digitsValue (cs : List Char) : Nat :=
  cs.foldl (fun acc c => 10 * acc + (c.toNat - 48)) 0

/-- A change of one field of a record, the signature left as it was.  For the eight
fields `calculateHash` writes exactly, any different value counts; for the four it writes
rounded, sorted or only for collaborative records, the change counts when it alters the
hashed text. -/
inductive Tampered (tx : Transaction) : Transaction → Prop
  | type (v : String) : v ≠ tx.type → Tampered tx { tx with type := v }
  | modelId (v : String) : v ≠ tx.modelId → Tampered tx { tx with modelId := v }
  | sender (v : String) : v ≠ tx.sender → Tampered tx { tx with sender := v }
  | receiver (v : String) : v ≠ tx.receiver → Tampered tx { tx with receiver := v }
  | timestamp (v : Int) : v ≠ tx.timestamp → Tampered tx { tx with timestamp := v }
  | expiryTime (v : Int) : v ≠ tx.expiryTime → Tampered tx { tx with expiryTime := v }
  | previousHash (v : String) : v ≠ tx.previousHash → Tampered tx { tx with previousHash := v }
  | isCollaborative (v : Bool) : v ≠ tx.isCollaborative →
      Tampered tx { tx with isCollaborative := v }
  | amount (v : ℚ) : ({ tx with amount := v } : Transaction).hashData ≠ tx.hashData →
      Tampered tx { tx with amount := v }
  | contributors (v : List String) :
      ({ tx with contributors := v } : Transaction).hashData ≠ tx.hashData →
      Tampered tx { tx with contributors := v }
  | resourceContribution (v : ℚ) :
      ({ tx with resourceContribution := v } : Transaction).hashData ≠ tx.hashData →
      Tampered tx { tx with resourceContribution := v }
  | rewardShares (v : StrMap ℚ) :
      ({ tx with rewardShares := v } : Transaction).hashData ≠ tx.hashData →
      Tampered tx { tx with rewardShares := v }

/-- The digests of the two texts `a` and `b` do not collide: equal digests only for equal
texts. -/
def NoCollision (lib : StdLib) (a b : String) : Prop :=
  hashString lib a = hashString lib b → a = b

/-- The record at position `i` of a ledger (an empty record when there is none). -/
def recordAt (l : Ledger) (i : Nat) : Transaction :=
  l.transactions.getD i (Transaction.new 0 "" "" "" "" 0 0)

/-- The ledger `l` with the committed record at index `i` overwritten by `tx`. -/
def replaceRecord (l : Ledger) (i : Nat) (tx : Transaction) : Ledger :=
  { l with transactions := l.transactions.set i tx }

/-- What the loop of `verifyChain` asks of a record after the first, its link apart: the
signature verifies and, for a collaborative record, the contributor list is not empty and
the shares sum to 1 within `1e-6`. -/
def RecordOk (lib : StdLib) (tx : Transaction) : Prop :=
  tx.verifySignature lib = true ∧
    (tx.isCollaborative = true →
      tx.contributors ≠ [] ∧ |Ledger.totalShares tx - 1| ≤ 1 / 1000000)

/-- The calls that keep a valid chain valid: every call except `updateRewardShares`, a
collaborative append being required to list pairwise distinct contributors. -/
def Call.keepsChain : Call → Prop
  | .updateRewardShares _ _ _ => False
  | .addCollaborativeTransaction _ _ contributors _ => contributors.Nodup
  | _ => True

/-- The reward of a user as the specification words it: the sum, over the records of kind
`REWARD` of the model, of the record's share entry for the user, `0` without an entry. -/
def rewardSum (l : Ledger) (userId modelId : String) : ℚ :=
  ((l.transactions.filter fun tx => decide (tx.type = "REWARD" ∧ tx.modelId = modelId)).map
    fun tx => (tx.rewardShares.find userId).getD 0).sum

/-- Every stored reputation has a score that is not negative. -/
def ScoresNonneg (l : Ledger) : Prop :=
  ∀ p ∈ l.userReputations, 0 ≤ p.2.score

/-- The rating of a model as the specification words it: the arithmetic mean of the
ratings of the votes stored for the model, `0` when there is none. -/
def meanRating (l : Ledger) (modelId : String) : ℚ :=
  let votes := (l.modelVotes.find modelId).getD []
  if votes = [] then 0 else (votes.map fun v => (v.rating : ℚ)).sum / (votes.length : ℚ)

/-- The invested resources of a model as the specification words them: the sum of
`resourceContribution` over the records of the model that are of kind
`RESOURCE_CONTRIBUTION` or are collaborative. -/
def resourceSum (l : Ledger) (modelId : String) : ℚ :=
  ((l.transactions.filter fun tx =>
      decide (tx.modelId = modelId ∧
        (tx.type = "RESOURCE_CONTRIBUTION" ∨ tx.isCollaborative = true))).map
    fun tx => tx.resourceContribution).sum

/-- The postcondition of `std::sort` with the comparator `comp(a, b) = a.second > b.second`:
the result is a rearrangement of the input in which no entry is followed by one that the
comparator puts strictly before it. -/
def SortsByScore (stdSort : List (String × ℚ) → List (String × ℚ)) : Prop :=
  ∀ xs, (stdSort xs).Perm xs ∧ (stdSort xs).Pairwise fun a b => ¬ b.2 > a.2

/-- Insertion sort by descending score: one sort that meets `SortsByScore`. -/
def insertionSortByScore (xs : List (String × ℚ)) : List (String × ℚ) :=
  xs.insertionSort fun a b => b.2 ≤ a.2

instance : IsTotal (String × ℚ) (fun a b => b.2 ≤ a.2) := ⟨fun a b => le_total b.2 a.2⟩

instance : IsTrans (String × ℚ) (fun a b => b.2 ≤ a.2) := ⟨fun _ _ _ h1 h2 => le_trans h2 h1⟩

/-- The keys of a `std::map` are strictly increasing in iteration order. -/
def KeysSorted {β : Type} (m : StrMap β) : Prop :=
  (m.map Prod.fst).Pairwise (· < ·)

/-- Every committed record has a resource contribution that is not negative. -/
def RecordsNonneg (l : Ledger) : Prop :=
  ∀ tx ∈ l.transactions, 0 ≤ tx.resourceContribution

/-- Every stored vote has a rating from 1 to 5. -/
def VotesInRange (l : Ledger) : Prop :=
  ∀ p ∈ l.modelVotes, ∀ v ∈ p.2, 1 ≤ v.rating ∧ v.rating ≤ 5

/-- The keys of `actionScores` are the four actions, in key order. -/
def FourScores (a : ModelAgent) : Prop :=
  a.actionScores.map Prod.fst =
    [AgentAction.ANALYZE, AgentAction.TRAIN, AgentAction.PROCESS, AgentAction.WAIT]

/-- Every stored action score lies in the closed interval from 0.1 to 2.0. -/
def ScoresInRange (a : ModelAgent) : Prop :=
  ∀ entry ∈ a.actionScores, 1 / 10 ≤ entry.2 ∧ entry.2 ≤ 2

/-- The context is one `validateContext` must reject: the model does not support its media
type, or its payload is empty. -/
def InvalidContext (a : ModelAgent) (context : AgentContext) : Prop :=
  a.model.supportsMediaType context.mediaType = false ∨
  (context.mediaType = MediaType.TEXT ∧ context.input = "") ∨
  (context.mediaType ≠ MediaType.TEXT ∧ context.binaryData = [])

/-! ## Concrete library parameters, call sequences and ledgers -/

/-- A concrete instance of the library parameters, used to evaluate the ledger on
examples: a polynomial string hash and a constant `log10`. -/
def demoLib : StdLib where
  strHash := fun s => s.toList.foldl (fun h c => h * 31 + c.toNat) 7
  log10 := fun _ => 0

/-- A plain record followed by a collaborative one that lists the contributor `"a"` twice. -/
def duplicateContributorCalls : List Call :=
  [Call.addTransaction 0 "CREATE" "m" "a" "" 0 0,
   Call.addCollaborativeTransaction 0 "m" ["a", "a"] [1, 3]]

/-- A ledger of two plain records, built by two `addTransaction` calls. -/
def tamperDemoLedger : Ledger :=
  Call.runAll demoLib Ledger.empty
    [Call.addTransaction 0 "CREATE" "m" "a" "" 10 0,
     Call.addTransaction 5 "RENT" "m" "b" "a" 3 100]

/-- Two users `a` and `b` brought to reputation score 1/5 each by one five-star vote on a
model they created. -/
def equalReputationCalls : List Call :=
  [Call.addTransaction 0 "CREATE" "m1" "a" "" 0 0,
   Call.addTransaction 0 "CREATE" "m2" "b" "" 0 0,
   Call.addVote 0 "m1" "v" 5 "",
   Call.addVote 0 "m2" "v" 5 ""]

/-- The two users contribute 2 and 1 to model `"m"` in one collaborative record. -/
def sameRecordLedger : Ledger :=
  Call.runAll demoLib Ledger.empty
    (equalReputationCalls ++ [Call.addCollaborativeTransaction 0 "m" ["a", "b"] [2, 1]])

/-- The two users contribute 2 and 1 to model `"m"` in two collaborative records. -/
def twoRecordsLedger : Ledger :=
  Call.runAll demoLib Ledger.empty
    (equalReputationCalls ++ [Call.addCollaborativeTransaction 0 "m" ["a"] [2],
      Call.addCollaborativeTransaction 0 "m" ["b"] [1]])

/-- A ledger whose one collaborative record for `"m"` lists the user `"a"`, who has no
reputation entry (score 0). -/
def zeroWeightLedger : Ledger :=
  Call.runAll demoLib Ledger.empty [Call.addCollaborativeTransaction 0 "m" ["a"] [1]]

/-- A collaborative record with two contributors. -/
def demoRecord : Transaction :=
  { Transaction.new 0 "COLLABORATIVE" "m" "" "" 0 0 with
    isCollaborative := true
    contributors := ["alice", "bob"]
    resourceContribution := 3
    rewardShares := [("alice", 1 / 3), ("bob", 2 / 3)] }

/-- User `"a"` creates model `"m"`, gets one five-star vote (score 1/5) and is the only
contributor, with contribution 2, of the collaborative record of `"m"`. -/
def rewardCalls : List Call :=
  [Call.addTransaction 0 "CREATE" "m" "a" "" 0 0,
   Call.addVote 0 "m" "v" 5 "",
   Call.addCollaborativeTransaction 0 "m" ["a"] [2]]

/-- A ledger whose only record was appended by `updateRewardShares`: no link, no
signature. -/
def unsignedGenesisLedger : Ledger :=
  Call.runAll demoLib Ledger.empty [Call.updateRewardShares 0 "m" []]

/-- A signed first record followed by a record appended by `updateRewardShares`. -/
def unlinkedSecondLedger : Ledger :=
  Call.runAll demoLib Ledger.empty
    [Call.addTransaction 0 "CREATE" "m" "a" "" 0 0, Call.updateRewardShares 0 "m" []]

/-- The two-record ledger with the signature of record 1 erased. -/
def emptySignatureLedger : Ledger :=
  replaceRecord tamperDemoLedger 1 { recordAt tamperDemoLedger 1 with signature := "" }

/-- A ledger whose first record is a collaborative record listing `"a"` twice. -/
def collaborativeGenesisLedger : Ledger :=
  Call.runAll demoLib Ledger.empty [Call.addCollaborativeTransaction 0 "m" ["a", "a"] [1, 3]]

/-- A ledger with one record: user `"a"` creates model `"m"`. -/
def createdModelLedger : Ledger :=
  Call.runAll demoLib Ledger.empty [Call.addTransaction 0 "CREATE" "m" "a" "" 0 0]

/-- Library parameters whose `log10` is a rational stand-in that is monotone and vanishes
at 1, as the decimal logarithm does. -/
def linearLogLib : StdLib where
  strHash := demoLib.strHash
  log10 := fun x => x - 1

/-- Three votes 5, 4, 5 on model `"m"`. -/
def votedLedger : Ledger :=
  Call.runAll demoLib Ledger.empty
    [Call.addVote 0 "m" "user1" 5 "Excellent performance!",
     Call.addVote 0 "m" "user2" 4 "Good but could be better",
     Call.addVote 0 "m" "user3" 5 "Revolutionary!"]

/-- `"bob"` enters the reputation store before `"alice"`; both reach the score 1/5. -/
def tiedLedger : Ledger :=
  Call.runAll demoLib Ledger.empty
    [Call.addDocumentation 0 "m" "bob" "guide" [],
     Call.addDocumentation 0 "m" "alice" "notes" []]

/-- Three users with the scores 2/5 (`carol`), 1/5 (`bob`) and 1/10 (`alice`). -/
def rankedLedger : Ledger :=
  Call.runAll demoLib Ledger.empty
    [Call.addDocumentation 0 "m" "bob" "guide" [],
     Call.validateModel 0 "m" "alice",
     Call.addDocumentation 0 "m" "carol" "notes" [],
     Call.addDocumentation 0 "m" "carol" "more notes" []]

/-- User `"a"` with score 1/5 is the only contributor of two collaborative records of
model `"m"`, each with resource contribution 1. -/
def repeatedContributorLedger : Ledger :=
  Call.runAll demoLib Ledger.empty
    [Call.addTransaction 0 "CREATE" "m" "a" "" 0 0,
     Call.addVote 0 "m" "v" 5 "",
     Call.addCollaborativeTransaction 0 "m" ["a"] [1],
     Call.addCollaborativeTransaction 0 "m" ["a"] [1]]

/-- Model `"m"` with one version, number 1, that allows rollback (Test 13 of `main.cpp`). -/
def versionedLedger : Ledger :=
  Call.runAll demoLib Ledger.empty
    [Call.addModelVersion "m" (ModelVersion.mk 1 (hashString demoLib "v1") "" 0
      "Initial release" true)]

/-- The empty ledger after `addTransaction("RENT", "m", "owner", "renter", 10.0)`. -/
def openRentalLedger : Ledger :=
  Call.runAll demoLib Ledger.empty [Call.addTransaction 1000 "RENT" "m" "owner" "renter" 10 0]

/-- A text-only model as the constructor of `AIModel` builds it. -/
def demoModel : AIModel :=
  { id := "18f0a1b2c3d"
    name := "demo"
    supportedTypes := [MediaType.TEXT]
    accuracy := 0
    weights := []
    version := 1
    validated := false
    weightHistory := []
    mediaProps := [(MediaType.TEXT, MediaProperties.mk 512 512 1024 50000 0 0)] }

/-- A text context with an empty input. -/
def emptyTextContext : AgentContext :=
  { mediaType := MediaType.TEXT, input := "", binaryData := [], parameters := [] }

/-- An image context with one byte of data. -/
def imageContext : AgentContext :=
  { mediaType := MediaType.IMAGE, input := "", binaryData := [255], parameters := [] }

/-- A text context `"hello"` in mode `analysis`. -/
def analysisContext : AgentContext :=
  { mediaType := MediaType.TEXT, input := "hello", binaryData := [],
    parameters := [("mode", "analysis")] }

/-- Random draws that are all 0. -/
def zeroDraws : Nat → ℚ := fun _ => 0

/-- A new agent whose decision history was filled with 1000 waits on the empty context. -/
def fullHistoryAgent : ModelAgent :=
  { ModelAgent.new demoModel with
    decisionHistory := List.replicate 1000 (Decision.mk AgentAction.WAIT emptyTextContext true) }

/-- The power `2 ^ e` for an integer exponent. -/
def pow2 (e : Int) : ℚ :=
  if 0 ≤ e then ((2 ^ e.toNat : Nat) : ℚ) else 1 / ((2 ^ (-e).toNat : Nat) : ℚ)

/-- The number of halvings that bring `n` below 2, at most `fuel` of them: `⌊log₂ n⌋` for
`1 ≤ n ≤ fuel`. -/
def log2Floor : Nat → Nat → Nat
  | 0, _ => 0
  | fuel + 1, n => if 2 ≤ n then log2Floor fuel (n / 2) + 1 else 0

/-- The integer `⌊log₂ |q|⌋` for `q ≠ 0`. -/
def binaryExponent (q : ℚ) : Int :=
  let e : Int :=
    (log2Floor q.num.natAbs q.num.natAbs : Int) - (log2Floor q.den q.den : Int)
  if pow2 e ≤ |q| then e else e - 1

/-- The double nearest to `q`, a tie going to the even significand: 53 significant bits,
the last of them of weight at least `2 ^ (-1074)`.  A result that overflows to an
infinity has no value here. -/
def roundDouble (q : ℚ) : ℚ :=
  if q = 0 then 0
  else
    let ulp := pow2 (max (binaryExponent q - 52) (-1074))
    roundHalfEven (q / ulp) * ulp

/-- Library parameters whose addition rounds as the addition of IEEE 754 doubles does. -/
def binary64Lib : StdLib where
  strHash := demoLib.strHash
  log10 := demoLib.log10
  addDouble := fun a b => roundDouble (a + b)

/-- Eleven users `"a"` to `"k"` with one documentation each (score 1/5), `"k"` with a
second one (score 2/5). -/
def elevenUsersLedger : Ledger :=
  Call.runAll demoLib Ledger.empty
    [Call.addDocumentation 0 "m" "a" "" [], Call.addDocumentation 0 "m" "b" "" [],
     Call.addDocumentation 0 "m" "c" "" [], Call.addDocumentation 0 "m" "d" "" [],
     Call.addDocumentation 0 "m" "e" "" [], Call.addDocumentation 0 "m" "f" "" [],
     Call.addDocumentation 0 "m" "g" "" [], Call.addDocumentation 0 "m" "h" "" [],
     Call.addDocumentation 0 "m" "i" "" [], Call.addDocumentation 0 "m" "j" "" [],
     Call.addDocumentation 0 "m" "k" "" [], Call.addDocumentation 0 "m" "k" "" []]

/-- The calls of `tiedLedger` in the other order: `"alice"` enters the reputation store
before `"bob"`. -/
def aliceFirstCalls : List Call :=
  [Call.addDocumentation 0 "m" "alice" "notes" [],
   Call.addDocumentation 0 "m" "bob" "guide" []]

/-- The calls of `tiedLedger`: `"bob"` enters the reputation store before `"alice"`. -/
def bobFirstCalls : List Call :=
  [Call.addDocumentation 0 "m" "bob" "guide" [],
   Call.addDocumentation 0 "m" "alice" "notes" []]

/-! ## Basic facts: digests, signatures, links -/

open Ledger

theorem hex16_ne_empty (n : Nat) : hex16 n ≠ "" := by
  intro h
  have h2 := congrArg String.length h
  simp [hex16, String.length] at h2

theorem hashString_ne_empty (lib : StdLib) (s : String) : hashString lib s ≠ "" :=
  hex16_ne_empty _

/-- Signing does not change the hashed text: `signature` is not part of it. -/
theorem hashData_sign (lib : StdLib) (tx : Transaction) (key : String) :
    (tx.sign lib key).hashData = tx.hashData := rfl

theorem calculateHash_sign (lib : StdLib) (tx : Transaction) (key : String) :
    (tx.sign lib key).calculateHash lib = tx.calculateHash lib := rfl

/-- A record signed with the ledger key passes `verifySignature`. -/
theorem verifySignature_sign (lib : StdLib) (tx : Transaction) :
    (tx.sign lib "mock_private_key").verifySignature lib = true := by
  have h : (tx.sign lib "mock_private_key").hashData = tx.hashData := rfl
  simp [Transaction.verifySignature, Transaction.calculateHash, h]
  simp [Transaction.sign, hashString_ne_empty, Transaction.calculateHash]

/-- A record linked to the current tail passes the re-check before `push_back`. -/
theorem linkBroken_tailHash (lib : StdLib) (txs : List Transaction) (tx : Transaction)
    (h : tx.previousHash = tailHash lib txs) : linkBroken lib txs tx = false := by
  unfold linkBroken
  unfold tailHash at h
  cases hl : txs.getLast? with
  | none => rfl
  | some back => simp [hl] at h; simp [h]

/-- Closed form of `addTransaction`: neither `throw` is reachable. -/
theorem addTransaction_eq (lib : StdLib) (l : Ledger) (now : Int)
    (type modelId sender receiver : String) (amount : ℚ) (rentalDuration : Int) :
    l.addTransaction lib now type modelId sender receiver amount rentalDuration =
      .returned { l with transactions := l.transactions ++
        [({ Transaction.new now type modelId sender receiver amount rentalDuration with
            previousHash := tailHash lib l.transactions }).sign lib "mock_private_key"] } () := by
  unfold Ledger.addTransaction
  simp only [verifySignature_sign]
  rw [linkBroken_tailHash]
  · simp
  · rfl

/-- `std::accumulate` from `0.0` is the sum of the list. -/
theorem foldl_add_eq_sum (xs : List ℚ) : xs.foldl (· + ·) 0 = xs.sum := by
  rw [List.sum_eq_foldl]


/-! ## `std::map` facts -/

namespace StrMap

theorem find_insert_self {β : Type} (m : StrMap β) (k : String) (v : β) :
    (m.insert k v).find k = some v := by
  induction m with
  | nil => simp [insert, find]
  | cons p rest ih =>
    obtain ⟨k', v'⟩ := p
    unfold insert
    by_cases h1 : k < k'
    · simp [h1, find]
    · by_cases h2 : k = k'
      · simp [h1, h2, find]
      · simp [h1, h2, find, ih]

theorem find_insert_of_ne {β : Type} (m : StrMap β) (k k' : String) (v : β) (h : k' ≠ k) :
    (m.insert k v).find k' = m.find k' := by
  induction m with
  | nil => simp [insert, find, h]
  | cons p rest ih =>
    obtain ⟨k0, v0⟩ := p
    unfold insert
    by_cases h1 : k < k0
    · simp [h1, find, h]
    · by_cases h2 : k = k0
      · subst h2
        simp [find, h]
      · simp only [h1, h2, if_false, find, ih]

theorem find_map_snd {β γ : Type} (m : StrMap β) (f : β → γ) (k : String) :
    StrMap.find (m.map fun p => (p.1, f p.2)) k = (m.find k).map f := by
  induction m with
  | nil => rfl
  | cons p rest ih =>
    obtain ⟨k0, v0⟩ := p
    by_cases h : k = k0
    · simp [find, h]
    · simp only [List.map, find, h, if_false, ih]

end StrMap

/-! ## Sorting before hashing -/

theorem insertionSort_eq_of_perm {α : Type} (r : α → α → Prop) [DecidableRel r] [IsTotal α r]
    [IsTrans α r] [IsAntisymm α r] {l₁ l₂ : List α} (h : l₁.Perm l₂) :
    l₁.insertionSort r = l₂.insertionSort r :=
  List.eq_of_perm_of_sorted
    ((List.perm_insertionSort r l₁).trans (h.trans (List.perm_insertionSort r l₂).symm))
    (List.sorted_insertionSort r l₁) (List.sorted_insertionSort r l₂)


/-! ## Decimal printing of integers is injective -/

theorem digitsValue_append (xs ys : List Char) :
    digitsValue (xs ++ ys) = ys.foldl (fun acc c => 10 * acc + (c.toNat - 48)) (digitsValue xs) := by
  simp [digitsValue, List.foldl_append]

theorem digitChar_value (k : Nat) (h : k < 10) :
    (Nat.digitChar k).toNat - 48 = k ∧ Nat.digitChar k ≠ '-' := by
  interval_cases k <;> decide

theorem toDigitsCore_spec (fuel : Nat) : ∀ (n : Nat) (ds : List Char), n < fuel →
    ∃ xs : List Char, Nat.toDigitsCore 10 fuel n ds = xs ++ ds ∧ digitsValue xs = n ∧
      xs ≠ [] ∧ ∀ c ∈ xs, c ≠ '-' := by
  induction fuel with
  | zero => intro n ds h; omega
  | succ fuel ih =>
    intro n ds h
    have hd := digitChar_value (n % 10) (Nat.mod_lt _ (by decide))
    unfold Nat.toDigitsCore
    by_cases h0 : n / 10 = 0
    · refine ⟨[Nat.digitChar (n % 10)], by simp [h0], ?_, by simp, by simpa using hd.2⟩
      have hn : n % 10 = n := Nat.mod_eq_of_lt (by omega)
      simp only [digitsValue, List.foldl, hd.1]
      omega
    · obtain ⟨xs, hxs, hv, _, hc⟩ := ih (n / 10) (Nat.digitChar (n % 10) :: ds) (by omega)
      refine ⟨xs ++ [Nat.digitChar (n % 10)], by simp [h0, hxs], ?_, by simp, ?_⟩
      · rw [digitsValue_append, hv]
        simp only [List.foldl, hd.1]
        omega
      · intro c hmem
        rcases List.mem_append.1 hmem with h1 | h1
        · exact hc c h1
        · simp at h1; rw [h1]; exact hd.2

theorem nat_repr_spec (n : Nat) :
    digitsValue (Nat.repr n).data = n ∧ (Nat.repr n).data ≠ [] ∧ ∀ c ∈ (Nat.repr n).data, c ≠ '-' := by
  obtain ⟨xs, hxs, hv, hne, hc⟩ := toDigitsCore_spec (n + 1) n [] (by omega)
  have : (Nat.repr n).data = xs := by
    simp [Nat.repr, Nat.toDigits, hxs, List.asString]
  rw [this]
  exact ⟨hv, hne, hc⟩

theorem nat_repr_injective {n m : Nat} (h : Nat.repr n = Nat.repr m) : n = m := by
  have h1 := (nat_repr_spec n).1
  rw [h, (nat_repr_spec m).1] at h1
  exact h1.symm

theorem int_toString_injective {a b : Int} (h : toString a = toString b) : a = b := by
  have key : ∀ (n m : Nat), Nat.repr n ≠ "-" ++ Nat.repr m := by
    intro n m heq
    obtain ⟨_, hne, hc⟩ := nat_repr_spec n
    have hd := congrArg String.data heq
    simp only [String.data_append] at hd
    rw [hd] at hc
    exact hc '-' (by simp) rfl
  cases a with
  | ofNat n =>
    cases b with
    | ofNat m =>
      have : Nat.repr n = Nat.repr m := h
      rw [nat_repr_injective this]
    | negSucc m => exact absurd h (key n (m + 1))
  | negSucc n =>
    cases b with
    | ofNat m => exact absurd h.symm (key m (n + 1))
    | negSucc m =>
      have h' : "-" ++ Nat.repr (n + 1) = "-" ++ Nat.repr (m + 1) := h
      have hd := congrArg String.data h'
      simp only [String.data_append, List.append_cancel_left_eq] at hd
      have := nat_repr_injective (String.ext hd)
      have hnm : n = m := by omega
      rw [hnm]

/-! ## Tampering with a committed record -/

/-- The characters `calculateHash` feeds to `hashString`, field by field. -/
theorem hashData_data (tx : Transaction) :
    tx.hashData.data = tx.type.data ++ (tx.modelId.data ++ (tx.sender.data ++ (tx.receiver.data
      ++ ((fixed6 tx.amount).data ++ ((toString tx.timestamp).data
      ++ ((toString tx.expiryTime).data ++ (tx.previousHash.data
      ++ (if tx.isCollaborative = true then tx.collaborativeData.data else [])))))))) := by
  unfold Transaction.hashData Transaction.baseData
  cases tx.isCollaborative <;> simp [String.data_append, List.append_assoc]

theorem collaborativeData_ne_nil (tx : Transaction) : tx.collaborativeData.data ≠ [] := by
  unfold Transaction.collaborativeData
  simp [String.data_append]

theorem Tampered.signature_eq {tx tx' : Transaction} (h : Tampered tx tx') :
    tx'.signature = tx.signature := by
  cases h <;> rfl

theorem Tampered.hashData_ne {tx tx' : Transaction} (h : Tampered tx tx') :
    tx'.hashData ≠ tx.hashData := by
  cases h with
  | type v hv =>
    intro h; apply hv
    have hd := congrArg String.data h
    rw [hashData_data, hashData_data] at hd
    simp only [Transaction.collaborativeData, List.append_cancel_right_eq] at hd
    exact String.ext hd
  | modelId v hv =>
    intro h; apply hv
    have hd := congrArg String.data h
    rw [hashData_data, hashData_data] at hd
    simp only [Transaction.collaborativeData, List.append_cancel_right_eq,
      List.append_cancel_left_eq] at hd
    exact String.ext hd
  | sender v hv =>
    intro h; apply hv
    have hd := congrArg String.data h
    rw [hashData_data, hashData_data] at hd
    simp only [Transaction.collaborativeData, List.append_cancel_right_eq,
      List.append_cancel_left_eq] at hd
    exact String.ext hd
  | receiver v hv =>
    intro h; apply hv
    have hd := congrArg String.data h
    rw [hashData_data, hashData_data] at hd
    simp only [Transaction.collaborativeData, List.append_cancel_right_eq,
      List.append_cancel_left_eq] at hd
    exact String.ext hd
  | timestamp v hv =>
    intro h; apply hv
    have hd := congrArg String.data h
    rw [hashData_data, hashData_data] at hd
    simp only [Transaction.collaborativeData, List.append_cancel_right_eq,
      List.append_cancel_left_eq] at hd
    exact int_toString_injective (String.ext hd)
  | expiryTime v hv =>
    intro h; apply hv
    have hd := congrArg String.data h
    rw [hashData_data, hashData_data] at hd
    simp only [Transaction.collaborativeData, List.append_cancel_right_eq,
      List.append_cancel_left_eq] at hd
    exact int_toString_injective (String.ext hd)
  | previousHash v hv =>
    intro h; apply hv
    have hd := congrArg String.data h
    rw [hashData_data, hashData_data] at hd
    simp only [Transaction.collaborativeData, List.append_cancel_right_eq,
      List.append_cancel_left_eq] at hd
    exact String.ext hd
  | isCollaborative v hv =>
    intro h; apply hv
    have hd := congrArg String.data h
    rw [hashData_data, hashData_data] at hd
    simp only [List.append_cancel_left_eq] at hd
    have hne := collaborativeData_ne_nil tx
    have hcd : ({ tx with isCollaborative := v } : Transaction).collaborativeData
        = tx.collaborativeData := rfl
    rw [hcd] at hd
    cases v <;> cases hc : tx.isCollaborative <;> simp_all
  | amount v hv => exact hv
  | contributors v hv => exact hv
  | resourceContribution v hv => exact hv
  | rewardShares v hv => exact hv

/-- A record that verified stops verifying once its hashed text changes under an
unchanged signature, when `hashString` collides neither on the two texts nor on the two
key-prefixed digests. -/
theorem verifySignature_tampered (lib : StdLib) (tx tx' : Transaction)
    (hok : tx.verifySignature lib = true) (hsig : tx'.signature = tx.signature)
    (hne : tx'.hashData ≠ tx.hashData)
    (hc₁ : NoCollision lib tx'.hashData tx.hashData)
    (hc₂ : NoCollision lib ("mock_private_key" ++ tx'.calculateHash lib)
      ("mock_private_key" ++ tx.calculateHash lib)) :
    tx'.verifySignature lib = false := by
  unfold Transaction.verifySignature at hok ⊢
  by_cases he : tx.signature = ""
  · simp [he] at hok
  · simp only [he, if_false, decide_eq_true_eq] at hok
    simp only [hsig, he, if_false, decide_eq_false_iff_not]
    intro h
    rw [hok] at h
    have h2 := hc₂ h.symm
    have h3 : tx'.calculateHash lib = tx.calculateHash lib := by
      have hd := congrArg String.data h2
      simp only [String.data_append, List.append_cancel_left_eq] at hd
      exact String.ext hd
    exact hne (hc₁ h3)

theorem verifyFrom_set (lib : StdLib) (tx tx' : Transaction)
    (hb : tx'.verifySignature lib = false) :
    ∀ (txs : List Transaction) (e : String) (k i : Nat), txs[i]? = some tx →
      verifyFrom lib e k txs = none → verifyFrom lib e k (txs.set i tx') = some (k + i) := by
  intro txs
  induction txs with
  | nil => intro e k i hi; simp at hi
  | cons t rest ih =>
    intro e k i hi hv
    unfold verifyFrom at hv
    split_ifs at hv with h1 h2 h3 h4
    cases i with
    | zero =>
      simp only [List.getElem?_cons_zero, Option.some.injEq] at hi
      subst hi
      simp only [List.set_cons_zero, Nat.add_zero]
      unfold verifyFrom
      by_cases hp : tx'.previousHash ≠ e
      · simp [hp]
      · simp [hp, hb]
    | succ j =>
      simp only [List.getElem?_cons_succ] at hi
      simp only [List.set_cons_succ]
      unfold verifyFrom
      simp only [h1, h2, h3, h4, if_false]
      rw [ih _ _ _ hi hv]
      exact congrArg some (by omega)

theorem firstInvalid_set (lib : StdLib) (tx tx' : Transaction)
    (hb : tx'.verifySignature lib = false)
    (txs : List Transaction) (i : Nat) (hi : txs[i]? = some tx)
    (hv : firstInvalid lib txs = none) : firstInvalid lib (txs.set i tx') = some i := by
  cases txs with
  | nil => simp at hi
  | cons g rest =>
    simp only [firstInvalid] at hv
    split_ifs at hv with h1 h2
    cases i with
    | zero =>
      simp only [List.getElem?_cons_zero, Option.some.injEq] at hi
      subst hi
      simp only [List.set_cons_zero]
      simp only [firstInvalid]
      by_cases hp : tx'.previousHash ≠ hashString lib "genesis_block"
      · simp [hp]
      · simp [hp, hb]
    | succ j =>
      simp only [List.getElem?_cons_succ] at hi
      simp only [List.set_cons_succ]
      simp only [firstInvalid]
      simp only [h1, h2, if_false]
      rw [verifyFrom_set lib tx tx' hb _ _ _ _ hi hv]
      exact congrArg some (by omega)

/-- Every record of a chain that `verifyChain` accepts passes `verifySignature`. -/
theorem verifyFrom_verifySignature (lib : StdLib) (tx : Transaction) :
    ∀ (txs : List Transaction) (e : String) (k i : Nat), txs[i]? = some tx →
      verifyFrom lib e k txs = none → tx.verifySignature lib = true := by
  intro txs
  induction txs with
  | nil => intro e k i hi; simp at hi
  | cons t rest ih =>
    intro e k i hi hv
    unfold verifyFrom at hv
    split_ifs at hv with h1 h2 h3 h4
    cases i with
    | zero =>
      simp only [List.getElem?_cons_zero, Option.some.injEq] at hi
      subst hi
      simpa using h2
    | succ j =>
      simp only [List.getElem?_cons_succ] at hi
      exact ih _ _ _ hi hv

theorem firstInvalid_verifySignature (lib : StdLib) (tx : Transaction)
    (txs : List Transaction) (i : Nat) (hi : txs[i]? = some tx)
    (hv : firstInvalid lib txs = none) : tx.verifySignature lib = true := by
  cases txs with
  | nil => simp at hi
  | cons g rest =>
    simp only [firstInvalid] at hv
    split_ifs at hv with h1 h2
    cases i with
    | zero =>
      simp only [List.getElem?_cons_zero, Option.some.injEq] at hi
      subst hi
      simpa using h2
    | succ j =>
      simp only [List.getElem?_cons_succ] at hi
      exact verifyFrom_verifySignature lib tx _ _ _ _ hi hv


/-! ## Reputation updates and reward distribution -/

theorem getUserReputation_updateReputationScore_self (l : Ledger) (u : String) (d : ℚ) :
    (l.updateReputationScore u d).getUserReputation u =
      { l.getUserReputation u with
        score := max 0 ((l.getUserReputation u).score + d)
        totalVotes := (l.getUserReputation u).totalVotes + 1 } := by
  unfold updateReputationScore getUserReputation
  simp only [StrMap.find_insert_self]
  cases l.userReputations.find u <;> rfl

theorem getUserReputation_updateReputationScore_of_ne (l : Ledger) (u v : String) (d : ℚ)
    (h : v ≠ u) : (l.updateReputationScore u d).getUserReputation v = l.getUserReputation v := by
  unfold updateReputationScore getUserReputation
  simp only [StrMap.find_insert_of_ne _ _ _ _ h]

theorem transactions_updateReputationScore (l : Ledger) (u : String) (d : ℚ) :
    (l.updateReputationScore u d).transactions = l.transactions := rfl

/-- Paying out changes reputations only: the record sequence stays as it is. -/
theorem transactions_foldl_updateReputationScore (ps : StrMap ℚ) (d : String × ℚ → ℚ) :
    ∀ (l : Ledger), (ps.foldl (fun l p => updateReputationScore l p.1 (d p)) l).transactions
      = l.transactions := by
  induction ps with
  | nil => intro l; rfl
  | cons p rest ih => intro l; simp only [List.foldl_cons, ih, transactions_updateReputationScore]

/-- Closed form of `distributeRewards`: neither `throw` is reachable, whatever the
weights are. -/
theorem distributeRewards_eq (lib : StdLib) (l : Ledger) (now : Int) (modelId : String)
    (totalReward : ℚ) :
    l.distributeRewards lib now modelId totalReward =
      .returned
        { (payouts (accumulateShares l modelId).1 (accumulateShares l modelId).2 totalReward).foldl
            (fun l p => updateReputationScore l p.1 (p.2 * (1 / 100))) l with
          transactions := l.transactions ++
            [({ Transaction.new now "REWARD" modelId "system" "" totalReward 0 with
                previousHash := tailHash lib l.transactions
                rewardShares := (accumulateShares l modelId).1 }).sign lib "mock_private_key"] }
        () := by
  have ht := transactions_foldl_updateReputationScore
    (payouts (accumulateShares l modelId).1 (accumulateShares l modelId).2 totalReward)
    (fun p => p.2 * (1 / 100)) l
  unfold Ledger.distributeRewards
  simp only [verifySignature_sign]
  rw [linkBroken_tailHash]
  · simp only [ht, Bool.not_true, Bool.false_eq_true, if_false]
  · rw [ht]; rfl

theorem foldl_ite_eq_foldl_filter {α β : Type} (p : α → Prop) [DecidablePred p]
    (f : β → α → β) (xs : List α) : ∀ (init : β),
    xs.foldl (fun acc x => if p x then f acc x else acc) init
      = (xs.filter fun x => decide (p x)).foldl f init := by
  induction xs with
  | nil => intro init; rfl
  | cons x rest ih =>
    intro init
    by_cases h : p x
    · simp [List.filter, h, ih]
    · simp [List.filter, h, ih]

/-- The first loop of `distributeRewards` visits the collaborative records of the model. -/
theorem accumulateShares_eq_filter (l : Ledger) (modelId : String) :
    accumulateShares l modelId =
      (l.transactions.filter fun t => decide (t.modelId = modelId ∧ t.isCollaborative = true)).foldl
        (fun acc transaction =>
          transaction.contributors.foldl
            (fun (acc : StrMap ℚ × ℚ) contributor =>
              let rep := getUserReputation l contributor
              let shares := acc.1.insert contributor
                ((acc.1.find contributor).getD 0 + rep.score * transaction.resourceContribution)
              (shares, acc.2 + (shares.find contributor).getD 0))
            acc)
        ([], 0) := by
  unfold accumulateShares
  exact foldl_ite_eq_foldl_filter _ _ _ _

/-- Weights and total weight when the model has two collaborative records, each listing
one contributor, the two contributors distinct. -/
theorem accumulateShares_two (l : Ledger) (modelId a b : String) (ra rb : Transaction)
    (hhist : (l.transactions.filter fun t =>
      decide (t.modelId = modelId ∧ t.isCollaborative = true)) = [ra, rb])
    (ha : ra.contributors = [a]) (hb : rb.contributors = [b]) (hab : a ≠ b) :
    accumulateShares l modelId =
      (StrMap.insert (StrMap.insert [] a ((l.getUserReputation a).score * ra.resourceContribution)) b
          ((l.getUserReputation b).score * rb.resourceContribution),
        (l.getUserReputation a).score * ra.resourceContribution
          + (l.getUserReputation b).score * rb.resourceContribution) := by
  rw [accumulateShares_eq_filter, hhist]
  simp only [List.foldl_cons, List.foldl_nil, ha, hb]
  simp only [StrMap.find_insert_self, StrMap.find_insert_of_ne _ _ _ _ (Ne.symm hab)]
  simp [StrMap.find]

/-- The local map `shares` of `distributeRewards` after its first loop holds, for two
distinct single contributors, the two weights in key order. -/
theorem insert_insert_nil (a b : String) (wa wb : ℚ) (hab : a ≠ b) :
    StrMap.insert (StrMap.insert [] a wa) b wb = [(a, wa), (b, wb)] ∨
    StrMap.insert (StrMap.insert [] a wa) b wb = [(b, wb), (a, wa)] := by
  by_cases h : b < a
  · exact Or.inr (by simp [StrMap.insert, h])
  · exact Or.inl (by simp [StrMap.insert, h, Ne.symm hab])

theorem getUserReputation_with_transactions (l : Ledger) (txs : List Transaction) (u : String) :
    ({ l with transactions := txs } : Ledger).getUserReputation u = l.getUserReputation u := rfl

/-! ## Appending a linked and signed record keeps the chain valid -/

theorem verifyFrom_append (lib : StdLib) (tx : Transaction) (hok : RecordOk lib tx) :
    ∀ (txs : List Transaction) (e : String) (k : Nat), verifyFrom lib e k txs = none →
      tx.previousHash = (txs.getLast?.map (Transaction.calculateHash lib)).getD e →
      verifyFrom lib e k (txs ++ [tx]) = none := by
  intro txs
  induction txs with
  | nil =>
    intro e k _ hp
    simp only [List.getLast?_nil, Option.map_none', Option.getD_none] at hp
    obtain ⟨hs, hc⟩ := hok
    simp only [List.nil_append, verifyFrom, hp, hs]
    cases hcol : tx.isCollaborative with
    | false => simp
    | true =>
      obtain ⟨h1, h2⟩ := hc hcol
      have h3 : ¬ (|totalShares tx - 1| > 1 / 1000000) := not_lt.2 h2
      simp only [h1, h3, decide_False, Bool.and_false, Bool.false_eq_true, if_false, Bool.true_and,
        decide_eq_true_eq, Bool.not_true, ne_eq, not_true_eq_false]
  | cons t rest ih =>
    intro e k hv hp
    unfold verifyFrom at hv
    split_ifs at hv with h1 h2 h3 h4
    simp only [List.cons_append, verifyFrom, h1, h2, h3, h4, if_false]
    apply ih _ _ hv
    rw [hp, List.getLast?_cons]
    cases rest.getLast? <;> rfl

theorem firstInvalid_append (lib : StdLib) (txs : List Transaction) (tx : Transaction)
    (hv : firstInvalid lib txs = none) (hp : tx.previousHash = tailHash lib txs)
    (hs : tx.verifySignature lib = true)
    (hc : txs ≠ [] → RecordOk lib tx) : firstInvalid lib (txs ++ [tx]) = none := by
  cases txs with
  | nil =>
    simp only [tailHash, List.getLast?_nil] at hp
    simp [firstInvalid, verifyFrom, hp, hs]
  | cons g rest =>
    simp only [firstInvalid] at hv
    split_ifs at hv with h1 h2
    simp only [List.cons_append, firstInvalid, h1, h2, if_false]
    apply verifyFrom_append lib tx (hc (by simp)) _ _ _ hv
    rw [hp, tailHash, List.getLast?_cons]
    cases rest.getLast? <;> rfl

/-! ## Normalised shares of pairwise distinct contributors sum to one -/

namespace StrMap

theorem mem_keys_insert {β : Type} (m : StrMap β) (k : String) (v : β) (x : String) :
    x ∈ (m.insert k v).map Prod.fst ↔ x = k ∨ x ∈ m.map Prod.fst := by
  induction m with
  | nil => simp [insert]
  | cons p rest ih =>
    obtain ⟨k0, v0⟩ := p
    unfold insert
    by_cases h1 : k < k0
    · simp [h1]
    · by_cases h2 : k = k0
      · subst h2; simp
      · simp only [h1, h2, if_false, List.map_cons, List.mem_cons, ih]
        tauto

theorem sum_insert_of_not_mem (m : StrMap ℚ) (k : String) (v : ℚ)
    (h : k ∉ m.map Prod.fst) :
    ((m.insert k v).map Prod.snd).sum = (m.map Prod.snd).sum + v := by
  induction m with
  | nil => simp [insert]
  | cons p rest ih =>
    obtain ⟨k0, v0⟩ := p
    simp only [List.map_cons, List.mem_cons, not_or] at h
    unfold insert
    by_cases h1 : k < k0
    · simp [h1]; ring
    · simp only [h1, h.1, if_false, List.map_cons, List.sum_cons, ih h.2]
      ring

end StrMap

theorem totalShares_eq_sum (tx : Transaction) :
    totalShares tx = (tx.rewardShares.map Prod.snd).sum := by
  unfold totalShares
  rw [List.sum_eq_foldl, List.foldl_map]

theorem sum_foldl_insert (total : ℚ) : ∀ (ps : List (String × ℚ)) (m : StrMap ℚ),
    (ps.map Prod.fst).Nodup → (∀ p ∈ ps, p.1 ∉ m.map Prod.fst) →
    ((ps.foldl (fun shares p => StrMap.insert shares p.1 (p.2 / total)) m).map Prod.snd).sum
      = (m.map Prod.snd).sum + (ps.map Prod.snd).sum / total := by
  intro ps
  induction ps with
  | nil => intro m _ _; simp
  | cons p rest ih =>
    intro m hnd hm
    simp only [List.map_cons, List.nodup_cons] at hnd
    simp only [List.foldl_cons]
    rw [ih _ hnd.2, StrMap.sum_insert_of_not_mem _ _ _ (hm p (by simp))]
    · simp only [List.map_cons, List.sum_cons]
      ring
    · intro q hq hmem
      rcases (StrMap.mem_keys_insert _ _ _ _).1 hmem with h | h
      · exact hnd.1 (h ▸ List.mem_map_of_mem Prod.fst hq)
      · exact hm q (List.mem_cons_of_mem _ hq) h

/-- For pairwise distinct contributors the shares `addCollaborativeTransaction` stores
sum to exactly one. -/
theorem sum_normalizedShares (contributors : List String) (contributions : List ℚ)
    (hlen : contributors.length = contributions.length) (hnd : contributors.Nodup)
    (hpos : contributions.sum ≠ 0) :
    ((normalizedShares contributors contributions contributions.sum).map Prod.snd).sum = 1 := by
  unfold normalizedShares
  rw [sum_foldl_insert]
  · rw [List.map_snd_zip _ _ (le_of_eq hlen.symm)]
    simp [div_self hpos]
  · rwa [List.map_fst_zip _ _ (le_of_eq hlen)]
  · intro p _ h; simp at h

/-! ## Which calls keep `verifyChain` true -/

theorem verifyChain_iff (lib : StdLib) (l : Ledger) :
    verifyChain lib l = true ↔ firstInvalid lib l.transactions = none := by
  simp [verifyChain]

/-- Appending a linked, signed, non-collaborative record keeps the chain valid. -/
theorem verifyChain_append_plain (lib : StdLib) (l : Ledger) (tx : Transaction)
    (hv : verifyChain lib l = true) (hc : tx.isCollaborative = false) :
    verifyChain lib { l with transactions := l.transactions ++
      [({ tx with previousHash := tailHash lib l.transactions }).sign lib "mock_private_key"] }
      = true := by
  rw [verifyChain_iff] at hv ⊢
  apply firstInvalid_append lib _ _ hv rfl (verifySignature_sign lib _)
  intro _
  refine ⟨verifySignature_sign lib _, fun h => ?_⟩
  have : tx.isCollaborative = true := h
  rw [hc] at this
  cases this

theorem verifyChain_addTransaction (lib : StdLib) (l : Ledger) (now : Int)
    (type modelId sender receiver : String) (amount : ℚ) (rentalDuration : Int)
    (hv : verifyChain lib l = true) :
    verifyChain lib
      (l.addTransaction lib now type modelId sender receiver amount rentalDuration).ledger
      = true := by
  rw [addTransaction_eq]
  exact verifyChain_append_plain lib l _ hv rfl

theorem verifyChain_distributeRewards (lib : StdLib) (l : Ledger) (now : Int)
    (modelId : String) (totalReward : ℚ) (hv : verifyChain lib l = true) :
    verifyChain lib (l.distributeRewards lib now modelId totalReward).ledger = true := by
  rw [distributeRewards_eq]
  exact verifyChain_append_plain lib l
    { Transaction.new now "REWARD" modelId "system" "" totalReward 0 with
      rewardShares := (accumulateShares l modelId).1 } hv rfl

/-- Closed form of `rollbackVersion`: it appends a `ROLLBACK` record and returns true
when the history of the model has a matching entry that allows rollback, and otherwise
returns false without touching the records; it never throws. -/
theorem rollbackVersion_eq (lib : StdLib) (l : Ledger) (now : Int) (modelId : String)
    (targetVersion : Nat) :
    l.rollbackVersion lib now modelId targetVersion =
      if ((l.versionHistory.find modelId).getD []).any
          (fun v => decide (v.version = targetVersion ∧ v.canRollback = true)) = true then
        .returned
          { l with
            versionHistory :=
              l.versionHistory.insert modelId ((l.versionHistory.find modelId).getD [])
            transactions := l.transactions ++
              [({ Transaction.new now "ROLLBACK" modelId "" "" 0 0 with
                  previousHash := tailHash lib l.transactions }).sign lib "mock_private_key"] }
          true
      else
        .returned
          { l with versionHistory :=
              l.versionHistory.insert modelId ((l.versionHistory.find modelId).getD []) }
          false := by
  unfold Ledger.rollbackVersion
  simp only [verifySignature_sign]
  by_cases hnil : (l.versionHistory.find modelId).getD [] = []
  · simp [hnil]
  · simp only [hnil, if_false]
    cases hf : ((l.versionHistory.find modelId).getD []).find?
        (fun v => decide (v.version = targetVersion ∧ v.canRollback = true)) with
    | none =>
      have hany : ((l.versionHistory.find modelId).getD []).any
          (fun v => decide (v.version = targetVersion ∧ v.canRollback = true)) = false := by
        rw [← Bool.not_eq_true, List.any_eq_true]
        rintro ⟨v, hv, hp⟩
        exact absurd hp (List.find?_eq_none.1 hf v hv)
      simp only [hany, Bool.false_eq_true, if_false]
    | some v =>
      have hp : decide (v.version = targetVersion ∧ v.canRollback = true) = true :=
        @List.find?_some _ (fun v => decide (v.version = targetVersion ∧ v.canRollback = true))
          v _ hf
      have hany : ((l.versionHistory.find modelId).getD []).any
          (fun v => decide (v.version = targetVersion ∧ v.canRollback = true)) = true := by
        rw [List.any_eq_true]
        exact ⟨v, List.mem_of_find?_eq_some hf, hp⟩
      rw [linkBroken_tailHash _ _ _ rfl]
      simp only [hany, if_true, Bool.not_true, Bool.false_eq_true, if_false]

theorem verifyChain_rollbackVersion (lib : StdLib) (l : Ledger) (now : Int) (modelId : String)
    (targetVersion : Nat) (hv : verifyChain lib l = true) :
    verifyChain lib (l.rollbackVersion lib now modelId targetVersion).ledger = true := by
  rw [rollbackVersion_eq]
  split_ifs
  · exact verifyChain_append_plain lib
      { l with versionHistory :=
          l.versionHistory.insert modelId ((l.versionHistory.find modelId).getD []) }
      (Transaction.new now "ROLLBACK" modelId "" "" 0 0) hv rfl
  · exact hv

/-- With exact addition the total of `addCollaborativeTransaction` is the sum of the
contributions. -/
theorem foldl_addDouble_exact (lib : StdLib) (hexact : ∀ a b : ℚ, lib.addDouble a b = a + b)
    (xs : List ℚ) : xs.foldl lib.addDouble 0 = xs.sum := by
  have h : lib.addDouble = fun a b => a + b := funext fun a => funext fun b => hexact a b
  rw [h]
  exact foldl_add_eq_sum xs

/-- A collaborative append whose contributors are pairwise distinct and whose total is
computed without rounding keeps the chain valid (a call that throws leaves the ledger as
it was). -/
theorem verifyChain_addCollaborativeTransaction (lib : StdLib)
    (hexact : ∀ a b : ℚ, lib.addDouble a b = a + b) (l : Ledger) (now : Int)
    (modelId : String) (contributors : List String) (contributions : List ℚ)
    (hnd : contributors.Nodup) (hv : verifyChain lib l = true) :
    verifyChain lib
      (l.addCollaborativeTransaction lib now modelId contributors contributions).ledger
      = true := by
  unfold Ledger.addCollaborativeTransaction
  simp only [verifySignature_sign, foldl_addDouble_exact lib hexact]
  by_cases h1 : contributors.length ≠ contributions.length ∨ contributors = []
  · simpa only [if_pos h1, Outcome.ledger] using hv
  · simp only [if_neg h1]
    by_cases h2 : contributions.sum ≤ 0
    · simpa only [if_pos h2, Outcome.ledger] using hv
    · simp only [if_neg h2, Bool.not_true, Bool.false_eq_true, if_false, Outcome.ledger]
      rw [verifyChain_iff] at hv ⊢
      apply firstInvalid_append lib _ _ hv rfl (verifySignature_sign lib _)
      intro _
      refine ⟨verifySignature_sign lib _, fun _ => ⟨?_, ?_⟩⟩
      · exact fun h => h1 (Or.inr h)
      · have hlen : contributors.length = contributions.length := by
          by_contra h; exact h1 (Or.inl h)
        have hsum := sum_normalizedShares contributors contributions hlen hnd
          (fun h => h2 (le_of_eq h))
        have : totalShares
            (({ Transaction.new now "COLLABORATIVE" modelId "" "" 0 0 with
              isCollaborative := true
              contributors := contributors
              resourceContribution := contributions.sum
              rewardShares := normalizedShares contributors contributions contributions.sum
              previousHash := tailHash lib l.transactions } : Transaction).sign lib
                "mock_private_key") = 1 := by
          rw [totalShares_eq_sum]; exact hsum
        rw [this]; norm_num

theorem verifyChain_run (lib : StdLib) (hexact : ∀ a b : ℚ, lib.addDouble a b = a + b)
    (l : Ledger) (c : Call) (hc : c.keepsChain)
    (hv : verifyChain lib l = true) : verifyChain lib (Call.run lib l c).1 = true := by
  cases c with
  | addTransaction now type modelId sender receiver amount rentalDuration =>
    exact verifyChain_addTransaction lib l now type modelId sender receiver amount
      rentalDuration hv
  | addCollaborativeTransaction now modelId contributors contributions =>
    exact verifyChain_addCollaborativeTransaction lib hexact l now modelId contributors
      contributions hc hv
  | distributeRewards now modelId totalReward =>
    exact verifyChain_distributeRewards lib l now modelId totalReward hv
  | rollbackVersion now modelId targetVersion =>
    have h := verifyChain_rollbackVersion lib l now modelId targetVersion hv
    simp only [Call.run]
    cases hr : l.rollbackVersion lib now modelId targetVersion <;>
      simpa only [hr, Outcome.ledger] using h
  | updateResourceContribution now userId hours =>
    exact verifyChain_addTransaction lib _ now "RESOURCE" "" userId "" 0 0 hv
  | updateRewardShares now modelId shares => exact absurd hc id
  | addVote now modelId voterId rating review =>
    simp only [Call.run, Ledger.addVote]
    split_ifs
    · exact hv
    · split <;> exact hv
  | addModelVersion modelId version => exact hv
  | addDocumentation now modelId authorId content tags => exact hv
  | upvoteDocumentation modelId voterId =>
    simp only [Call.run, Ledger.upvoteDocumentation]
    split <;> exact hv
  | addDocComment modelId userId comment =>
    simp only [Call.run, Ledger.addDocComment]
    split <;> exact hv
  | updateQualityMetrics modelId metrics => exact hv
  | validateModel now modelId validatorId => exact hv
  | trackResourceUsage modelId usage => exact hv
  | optimizeResourceAllocation modelId => exact hv

/-- From the empty ledger, any sequence of calls without `updateRewardShares` whose
collaborative appends list pairwise distinct contributors and compute their totals
without rounding leaves a chain that `verifyChain` accepts. -/
theorem verifyChain_runAll (lib : StdLib) (hexact : ∀ a b : ℚ, lib.addDouble a b = a + b)
    (calls : List Call) : ∀ (l : Ledger),
    (∀ c ∈ calls, c.keepsChain) → verifyChain lib l = true →
    verifyChain lib (Call.runAll lib l calls) = true := by
  induction calls with
  | nil => intro l _ hv; exact hv
  | cons c rest ih =>
    intro l hc hv
    exact ih _ (fun c' h => hc c' (List.mem_cons_of_mem _ h))
      (verifyChain_run lib hexact l c (hc c (List.mem_cons_self _ _)) hv)

/-! ## What an accepted chain guarantees for each record -/

/-- Every record the loop of `verifyChain` passes satisfies `RecordOk`. -/
theorem verifyFrom_recordOk (lib : StdLib) (tx : Transaction) :
    ∀ (txs : List Transaction) (e : String) (k i : Nat), txs[i]? = some tx →
      verifyFrom lib e k txs = none → RecordOk lib tx := by
  intro txs
  induction txs with
  | nil => intro e k i hi; simp at hi
  | cons t rest ih =>
    intro e k i hi hv
    unfold verifyFrom at hv
    split_ifs at hv with h1 h2 h3 h4
    cases i with
    | zero =>
      simp only [List.getElem?_cons_zero, Option.some.injEq] at hi
      subst hi
      refine ⟨by simpa using h2, fun hc => ⟨?_, ?_⟩⟩
      · intro hnil; exact h3 (by simp [hc, hnil])
      · by_contra hgt
        exact h4 (by simp only [hc, Bool.true_and, decide_eq_true_eq]; exact not_le.1 hgt)
    | succ j =>
      simp only [List.getElem?_cons_succ] at hi
      exact ih _ _ _ hi hv

/-- The first record the loop of `verifyChain` passes links to the expected digest. -/
theorem verifyFrom_head_link (lib : StdLib) (tx : Transaction) (rest : List Transaction)
    (e : String) (k : Nat) (hv : verifyFrom lib e k (tx :: rest) = none) :
    tx.previousHash = e := by
  unfold verifyFrom at hv
  split_ifs at hv with h1 h2 h3 h4
  simpa using h1

/-- Every later record the loop of `verifyChain` passes links to its predecessor. -/
theorem verifyFrom_link (lib : StdLib) (p tx : Transaction) :
    ∀ (txs : List Transaction) (e : String) (k i : Nat), txs[i]? = some p →
      txs[i + 1]? = some tx → verifyFrom lib e k txs = none →
      tx.previousHash = p.calculateHash lib := by
  intro txs
  induction txs with
  | nil => intro e k i hi; simp at hi
  | cons t rest ih =>
    intro e k i hi hi' hv
    unfold verifyFrom at hv
    split_ifs at hv with h1 h2 h3 h4
    simp only [List.getElem?_cons_succ] at hi'
    cases i with
    | zero =>
      simp only [List.getElem?_cons_zero, Option.some.injEq] at hi
      subst hi
      cases rest with
      | nil => simp at hi'
      | cons r rest' =>
        simp only [List.getElem?_cons_zero, Option.some.injEq] at hi'
        subst hi'
        exact verifyFrom_head_link lib _ _ _ _ hv
    | succ j =>
      simp only [List.getElem?_cons_succ] at hi
      exact ih _ _ _ hi hi' hv

/-- In a chain `verifyChain` accepts, every record after the first links to its
predecessor. -/
theorem firstInvalid_link (lib : StdLib) (p tx : Transaction) (txs : List Transaction)
    (i : Nat) (hi : txs[i]? = some p) (hi' : txs[i + 1]? = some tx)
    (hv : firstInvalid lib txs = none) : tx.previousHash = p.calculateHash lib := by
  cases txs with
  | nil => simp at hi
  | cons g rest =>
    simp only [firstInvalid] at hv
    split_ifs at hv with h1 h2
    simp only [List.getElem?_cons_succ] at hi'
    cases i with
    | zero =>
      simp only [List.getElem?_cons_zero, Option.some.injEq] at hi
      subst hi
      cases rest with
      | nil => simp at hi'
      | cons r rest' =>
        simp only [List.getElem?_cons_zero, Option.some.injEq] at hi'
        subst hi'
        exact verifyFrom_head_link lib _ _ _ _ hv
    | succ j =>
      simp only [List.getElem?_cons_succ] at hi
      exact verifyFrom_link lib p tx _ _ _ _ hi hi' hv

/-- In a chain `verifyChain` accepts, the first record links to the genesis digest. -/
theorem firstInvalid_genesis_link (lib : StdLib) (g : Transaction) (txs : List Transaction)
    (hi : txs[0]? = some g) (hv : firstInvalid lib txs = none) :
    g.previousHash = hashString lib "genesis_block" := by
  cases txs with
  | nil => simp at hi
  | cons g' rest =>
    simp only [List.getElem?_cons_zero, Option.some.injEq] at hi
    subst hi
    simp only [firstInvalid] at hv
    split_ifs at hv with h1 h2
    simpa using h1

/-- In a chain `verifyChain` accepts, every record after the first satisfies `RecordOk`:
its signature verifies and, when it is collaborative, it lists a contributor and its
shares sum to 1 within `1e-6`. -/
theorem firstInvalid_recordOk (lib : StdLib) (tx : Transaction) (txs : List Transaction)
    (i : Nat) (hi : txs[i + 1]? = some tx) (hv : firstInvalid lib txs = none) :
    RecordOk lib tx := by
  cases txs with
  | nil => simp at hi
  | cons g rest =>
    simp only [firstInvalid] at hv
    split_ifs at hv with h1 h2
    simp only [List.getElem?_cons_succ] at hi
    exact verifyFrom_recordOk lib tx _ _ _ _ hi hv

/-- A chain with a malformed collaborative record after the first is rejected. -/
theorem verifyChain_false_of_bad_collaborative (lib : StdLib) (l : Ledger) (i : Nat)
    (tx : Transaction) (hi : l.transactions[i + 1]? = some tx)
    (hc : tx.isCollaborative = true)
    (hbad : tx.contributors = [] ∨ |totalShares tx - 1| > 1 / 1000000) :
    verifyChain lib l = false := by
  rw [← Bool.not_eq_true, verifyChain_iff]
  intro hv
  obtain ⟨h1, h2⟩ := (firstInvalid_recordOk lib tx _ i hi hv).2 hc
  rcases hbad with h | h
  · exact h1 h
  · exact absurd h2 (not_le.2 h)

theorem calculateUserReward_foldl (userId modelId : String) :
    ∀ (txs : List Transaction) (init : ℚ),
      txs.foldl
        (fun totalReward tx =>
          if tx.type = "REWARD" ∧ tx.modelId = modelId then
            match tx.rewardShares.find userId with
            | some share => totalReward + share
            | none => totalReward
          else totalReward)
        init
      = init + ((txs.filter fun tx => decide (tx.type = "REWARD" ∧ tx.modelId = modelId)).map
          fun tx => (tx.rewardShares.find userId).getD 0).sum := by
  intro txs
  induction txs with
  | nil => intro init; simp
  | cons t rest ih =>
    intro init
    simp only [List.foldl_cons, ih]
    by_cases h : t.type = "REWARD" ∧ t.modelId = modelId
    · cases hf : t.rewardShares.find userId with
      | none => simp [List.filter, h, hf]
      | some share => simp [List.filter, h, hf, add_assoc]
    · simp [List.filter, h]

/-! ## Reputation scores never go below zero -/

namespace StrMap

theorem mem_insert {β : Type} (m : StrMap β) (k : String) (v : β) (p : String × β)
    (h : p ∈ m.insert k v) : p = (k, v) ∨ p ∈ m := by
  induction m with
  | nil => simpa [insert] using h
  | cons q rest ih =>
    obtain ⟨k0, v0⟩ := q
    unfold insert at h
    by_cases h1 : k < k0
    · simpa [h1] using h
    · by_cases h2 : k = k0
      · subst h2
        simp only [h1, if_false, if_true, List.mem_cons] at h
        rcases h with h | h
        · exact Or.inl h
        · exact Or.inr (List.mem_cons_of_mem _ h)
      · simp only [h1, h2, if_false, List.mem_cons] at h
        rcases h with h | h
        · exact Or.inr (h ▸ List.mem_cons_self _ _)
        · rcases ih h with h' | h'
          · exact Or.inl h'
          · exact Or.inr (List.mem_cons_of_mem _ h')

end StrMap

theorem scoresNonneg_of_eq (l l' : Ledger) (h : l'.userReputations = l.userReputations)
    (hs : ScoresNonneg l) : ScoresNonneg l' := by
  unfold ScoresNonneg at *
  rw [h]; exact hs

theorem scoresNonneg_updateReputationScore (l : Ledger) (u : String) (d : ℚ)
    (hs : ScoresNonneg l) : ScoresNonneg (l.updateReputationScore u d) := by
  intro p hp
  rcases StrMap.mem_insert _ _ _ _ hp with h | h
  · rw [h]; exact le_max_left _ _
  · exact hs p h

theorem scoresNonneg_foldl_updateReputationScore (ps : StrMap ℚ) (d : String × ℚ → ℚ) :
    ∀ (l : Ledger), ScoresNonneg l →
      ScoresNonneg (ps.foldl (fun l p => updateReputationScore l p.1 (d p)) l) := by
  induction ps with
  | nil => intro l hs; exact hs
  | cons p rest ih =>
    intro l hs
    exact ih _ (scoresNonneg_updateReputationScore l p.1 (d p) hs)

theorem scoresNonneg_run (lib : StdLib) (l : Ledger) (c : Call) (hs : ScoresNonneg l) :
    ScoresNonneg (Call.run lib l c).1 := by
  cases c with
  | addTransaction now type modelId sender receiver amount rentalDuration =>
    simp only [Call.run, addTransaction_eq]
    exact scoresNonneg_of_eq l _ rfl hs
  | addCollaborativeTransaction now modelId contributors contributions =>
    simp only [Call.run, Ledger.addCollaborativeTransaction]
    split_ifs <;> exact scoresNonneg_of_eq l _ rfl hs
  | distributeRewards now modelId totalReward =>
    simp only [Call.run, distributeRewards_eq]
    exact scoresNonneg_of_eq _ _ rfl
      (scoresNonneg_foldl_updateReputationScore _ (fun p => p.2 * (1 / 100)) l hs)
  | rollbackVersion now modelId targetVersion =>
    simp only [Call.run, rollbackVersion_eq]
    split_ifs <;> exact scoresNonneg_of_eq l _ rfl hs
  | updateResourceContribution now userId hours =>
    simp only [Call.run, Ledger.updateResourceContribution, addTransaction_eq]
    exact scoresNonneg_of_eq _ _ rfl (scoresNonneg_updateReputationScore l _ _ hs)
  | updateRewardShares now modelId shares => exact scoresNonneg_of_eq l _ rfl hs
  | addVote now modelId voterId rating review =>
    simp only [Call.run, Ledger.addVote]
    split_ifs
    · exact hs
    · split
      · exact scoresNonneg_updateReputationScore _ _ _ (scoresNonneg_of_eq l _ rfl hs)
      · exact scoresNonneg_of_eq l _ rfl hs
  | addModelVersion modelId version => exact scoresNonneg_of_eq l _ rfl hs
  | addDocumentation now modelId authorId content tags =>
    exact scoresNonneg_updateReputationScore _ _ _ (scoresNonneg_of_eq l _ rfl hs)
  | upvoteDocumentation modelId voterId =>
    simp only [Call.run, Ledger.upvoteDocumentation]
    split
    · exact scoresNonneg_of_eq l _ rfl hs
    · exact scoresNonneg_updateReputationScore _ _ _ (scoresNonneg_of_eq l _ rfl hs)
  | addDocComment modelId userId comment =>
    simp only [Call.run, Ledger.addDocComment]
    split
    · exact scoresNonneg_of_eq l _ rfl hs
    · exact scoresNonneg_updateReputationScore _ _ _ (scoresNonneg_of_eq l _ rfl hs)
  | updateQualityMetrics modelId metrics => exact scoresNonneg_of_eq l _ rfl hs
  | validateModel now modelId validatorId =>
    exact scoresNonneg_updateReputationScore _ _ _ (scoresNonneg_of_eq l _ rfl hs)
  | trackResourceUsage modelId usage => exact scoresNonneg_of_eq l _ rfl hs
  | optimizeResourceAllocation modelId => exact scoresNonneg_of_eq l _ rfl hs

theorem scoresNonneg_runAll (lib : StdLib) (calls : List Call) : ∀ (l : Ledger),
    ScoresNonneg l → ScoresNonneg (Call.runAll lib l calls) := by
  induction calls with
  | nil => intro l hs; exact hs
  | cons c rest ih => intro l hs; exact ih _ (scoresNonneg_run lib l c hs)

theorem StrMap.mem_of_find_eq_some {β : Type} (m : StrMap β) (k : String) (v : β) (h : m.find k = some v) :
    (k, v) ∈ m := by
  induction m with
  | nil => simp [StrMap.find] at h
  | cons q rest ih =>
    obtain ⟨k0, v0⟩ := q
    unfold StrMap.find at h
    by_cases hk : k = k0
    · simp only [hk, if_true, Option.some.injEq] at h
      rw [hk, h]; exact List.mem_cons_self _ _
    · simp only [hk, if_false] at h
      exact List.mem_cons_of_mem _ (ih h)

/-- Closed form of `addVote` for a rating from 1 to 5. -/
theorem addVote_eq (l : Ledger) (now : Int) (modelId voterId : String) (rating : Int)
    (review : String) (h1 : 1 ≤ rating) (h5 : rating ≤ 5) :
    l.addVote now modelId voterId rating review =
      match l.transactions.find? (fun tx => decide (tx.modelId = modelId ∧ tx.type = "CREATE")) with
      | some tx =>
        .returned
          (updateReputationScore
            { l with
              modelVotes :=
                l.modelVotes.insert modelId
                  ((l.modelVotes.find modelId).getD [] ++
                    [Vote.mk modelId voterId rating review now]) }
            tx.sender (((rating : ℚ) - 3) * (1 / 10))) ()
      | none =>
        .returned
          { l with
            modelVotes :=
              l.modelVotes.insert modelId
                ((l.modelVotes.find modelId).getD [] ++
                  [Vote.mk modelId voterId rating review now]) } () := by
  unfold Ledger.addVote
  have h : ¬ (rating < 1 ∨ rating > 5) := by omega
  simp only [h, if_false]

/-! ## Rating, price and ranking -/

theorem foldl_add_rating (votes : List Vote) : ∀ (init : ℚ),
    votes.foldl (fun acc v => acc + (v.rating : ℚ)) init
      = init + (votes.map fun v => (v.rating : ℚ)).sum := by
  induction votes with
  | nil => intro init; simp
  | cons v rest ih => intro init; simp only [List.foldl_cons, ih, List.map_cons, List.sum_cons]; ring

theorem totalResources_foldl (modelId : String) : ∀ (txs : List Transaction) (init : ℚ),
    txs.foldl
      (fun totalResources tx =>
        if tx.modelId = modelId ∧
            (tx.type = "RESOURCE_CONTRIBUTION" ∨ tx.isCollaborative = true) then
          totalResources + tx.resourceContribution
        else totalResources)
      init
    = init + ((txs.filter fun tx =>
        decide (tx.modelId = modelId ∧
          (tx.type = "RESOURCE_CONTRIBUTION" ∨ tx.isCollaborative = true))).map
        fun tx => tx.resourceContribution).sum := by
  intro txs
  induction txs with
  | nil => intro init; simp
  | cons t rest ih =>
    intro init
    simp only [List.foldl_cons, ih]
    by_cases h : t.modelId = modelId ∧
        (t.type = "RESOURCE_CONTRIBUTION" ∨ t.isCollaborative = true)
    · simp [List.filter, h, add_assoc]
    · simp [List.filter, h]

theorem totalResources_eq_resourceSum (l : Ledger) (modelId : String) :
    l.totalResources modelId = resourceSum l modelId := by
  unfold Ledger.totalResources resourceSum
  rw [totalResources_foldl, zero_add]

theorem sortsByScore_insertionSort : SortsByScore insertionSortByScore := by
  intro xs
  refine ⟨List.perm_insertionSort _ xs, ?_⟩
  have h := List.sorted_insertionSort (fun a b : String × ℚ => b.2 ≤ a.2) xs
  exact List.Pairwise.imp (fun hab => not_lt.2 hab) h

/-- In a map with distinct keys, `find` returns the value of every stored entry. -/
theorem StrMap.find_of_mem {β : Type} (m : StrMap β) (k : String) (v : β)
    (hnd : (m.map Prod.fst).Nodup) (h : (k, v) ∈ m) : m.find k = some v := by
  induction m with
  | nil => cases h
  | cons q rest ih =>
    obtain ⟨k0, v0⟩ := q
    simp only [List.map_cons, List.nodup_cons] at hnd
    unfold StrMap.find
    rcases List.mem_cons.1 h with h | h
    · simp only [Prod.mk.injEq] at h
      simp [h.1, h.2]
    · have hne : k ≠ k0 := by
        intro hk
        exact hnd.1 (hk ▸ List.mem_map_of_mem Prod.fst h)
      simp only [hne, if_false]
      exact ih hnd.2 h

/-- The score `getUserReputation` reports for a stored entry of a well-formed map. -/
theorem score_of_mem (l : Ledger) (hnd : (l.userReputations.map Prod.fst).Nodup)
    (p : String × ℚ) (hp : p ∈ l.userReputations.map fun q => (q.1, q.2.score)) :
    (l.getUserReputation p.1).score = p.2 := by
  obtain ⟨q, hq, rfl⟩ := List.mem_map.1 hp
  unfold Ledger.getUserReputation
  rw [StrMap.find_of_mem _ q.1 q.2 hnd hq]

theorem keys_scorePairs (l : Ledger) :
    (l.userReputations.map fun q => (q.1, q.2.score)).map Prod.fst
      = l.userReputations.map Prod.fst := by
  simp [List.map_map, Function.comp]

/-! ## The reputation store is a well-formed map in every reachable state -/

theorem keysSorted_insert {β : Type} (m : StrMap β) (k : String) (v : β)
    (h : KeysSorted m) : KeysSorted (m.insert k v) := by
  unfold KeysSorted at *
  induction m with
  | nil => simp [StrMap.insert]
  | cons q rest ih =>
    obtain ⟨k0, v0⟩ := q
    simp only [List.map_cons, List.pairwise_cons] at h
    unfold StrMap.insert
    by_cases h1 : k < k0
    · simp only [h1, if_true, List.map_cons, List.pairwise_cons]
      refine ⟨?_, h⟩
      intro x hx
      rcases List.mem_cons.1 hx with hx | hx
      · rw [hx]; exact h1
      · exact lt_trans h1 (h.1 x hx)
    · by_cases h2 : k = k0
      · subst h2
        simp only [h1, if_false, if_true, List.map_cons, List.pairwise_cons]
        exact h
      · simp only [h1, h2, if_false, List.map_cons, List.pairwise_cons]
        refine ⟨?_, ih h.2⟩
        intro x hx
        rcases (StrMap.mem_keys_insert _ _ _ _).1 hx with hx | hx
        · rw [hx]
          exact lt_of_le_of_ne (not_lt.1 h1) (Ne.symm h2)
        · exact h.1 x hx

theorem KeysSorted.nodup {β : Type} {m : StrMap β} (h : KeysSorted m) :
    (m.map Prod.fst).Nodup :=
  List.Pairwise.imp (fun hab => ne_of_lt hab) h

/-- Whatever a call does to the reputation store, it does by `map[key] = value`
assignments: a property of the store that every such assignment keeps is kept by every
call. -/
theorem userReputations_run (P : StrMap UserReputation → Prop)
    (hP : ∀ m k v, P m → P (StrMap.insert m k v)) (lib : StdLib) (l : Ledger) (c : Call)
    (h : P l.userReputations) : P (Call.run lib l c).1.userReputations := by
  have hup : ∀ (l' : Ledger) (u : String) (d : ℚ), P l'.userReputations →
      P (l'.updateReputationScore u d).userReputations := by
    intro l' u d h'
    unfold Ledger.updateReputationScore
    exact hP _ _ _ h'
  have hfold : ∀ (ps : StrMap ℚ) (l' : Ledger), P l'.userReputations →
      P (ps.foldl (fun l p => updateReputationScore l p.1 (p.2 * (1 / 100))) l').userReputations := by
    intro ps
    induction ps with
    | nil => intro l' h'; exact h'
    | cons p rest ih => intro l' h'; exact ih _ (hup l' _ _ h')
  cases c with
  | addTransaction now type modelId sender receiver amount rentalDuration =>
    simp only [Call.run, addTransaction_eq]
    exact h
  | addCollaborativeTransaction now modelId contributors contributions =>
    simp only [Call.run, Ledger.addCollaborativeTransaction]
    split_ifs <;> exact h
  | distributeRewards now modelId totalReward =>
    simp only [Call.run, distributeRewards_eq]
    exact hfold _ l h
  | rollbackVersion now modelId targetVersion =>
    simp only [Call.run, rollbackVersion_eq]
    split_ifs <;> exact h
  | updateResourceContribution now userId hours =>
    simp only [Call.run, Ledger.updateResourceContribution, addTransaction_eq]
    exact hup l _ _ h
  | updateRewardShares now modelId shares => exact h
  | addVote now modelId voterId rating review =>
    simp only [Call.run, Ledger.addVote]
    split_ifs
    · exact h
    · split
      · exact hup _ _ _ h
      · exact h
  | addModelVersion modelId version => exact h
  | addDocumentation now modelId authorId content tags => exact hup _ _ _ h
  | upvoteDocumentation modelId voterId =>
    simp only [Call.run, Ledger.upvoteDocumentation]
    split
    · exact h
    · exact hup _ _ _ h
  | addDocComment modelId userId comment =>
    simp only [Call.run, Ledger.addDocComment]
    split
    · exact h
    · exact hup _ _ _ h
  | updateQualityMetrics modelId metrics => exact h
  | validateModel now modelId validatorId => exact hup _ _ _ h
  | trackResourceUsage modelId usage => exact h
  | optimizeResourceAllocation modelId => exact h

/-- In every state reached from the empty ledger the reputation store has strictly
increasing keys, as a `std::map` has. -/
theorem keysSorted_runAll (lib : StdLib) (calls : List Call) : ∀ (l : Ledger),
    KeysSorted l.userReputations → KeysSorted (Call.runAll lib l calls).userReputations := by
  induction calls with
  | nil => intro l h; exact h
  | cons c rest ih =>
    intro l h
    exact ih _ (userReputations_run KeysSorted (fun m k v => keysSorted_insert m k v) lib l c h)

/-! ## The reputation store keeps no order of entry -/

/-- Two maps in key order with the same entries are the same list. -/
theorem eq_of_keysSorted_of_mem_iff {β : Type} (m₁ m₂ : StrMap β) (h₁ : KeysSorted m₁)
    (h₂ : KeysSorted m₂) (hmem : ∀ entry : String × β, entry ∈ m₁ ↔ entry ∈ m₂) :
    m₁ = m₂ := by
  haveI : IsAntisymm (String × β) (fun a b => a.1 < b.1) :=
    ⟨fun _ _ hab hba => absurd hab (lt_asymm hba)⟩
  have hperm : m₁.Perm m₂ :=
    (List.perm_ext_iff_of_nodup (List.Nodup.of_map Prod.fst h₁.nodup)
      (List.Nodup.of_map Prod.fst h₂.nodup)).2 hmem
  exact List.eq_of_perm_of_sorted hperm (List.pairwise_map.1 h₁) (List.pairwise_map.1 h₂)

/-! ## Records and votes in reachable states -/

/-- A call leaves the record sequence as it is or appends one record, whose resource
contribution is not negative. -/
theorem transactions_run (lib : StdLib) (l : Ledger) (c : Call) :
    (Call.run lib l c).1.transactions = l.transactions ∨
    ∃ tx : Transaction, 0 ≤ tx.resourceContribution ∧
      (Call.run lib l c).1.transactions = l.transactions ++ [tx] := by
  cases c with
  | addTransaction now type modelId sender receiver amount rentalDuration =>
    simp only [Call.run, addTransaction_eq]
    exact Or.inr ⟨_, le_refl _, rfl⟩
  | addCollaborativeTransaction now modelId contributors contributions =>
    simp only [Call.run, Ledger.addCollaborativeTransaction, verifySignature_sign,
      Bool.not_true, Bool.false_eq_true, if_false]
    split_ifs with h1 h2
    · exact Or.inl rfl
    · exact Or.inl rfl
    · refine Or.inr ⟨_, ?_, rfl⟩
      exact le_of_lt (not_le.1 h2)
  | distributeRewards now modelId totalReward =>
    simp only [Call.run, distributeRewards_eq]
    exact Or.inr ⟨_, le_refl _, rfl⟩
  | rollbackVersion now modelId targetVersion =>
    simp only [Call.run, rollbackVersion_eq]
    split_ifs
    · exact Or.inr ⟨_, le_refl _, rfl⟩
    · exact Or.inl rfl
  | updateResourceContribution now userId hours =>
    simp only [Call.run, Ledger.updateResourceContribution, addTransaction_eq]
    exact Or.inr ⟨_, le_refl _, rfl⟩
  | updateRewardShares now modelId shares => exact Or.inr ⟨_, le_refl _, rfl⟩
  | addVote now modelId voterId rating review =>
    simp only [Call.run, Ledger.addVote]
    split_ifs
    · exact Or.inl rfl
    · split <;> exact Or.inl rfl
  | addModelVersion modelId version => exact Or.inl rfl
  | addDocumentation now modelId authorId content tags => exact Or.inl rfl
  | upvoteDocumentation modelId voterId =>
    simp only [Call.run, Ledger.upvoteDocumentation]
    split <;> exact Or.inl rfl
  | addDocComment modelId userId comment =>
    simp only [Call.run, Ledger.addDocComment]
    split <;> exact Or.inl rfl
  | updateQualityMetrics modelId metrics => exact Or.inl rfl
  | validateModel now modelId validatorId => exact Or.inl rfl
  | trackResourceUsage modelId usage => exact Or.inl rfl
  | optimizeResourceAllocation modelId => exact Or.inl rfl

/-- A call leaves the votes as they are or appends one vote with a rating from 1 to 5 to
the list of one model. -/
theorem modelVotes_run (lib : StdLib) (l : Ledger) (c : Call) :
    (Call.run lib l c).1.modelVotes = l.modelVotes ∨
    ∃ (m : String) (v : Vote), (1 ≤ v.rating ∧ v.rating ≤ 5) ∧
      (Call.run lib l c).1.modelVotes
        = l.modelVotes.insert m ((l.modelVotes.find m).getD [] ++ [v]) := by
  cases c with
  | addTransaction now type modelId sender receiver amount rentalDuration =>
    simp only [Call.run, addTransaction_eq]
    exact Or.inl rfl
  | addCollaborativeTransaction now modelId contributors contributions =>
    simp only [Call.run, Ledger.addCollaborativeTransaction]
    split_ifs <;> exact Or.inl rfl
  | distributeRewards now modelId totalReward =>
    simp only [Call.run, distributeRewards_eq]
    left
    generalize payouts (accumulateShares l modelId).1 (accumulateShares l modelId).2 totalReward
      = ps
    have : ∀ (ps : StrMap ℚ) (l' : Ledger),
        (ps.foldl (fun l p => updateReputationScore l p.1 (p.2 * (1 / 100))) l').modelVotes
          = l'.modelVotes := by
      intro ps
      induction ps with
      | nil => intro l'; rfl
      | cons p rest ih => intro l'; simp only [List.foldl_cons, ih]; rfl
    exact this ps l
  | rollbackVersion now modelId targetVersion =>
    simp only [Call.run, rollbackVersion_eq]
    split_ifs <;> exact Or.inl rfl
  | updateResourceContribution now userId hours =>
    simp only [Call.run, Ledger.updateResourceContribution, addTransaction_eq]
    exact Or.inl rfl
  | updateRewardShares now modelId shares => exact Or.inl rfl
  | addVote now modelId voterId rating review =>
    simp only [Call.run, Ledger.addVote]
    split_ifs with h
    · exact Or.inl rfl
    · have hr : 1 ≤ rating ∧ rating ≤ 5 := by omega
      split
      · exact Or.inr ⟨modelId, Vote.mk modelId voterId rating review now, hr, rfl⟩
      · exact Or.inr ⟨modelId, Vote.mk modelId voterId rating review now, hr, rfl⟩
  | addModelVersion modelId version => exact Or.inl rfl
  | addDocumentation now modelId authorId content tags => exact Or.inl rfl
  | upvoteDocumentation modelId voterId =>
    simp only [Call.run, Ledger.upvoteDocumentation]
    split <;> exact Or.inl rfl
  | addDocComment modelId userId comment =>
    simp only [Call.run, Ledger.addDocComment]
    split <;> exact Or.inl rfl
  | updateQualityMetrics modelId metrics => exact Or.inl rfl
  | validateModel now modelId validatorId => exact Or.inl rfl
  | trackResourceUsage modelId usage => exact Or.inl rfl
  | optimizeResourceAllocation modelId => exact Or.inl rfl

theorem recordsNonneg_runAll (lib : StdLib) (calls : List Call) : ∀ (l : Ledger),
    RecordsNonneg l → RecordsNonneg (Call.runAll lib l calls) := by
  induction calls with
  | nil => intro l h; exact h
  | cons c rest ih =>
    intro l h
    apply ih
    intro tx htx
    rcases transactions_run lib l c with h1 | ⟨t, ht, h1⟩
    · rw [h1] at htx; exact h tx htx
    · rw [h1] at htx
      rcases List.mem_append.1 htx with h2 | h2
      · exact h tx h2
      · rw [List.mem_singleton.1 h2]; exact ht

theorem votesInRange_runAll (lib : StdLib) (calls : List Call) : ∀ (l : Ledger),
    VotesInRange l → VotesInRange (Call.runAll lib l calls) := by
  induction calls with
  | nil => intro l h; exact h
  | cons c rest ih =>
    intro l h
    apply ih
    intro p hp v hv
    rcases modelVotes_run lib l c with h1 | ⟨m, w, hw, h1⟩
    · rw [h1] at hp; exact h p hp v hv
    · rw [h1] at hp
      rcases StrMap.mem_insert _ _ _ _ hp with h2 | h2
      · rw [h2] at hv
        rcases List.mem_append.1 hv with h3 | h3
        · cases hf : l.modelVotes.find m with
          | none => rw [hf] at h3; cases h3
          | some votes =>
            rw [hf] at h3
            exact h _ (StrMap.mem_of_find_eq_some _ _ _ hf) v h3
        · rw [List.mem_singleton.1 h3]; exact hw
      · exact h p h2 v hv

theorem resourceSum_nonneg (l : Ledger) (h : RecordsNonneg l) (modelId : String) :
    0 ≤ resourceSum l modelId := by
  unfold resourceSum
  apply List.sum_nonneg
  intro x hx
  obtain ⟨tx, htx, rfl⟩ := List.mem_map.1 hx
  exact h tx (List.mem_of_mem_filter htx)

theorem getModelRating_nonneg (l : Ledger) (h : VotesInRange l) (modelId : String) :
    0 ≤ l.getModelRating modelId := by
  unfold Ledger.getModelRating
  cases hf : l.modelVotes.find modelId with
  | none => exact le_refl _
  | some votes =>
    simp only
    split_ifs
    · exact le_refl _
    · rw [foldl_add_rating, zero_add]
      apply div_nonneg
      · apply List.sum_nonneg
        intro x hx
        obtain ⟨v, hv, rfl⟩ := List.mem_map.1 hx
        have := (h _ (StrMap.mem_of_find_eq_some _ _ _ hf) v hv).1
        exact_mod_cast le_trans (by decide : (0 : Int) ≤ 1) this
      · exact Nat.cast_nonneg _

theorem monotone_linearLog : Monotone linearLogLib.log10 :=
  fun _ _ h => sub_le_sub_right h 1

/-! ## Rentals and version history -/

/-- Records are never removed or changed: a record of the ledger is still a record after
any sequence of public calls. -/
theorem mem_transactions_runAll (lib : StdLib) (tx : Transaction) (calls : List Call) :
    ∀ (l : Ledger), tx ∈ l.transactions → tx ∈ (Call.runAll lib l calls).transactions := by
  induction calls with
  | nil => intro l h; exact h
  | cons c rest ih =>
    intro l h
    apply ih
    rcases transactions_run lib l c with h1 | ⟨t, _, h1⟩
    · rw [h1]; exact h
    · rw [h1]; exact List.mem_append_left _ h

/-- `getVersionHistory` reads the stored history, or the empty one. -/
theorem getVersionHistory_eq (l : Ledger) (modelId : String) :
    l.getVersionHistory modelId = (l.versionHistory.find modelId).getD [] := by
  unfold Ledger.getVersionHistory
  cases l.versionHistory.find modelId <;> rfl

/-! ## The agent: validation, score clamping, bounded history -/

/-- The clamp `std::max(0.1, std::min(score, 2.0))` lands in the interval. -/
theorem clamp_range (score : ℚ) :
    1 / 10 ≤ stdMax (1 / 10) (stdMin score 2) ∧ stdMax (1 / 10) (stdMin score 2) ≤ 2 := by
  unfold stdMax stdMin
  split_ifs with h1 h2 h2
  · exact ⟨by norm_num, le_refl _⟩
  · exact ⟨by norm_num, by norm_num⟩
  · exact ⟨le_of_lt h2, le_of_not_lt h1⟩
  · exact ⟨le_refl _, by norm_num⟩

theorem decisionHistory_updateBehavior (a : ModelAgent) (context : AgentContext)
    (success : Bool) :
    (a.updateBehavior context success).decisionHistory = a.decisionHistory := rfl

theorem keys_updateBehavior (a : ModelAgent) (context : AgentContext) (success : Bool) :
    (a.updateBehavior context success).actionScores.map Prod.fst
      = a.actionScores.map Prod.fst := by
  simp only [ModelAgent.updateBehavior, List.map_map]
  apply List.map_congr_left
  intro entry _
  rfl

theorem scoresInRange_updateBehavior (a : ModelAgent) (context : AgentContext)
    (success : Bool) : ScoresInRange (a.updateBehavior context success) := by
  intro entry hentry
  simp only [ModelAgent.updateBehavior, List.mem_map] at hentry
  obtain ⟨e, _, he⟩ := hentry
  rw [← he]
  exact clamp_range _

theorem actionScores_logDecision (a : ModelAgent) (action : AgentAction)
    (context : AgentContext) (success : Bool) :
    (a.logDecision action context success).actionScores = a.actionScores := rfl

/-- `logDecision` keeps the history within 1000 entries. -/
theorem length_logDecision (a : ModelAgent) (action : AgentAction) (context : AgentContext)
    (success : Bool) (h : a.decisionHistory.length ≤ 1000) :
    (a.logDecision action context success).decisionHistory.length ≤ 1000 := by
  simp only [ModelAgent.logDecision]
  split_ifs with h1
  · simp only [List.length_tail, List.length_append, List.length_singleton]
    omega
  · omega

/-- On a full history `logDecision` drops the oldest entry and appends the new one. -/
theorem logDecision_full (a : ModelAgent) (action : AgentAction) (context : AgentContext)
    (success : Bool) (h : a.decisionHistory.length = 1000) :
    (a.logDecision action context success).decisionHistory
      = a.decisionHistory.tail ++ [Decision.mk action context success] := by
  simp only [ModelAgent.logDecision]
  rw [if_pos (by simp only [List.length_append, List.length_singleton]; omega)]
  cases hd : a.decisionHistory with
  | nil => rw [hd] at h; simp at h
  | cons d rest => rfl

/-- Below 1000 entries `logDecision` only appends. -/
theorem logDecision_not_full (a : ModelAgent) (action : AgentAction)
    (context : AgentContext) (success : Bool) (h : a.decisionHistory.length < 1000) :
    (a.logDecision action context success).decisionHistory
      = a.decisionHistory ++ [Decision.mk action context success] := by
  simp only [ModelAgent.logDecision]
  rw [if_neg (by simp only [List.length_append, List.length_singleton]; omega)]

/-- A map with the four action keys has one entry for each. -/
theorem fourKeys_eq (m : RankMap AgentAction ℚ)
    (h : m.map Prod.fst
      = [AgentAction.ANALYZE, AgentAction.TRAIN, AgentAction.PROCESS, AgentAction.WAIT]) :
    ∃ s0 s1 s2 s3 : ℚ, m = [(AgentAction.ANALYZE, s0), (AgentAction.TRAIN, s1),
      (AgentAction.PROCESS, s2), (AgentAction.WAIT, s3)] := by
  match m, h with
  | [(k0, s0), (k1, s1), (k2, s2), (k3, s3)], h =>
    simp only [List.map_cons, List.map_nil, List.cons.injEq, and_true] at h
    obtain ⟨h0, h1, h2, h3⟩ := h
    subst h0 h1 h2 h3
    exact ⟨s0, s1, s2, s3, rfl⟩

/-- Assigning to an entry of a map with the four action keys keeps the keys. -/
theorem fourKeys_insert (m : RankMap AgentAction ℚ)
    (h : m.map Prod.fst
      = [AgentAction.ANALYZE, AgentAction.TRAIN, AgentAction.PROCESS, AgentAction.WAIT])
    (k : AgentAction) (v : ℚ) :
    (m.insert k v).map Prod.fst
      = [AgentAction.ANALYZE, AgentAction.TRAIN, AgentAction.PROCESS, AgentAction.WAIT] := by
  obtain ⟨s0, s1, s2, s3, rfl⟩ := fourKeys_eq m h
  cases k <;> rfl

/-- Reading an entry of a map with the four action keys does not change the map. -/
theorem fourKeys_touch (m : RankMap AgentAction ℚ)
    (h : m.map Prod.fst
      = [AgentAction.ANALYZE, AgentAction.TRAIN, AgentAction.PROCESS, AgentAction.WAIT])
    (k : AgentAction) (v : ℚ) : m.touch k v = m := by
  obtain ⟨s0, s1, s2, s3, rfl⟩ := fourKeys_eq m h
  cases k <;> rfl

theorem fourScores_new (model : AIModel) : FourScores (ModelAgent.new model) := rfl

theorem decisionHistory_evaluateAction (a : ModelAgent) (action : AgentAction)
    (context : AgentContext) :
    (a.evaluateAction action context).1.decisionHistory = a.decisionHistory := rfl

theorem actionScores_evaluateAction (a : ModelAgent) (action : AgentAction)
    (context : AgentContext) :
    (a.evaluateAction action context).1.actionScores = a.actionScores.touch action 0 := rfl

/-- The loop of `decideNextAction` evaluates one score for each entry and keeps what
`evaluateAction` keeps. -/
theorem decideNextAction_loop (context : AgentContext) (entries : List (AgentAction × ℚ)) :
    ∀ (a : ModelAgent) (scores : List (AgentAction × ℚ)), FourScores a →
      FourScores (entries.foldl
        (fun (acc : ModelAgent × List (AgentAction × ℚ)) entry =>
          ((acc.1.evaluateAction entry.1 context).1,
            acc.2 ++ [(entry.1, (acc.1.evaluateAction entry.1 context).2)]))
        (a, scores)).1 ∧
      (entries.foldl
        (fun (acc : ModelAgent × List (AgentAction × ℚ)) entry =>
          ((acc.1.evaluateAction entry.1 context).1,
            acc.2 ++ [(entry.1, (acc.1.evaluateAction entry.1 context).2)]))
        (a, scores)).1.decisionHistory = a.decisionHistory ∧
      (entries.foldl
        (fun (acc : ModelAgent × List (AgentAction × ℚ)) entry =>
          ((acc.1.evaluateAction entry.1 context).1,
            acc.2 ++ [(entry.1, (acc.1.evaluateAction entry.1 context).2)]))
        (a, scores)).2.length = scores.length + entries.length := by
  induction entries with
  | nil => intro a scores h; exact ⟨h, rfl, rfl⟩
  | cons e rest ih =>
    intro a scores h
    have h1 : FourScores (a.evaluateAction e.1 context).1 := by
      unfold FourScores
      rw [actionScores_evaluateAction, fourKeys_touch _ h]
      exact h
    obtain ⟨i1, i2, i3⟩ := ih (a.evaluateAction e.1 context).1
      (scores ++ [(e.1, (a.evaluateAction e.1 context).2)]) h1
    refine ⟨i1, i2, i3.trans ?_⟩
    rw [List.length_append, List.length_cons, List.length_cons, List.length_nil]
    omega

theorem maxElement_isSome (scores : List (AgentAction × ℚ)) (h : scores ≠ []) :
    ∃ best, maxElement scores = some best := by
  cases scores with
  | nil => exact absurd rfl h
  | cons x rest => exact ⟨_, rfl⟩

/-- With the four scores present `decideNextAction` is defined; it keeps the keys of the
scores and the decision history. -/
theorem decideNextAction_defined (showDouble : ℚ → String) (a : ModelAgent)
    (context : AgentContext) (h : FourScores a) :
    ∃ r, a.decideNextAction showDouble context = some r ∧ FourScores r.1 ∧
      r.1.decisionHistory = a.decisionHistory := by
  obtain ⟨i1, i2, i3⟩ := decideNextAction_loop context a.actionScores a [] h
  have hne : (a.actionScores.foldl
      (fun (acc : ModelAgent × List (AgentAction × ℚ)) entry =>
        ((acc.1.evaluateAction entry.1 context).1,
          acc.2 ++ [(entry.1, (acc.1.evaluateAction entry.1 context).2)]))
      (a, [])).2 ≠ [] := by
    intro h0
    rw [h0] at i3
    have h4 : a.actionScores.length = 4 := by
      have := congrArg List.length h
      simpa using this
    simp [h4] at i3
  obtain ⟨best, hb⟩ := maxElement_isSome _ hne
  unfold ModelAgent.decideNextAction
  simp only [hb]
  exact ⟨_, rfl, i1, i2⟩

theorem fourScores_executeAction (rnd : Nat → ℚ) (a : ModelAgent) (action : AgentAction)
    (context : AgentContext) (h : FourScores a) :
    FourScores (a.executeAction rnd action context) := by
  unfold ModelAgent.executeAction
  cases ModelAgent.runAction rnd a.model action context <;>
    · unfold FourScores
      rw [keys_updateBehavior]
      exact h

theorem length_executeAction (rnd : Nat → ℚ) (a : ModelAgent) (action : AgentAction)
    (context : AgentContext) (h : a.decisionHistory.length ≤ 1000) :
    (a.executeAction rnd action context).decisionHistory.length ≤ 1000 := by
  unfold ModelAgent.executeAction
  cases ModelAgent.runAction rnd a.model action context <;>
    · rw [decisionHistory_updateBehavior]
      exact length_logDecision _ _ _ _ h

theorem scoresInRange_executeAction (rnd : Nat → ℚ) (a : ModelAgent) (action : AgentAction)
    (context : AgentContext) : ScoresInRange (a.executeAction rnd action context) := by
  unfold ModelAgent.executeAction
  cases ModelAgent.runAction rnd a.model action context <;> exact scoresInRange_updateBehavior _ _ _

theorem keys_executeAction (rnd : Nat → ℚ) (a : ModelAgent) (action : AgentAction)
    (context : AgentContext) :
    (a.executeAction rnd action context).actionScores.map Prod.fst
      = a.actionScores.map Prod.fst := by
  unfold ModelAgent.executeAction
  cases ModelAgent.runAction rnd a.model action context <;> exact keys_updateBehavior _ _ _

theorem fourScores_learn (a : ModelAgent) (context : AgentContext) (feedback : String)
    (h : FourScores a) : FourScores (a.learn context feedback) := by
  unfold ModelAgent.learn
  simp only
  split_ifs
  · exact fourKeys_insert _ h _ _
  · exact fourKeys_insert _ h _ _
  · exact h

theorem decisionHistory_learn (a : ModelAgent) (context : AgentContext) (feedback : String) :
    (a.learn context feedback).decisionHistory = a.decisionHistory := by
  unfold ModelAgent.learn
  simp only
  split_ifs <;> rfl

/-- Every call is defined on an agent with the four scores and at most 1000 decisions,
and leaves such an agent. -/
theorem agent_run (showDouble : ℚ → String) (a : ModelAgent) (c : AgentCall)
    (hs : FourScores a) (hh : a.decisionHistory.length ≤ 1000) :
    ∃ r, AgentCall.run showDouble a c = some r ∧ FourScores r ∧
      r.decisionHistory.length ≤ 1000 := by
  cases c with
  | processContext rnd context =>
    simp only [AgentCall.run, ModelAgent.processContext]
    split_ifs with hv
    · exact ⟨_, rfl, hs, hh⟩
    · obtain ⟨r, hr, h1, h2⟩ :=
        decideNextAction_defined showDouble (a.setState .PROCESSING) context hs
      rw [hr]
      refine ⟨_, rfl, fourScores_executeAction rnd _ _ _ h1, length_executeAction rnd _ _ _ ?_⟩
      rw [h2]
      exact hh
  | decideNextAction context =>
    obtain ⟨r, hr, h1, h2⟩ := decideNextAction_defined showDouble a context hs
    simp only [AgentCall.run, hr, Option.map]
    exact ⟨_, rfl, h1, by rw [h2]; exact hh⟩
  | executeAction rnd action context =>
    exact ⟨_, rfl, fourScores_executeAction rnd a action context hs,
      length_executeAction rnd a action context hh⟩
  | setState newState => exact ⟨_, rfl, hs, hh⟩
  | evaluateAction action context =>
    refine ⟨_, rfl, ?_, hh⟩
    unfold FourScores
    rw [actionScores_evaluateAction, fourKeys_touch _ hs]
    exact hs
  | updateBehavior context success =>
    refine ⟨_, rfl, ?_, hh⟩
    unfold FourScores
    rw [keys_updateBehavior]
    exact hs
  | learn context feedback =>
    exact ⟨_, rfl, fourScores_learn a context feedback hs,
      by rw [decisionHistory_learn]; exact hh⟩
  | modelChanged model => exact ⟨_, rfl, hs, hh⟩

/-- Every sequence of calls is defined on such an agent and leaves such an agent. -/
theorem agent_runAll (showDouble : ℚ → String) (calls : List AgentCall) :
    ∀ (a : ModelAgent), FourScores a → a.decisionHistory.length ≤ 1000 →
      ∃ r, AgentCall.runAll showDouble a calls = some r ∧ FourScores r ∧
        r.decisionHistory.length ≤ 1000 := by
  induction calls with
  | nil => intro a hs hh; exact ⟨a, rfl, hs, hh⟩
  | cons c rest ih =>
    intro a hs hh
    obtain ⟨r, hr, h1, h2⟩ := agent_run showDouble a c hs hh
    obtain ⟨r2, hr2, h3, h4⟩ := ih r h1 h2
    exact ⟨r2, by simp only [AgentCall.runAll, hr]; exact hr2, h3, h4⟩

/-- The contexts `validateContext` rejects. -/
theorem validateContext_eq_false_iff (a : ModelAgent) (context : AgentContext) :
    a.validateContext context = false ↔ InvalidContext a context := by
  unfold ModelAgent.validateContext InvalidContext
  cases hs : a.model.supportsMediaType context.mediaType
  · simp
  · cases hm : context.mediaType <;> simp

/-- A run of the embedding: a new agent on the text-only model processes `"hello"` in mode
`analysis`.  `ANALYZE` and `TRAIN` both evaluate to 1.2 and the first of them is chosen;
the scores become 1.32, 1.2, 1.2 and 0.6. -/
theorem processContext_analysis_run :
    (AgentCall.runAll fixed6 (ModelAgent.new demoModel)
        [AgentCall.processContext zeroDraws analysisContext]).map
      (fun r => (r.state, r.lastReasoning, r.actionScores))
      = some (AgentState.PROCESSING,
          "Selected action: 0 for media type 1 because: Input requires analysis (mode: analysis)",
          [(AgentAction.ANALYZE, 33 / 25), (AgentAction.TRAIN, 6 / 5),
           (AgentAction.PROCESS, 6 / 5), (AgentAction.WAIT, 3 / 5)]) ∧
    (AgentCall.runAll fixed6 (ModelAgent.new demoModel)
        [AgentCall.processContext zeroDraws analysisContext]).map
      (fun r => (r.decisionHistory, r.model))
      = some ([Decision.mk AgentAction.ANALYZE analysisContext true], demoModel) := by
  decide!

/-- A run of the embedding: executing `TRAIN` for an image on the text-only model throws
inside the `try` block, so the failure is logged, the state is `ERROR` and the scores
are multiplied by 0.8. -/
theorem executeAction_unsupported_run :
    ((ModelAgent.new demoModel).executeAction zeroDraws AgentAction.TRAIN imageContext).state
      = AgentState.ERROR ∧
    ((ModelAgent.new demoModel).executeAction zeroDraws AgentAction.TRAIN
      imageContext).actionScores
      = [(AgentAction.ANALYZE, 4 / 5), (AgentAction.TRAIN, 4 / 5),
         (AgentAction.PROCESS, 4 / 5), (AgentAction.WAIT, 2 / 5)] ∧
    ((ModelAgent.new demoModel).executeAction zeroDraws AgentAction.TRAIN
      imageContext).decisionHistory = [Decision.mk AgentAction.TRAIN imageContext false] ∧
    ((ModelAgent.new demoModel).executeAction zeroDraws AgentAction.TRAIN imageContext).model
      = demoModel := by
  decide!

/-! ## Rounded addition -/

/-- Values of `roundDouble`: the doubles written `0.1` and `1.0 / 3.0`, and the two
neighbours of `2 ^ 53 + 1` and `2 ^ 53 + 3`, where the spacing of the doubles is 2. -/
theorem roundDouble_values :
    roundDouble (1 / 10) = 3602879701896397 / 36028797018963968 ∧
    roundDouble (1 / 3) = 6004799503160661 / 18014398509481984 ∧
    roundDouble 9007199254740993 = 9007199254740992 ∧
    roundDouble 9007199254740995 = 9007199254740996 ∧
    roundDouble (-5 / 2) = -5 / 2 := by
  decide!

/-! ## The claims -/

/-- C1 (code at the failing input): from the empty ledger, `addTransaction("CREATE", "m",
"a", "", 0)` and then `addCollaborativeTransaction("m", {"a", "a"}, {1, 3})` both succeed,
and `verifyChain()` returns false afterwards: the scan stops at record 1, whose single
stored share is 3/4. -/
theorem verifyChain_false_after_duplicate_contributor :
    (Call.run demoLib Ledger.empty (Call.addTransaction 0 "CREATE" "m" "a" "" 0 0)).2 = true ∧
    (Call.run demoLib
      (Call.runAll demoLib Ledger.empty [Call.addTransaction 0 "CREATE" "m" "a" "" 0 0])
      (Call.addCollaborativeTransaction 0 "m" ["a", "a"] [1, 3])).2 = true ∧
    verifyChain demoLib (Call.runAll demoLib Ledger.empty duplicateContributorCalls) = false ∧
    firstInvalid demoLib (Call.runAll demoLib Ledger.empty duplicateContributorCalls).transactions
      = some 1 := by
  decide!

/-- C2 (counterexample): on a ledger that `verifyChain` accepts, raising the `amount` of
record 1 from 3 to 3.0000001, or setting the `resourceContribution` of that
non-collaborative record to 5, gives a different record, and `verifyChain` still
returns true. -/
theorem tampering_undetected_counterexample :
    verifyChain demoLib tamperDemoLedger = true ∧
    (recordAt tamperDemoLedger 1).amount = 3 ∧
    (recordAt tamperDemoLedger 1).resourceContribution = 0 ∧
    ({ recordAt tamperDemoLedger 1 with amount := 3 + 1 / 10000000 } : Transaction)
      ≠ recordAt tamperDemoLedger 1 ∧
    verifyChain demoLib (replaceRecord tamperDemoLedger 1
      { recordAt tamperDemoLedger 1 with amount := 3 + 1 / 10000000 }) = true ∧
    ({ recordAt tamperDemoLedger 1 with resourceContribution := 5 } : Transaction)
      ≠ recordAt tamperDemoLedger 1 ∧
    verifyChain demoLib (replaceRecord tamperDemoLedger 1
      { recordAt tamperDemoLedger 1 with resourceContribution := 5 }) = true := by
  decide!

/-- C2 (amended): on a ledger that `verifyChain` accepts, replacing the committed record
at index `i` by a copy with one field changed (`Tampered`: any different value of type,
modelId, from, to, timestamp, expiryTime, previousHash or isCollaborative; a value of
amount, contributors, resourceContribution or rewardShares that alters the hashed text)
makes `verifyChain` return false with the failure at index `i`, provided `hashString`
collides neither on the old and new hashed texts nor on their key-prefixed digests. -/
theorem tampering_detected_at_index (lib : StdLib) (l : Ledger) (i : Nat)
    (tx tx' : Transaction)
    (hvalid : verifyChain lib l = true)
    (hi : l.transactions[i]? = some tx)
    (htamper : Tampered tx tx')
    (hc₁ : NoCollision lib tx'.hashData tx.hashData)
    (hc₂ : NoCollision lib ("mock_private_key" ++ tx'.calculateHash lib)
      ("mock_private_key" ++ tx.calculateHash lib)) :
    verifyChain lib (replaceRecord l i tx') = false ∧
    firstInvalid lib (replaceRecord l i tx').transactions = some i := by
  have hv : firstInvalid lib l.transactions = none := by
    simpa [verifyChain] using hvalid
  have hsigok := firstInvalid_verifySignature lib tx _ i hi hv
  have hbad := verifySignature_tampered lib tx tx' hsigok htamper.signature_eq
    htamper.hashData_ne hc₁ hc₂
  have hres := firstInvalid_set lib tx tx' hbad _ i hi hv
  exact ⟨by simp [verifyChain, replaceRecord, hres], hres⟩

/-- C2 (witness): changing the `amount` of record 1 of the two-record ledger from 3 to 4
is detected at index 1. -/
theorem tampering_detected_at_index_witness :
    verifyChain demoLib tamperDemoLedger = true ∧
    (verifyChain demoLib
        (replaceRecord tamperDemoLedger 1 { recordAt tamperDemoLedger 1 with amount := 4 })
      = false ∧
    firstInvalid demoLib
      (replaceRecord tamperDemoLedger 1
        { recordAt tamperDemoLedger 1 with amount := 4 }).transactions
      = some 1) :=
  ⟨by decide!,
   tampering_detected_at_index demoLib tamperDemoLedger 1 (recordAt tamperDemoLedger 1)
    { recordAt tamperDemoLedger 1 with amount := 4 } (by decide!) (by decide!)
    (Tampered.amount 4 (by decide!)) (by unfold NoCollision; decide!)
    (by unfold NoCollision; decide!)⟩

/-- C3 (code at the failing input): `addCollaborativeTransaction("m", {"a", "a"}, {1, 3})`
on the empty ledger succeeds and stores the single share `a ↦ 3/4`: the first listed
contribution 1 is not mapped to 1/4, and the stored shares sum to 3/4, not 1. -/
theorem rewardShares_duplicate_contributor_not_normalized :
    (Ledger.empty.addCollaborativeTransaction demoLib 0 "m" ["a", "a"] [1, 3]).failed = false ∧
    (Ledger.empty.addCollaborativeTransaction demoLib 0 "m" ["a", "a"]
      [1, 3]).ledger.transactions.map (fun tx => tx.rewardShares) = [[("a", 3 / 4)]] ∧
    (Ledger.empty.addCollaborativeTransaction demoLib 0 "m" ["a", "a"]
      [1, 3]).ledger.transactions.map totalShares = [3 / 4] := by
  decide!

/-- C4 (counterexample): `a` and `b` have the same positive score 1/5 and contributed 2
and 1 in the one collaborative record of `"m"`; `distributeRewards("m", 300)` computes the
payouts 150 and 150 and raises both scores by 3/2. -/
theorem distributeRewards_same_record_equal_payouts :
    (sameRecordLedger.getUserReputation "a").score = 1 / 5 ∧
    (sameRecordLedger.getUserReputation "b").score = 1 / 5 ∧
    sameRecordLedger.transactions.map (fun tx => (tx.isCollaborative, tx.rewardShares))
      = [(false, []), (false, []), (true, [("a", 2 / 3), ("b", 1 / 3)])] ∧
    payouts (accumulateShares sameRecordLedger "m").1 (accumulateShares sameRecordLedger "m").2 300
      = [("a", 150), ("b", 150)] ∧
    (sameRecordLedger.distributeRewards demoLib 0 "m" 300).failed = false ∧
    ((sameRecordLedger.distributeRewards demoLib 0 "m" 300).ledger.getUserReputation "a").score
      = 1 / 5 + 3 / 2 ∧
    ((sameRecordLedger.distributeRewards demoLib 0 "m" 300).ledger.getUserReputation "b").score
      = 1 / 5 + 3 / 2 := by
  decide!

/-- C4 (amended): when the collaborative history of the model consists of two records,
one listing only `a` and one listing only `b` (`a ≠ b`), the two users have the same
positive reputation score `s`, and the resource contribution of the record of `a` is twice
that of the record of `b`, then `distributeRewards(modelId, 300)` computes the payouts 200
for `a` and 100 for `b`, does not throw, and raises the two scores by 2 and by 1. -/
theorem distributeRewards_two_records_payouts (lib : StdLib) (l : Ledger) (now : Int) (modelId a b : String)
    (ra rb : Transaction) (s c : ℚ)
    (hhist : (l.transactions.filter fun t =>
        decide (t.modelId = modelId ∧ t.isCollaborative = true)) = [ra, rb] ∨
      (l.transactions.filter fun t =>
        decide (t.modelId = modelId ∧ t.isCollaborative = true)) = [rb, ra])
    (ha : ra.contributors = [a]) (hb : rb.contributors = [b]) (hab : a ≠ b)
    (hsa : (l.getUserReputation a).score = s) (hsb : (l.getUserReputation b).score = s)
    (hs : 0 < s)
    (hca : ra.resourceContribution = 2 * c) (hcb : rb.resourceContribution = c) (hc : 0 < c) :
    (payouts (accumulateShares l modelId).1 (accumulateShares l modelId).2 300).find a = some 200 ∧
    (payouts (accumulateShares l modelId).1 (accumulateShares l modelId).2 300).find b = some 100 ∧
    (l.distributeRewards lib now modelId 300).failed = false ∧
    ((l.distributeRewards lib now modelId 300).ledger.getUserReputation a).score = s + 2 ∧
    ((l.distributeRewards lib now modelId 300).ledger.getUserReputation b).score = s + 1 := by
  have hs0 : s ≠ 0 := ne_of_gt hs
  have hc0 : c ≠ 0 := ne_of_gt hc
  have hpa : s * (2 * c) / (s * (2 * c) + s * c) * 300 = 200 := by
    field_simp; ring
  have hpb : s * c / (s * (2 * c) + s * c) * 300 = 100 := by
    field_simp; ring
  have hshape : payouts (accumulateShares l modelId).1 (accumulateShares l modelId).2 300
        = [(a, 200), (b, 100)] ∨
      payouts (accumulateShares l modelId).1 (accumulateShares l modelId).2 300
        = [(b, 100), (a, 200)] := by
    rcases hhist with h | h
    · rw [accumulateShares_two l modelId a b ra rb h ha hb hab, hsa, hsb, hca, hcb]
      rcases insert_insert_nil a b (s * (2 * c)) (s * c) hab with h2 | h2
      · exact Or.inl (by simp only [h2, payouts, List.map, hpa, hpb])
      · exact Or.inr (by simp only [h2, payouts, List.map, hpa, hpb])
    · rw [accumulateShares_two l modelId b a rb ra h hb ha (Ne.symm hab), hsa, hsb, hca, hcb]
      rw [add_comm (s * c)]
      rcases insert_insert_nil b a (s * c) (s * (2 * c)) (Ne.symm hab) with h2 | h2
      · exact Or.inr (by simp only [h2, payouts, List.map, hpa, hpb])
      · exact Or.inl (by simp only [h2, payouts, List.map, hpa, hpb])
  have h2 : max 0 (s + 200 * (1 / 100)) = s + 2 := by
    rw [max_eq_right (by linarith)]; norm_num
  have h1 : max 0 (s + 100 * (1 / 100)) = s + 1 := by
    rw [max_eq_right (by linarith)]; norm_num
  rw [distributeRewards_eq]
  simp only [Outcome.failed, Outcome.ledger, getUserReputation_with_transactions]
  rcases hshape with h | h
  · rw [h]
    simp only [List.foldl_cons, List.foldl_nil, StrMap.find, if_true,
      if_neg (Ne.symm hab), if_neg hab,
      getUserReputation_updateReputationScore_self,
      getUserReputation_updateReputationScore_of_ne _ _ _ _ hab,
      getUserReputation_updateReputationScore_of_ne _ _ _ _ (Ne.symm hab), hsa, hsb, h1, h2]
    simp
  · rw [h]
    simp only [List.foldl_cons, List.foldl_nil, StrMap.find, if_true,
      if_neg (Ne.symm hab), if_neg hab,
      getUserReputation_updateReputationScore_self,
      getUserReputation_updateReputationScore_of_ne _ _ _ _ hab,
      getUserReputation_updateReputationScore_of_ne _ _ _ _ (Ne.symm hab), hsa, hsb, h1, h2]
    simp

/-- C4 (witness): scores 1/5 and 1/5, records contributing 2 (from `a`) and 1 (from `b`). -/
theorem distributeRewards_two_records_payouts_witness :
    (payouts (accumulateShares twoRecordsLedger "m").1
      (accumulateShares twoRecordsLedger "m").2 300).find "a" = some 200 ∧
    (payouts (accumulateShares twoRecordsLedger "m").1
      (accumulateShares twoRecordsLedger "m").2 300).find "b" = some 100 ∧
    (twoRecordsLedger.distributeRewards demoLib 0 "m" 300).failed = false ∧
    ((twoRecordsLedger.distributeRewards demoLib 0 "m" 300).ledger.getUserReputation "a").score
      = 1 / 5 + 2 ∧
    ((twoRecordsLedger.distributeRewards demoLib 0 "m" 300).ledger.getUserReputation "b").score
      = 1 / 5 + 1 :=
  distributeRewards_two_records_payouts demoLib twoRecordsLedger 0 "m" "a" "b"
    (recordAt twoRecordsLedger 2) (recordAt twoRecordsLedger 3) (1 / 5) 1
    (Or.inl (by decide!)) (by decide!) (by decide!) (by decide!) (by decide!) (by decide!)
    (by norm_num) (by decide!) (by decide!) (by norm_num)

/-- C5 (code at the failing input): after `addTransaction("RENT", "m1", "dave", "alice",
10, 86400)` at time 1000 on the empty ledger, the record has `from = "dave"`,
`to = "alice"` and expiry 87400, and `isModelRentedBy("m1", "dave")` evaluated one hour
later returns false (it compares `to` with the user; for `"alice"` it returns true). -/
theorem isModelRentedBy_false_for_renter :
    (Ledger.empty.addTransaction demoLib 1000 "RENT" "m1" "dave" "alice" 10 86400).failed = false ∧
    (Ledger.empty.addTransaction demoLib 1000 "RENT" "m1" "dave" "alice" 10
      86400).ledger.transactions.map (fun tx => (tx.sender, tx.receiver, tx.expiryTime))
      = [("dave", "alice", 87400)] ∧
    isModelRentedBy
      (Ledger.empty.addTransaction demoLib 1000 "RENT" "m1" "dave" "alice" 10 86400).ledger
      (1000 + 3600) "m1" "dave" = false ∧
    isModelRentedBy
      (Ledger.empty.addTransaction demoLib 1000 "RENT" "m1" "dave" "alice" 10 86400).ledger
      (1000 + 3600) "m1" "alice" = true := by
  decide!

/-- C6 (code at the failing input): with no collaborative record at all (empty ledger),
and with one collaborative record whose only contributor has score 0, the total weight is
zero, yet `distributeRewards("m", 100)` does not throw and appends a `REWARD` record; in
the second case it also creates a reputation entry for the contributor. -/
theorem distributeRewards_zero_weight_appends :
    (accumulateShares Ledger.empty "m").2 = 0 ∧
    (Ledger.empty.distributeRewards demoLib 0 "m" 100).failed = false ∧
    (Ledger.empty.distributeRewards demoLib 0 "m" 100).ledger.transactions.map
      (fun tx => (tx.type, tx.modelId, tx.amount, tx.rewardShares))
      = [("REWARD", "m", 100, [])] ∧
    (accumulateShares zeroWeightLedger "m").2 = 0 ∧
    (zeroWeightLedger.distributeRewards demoLib 0 "m" 100).failed = false ∧
    (zeroWeightLedger.distributeRewards demoLib 0 "m" 100).ledger.transactions.map
      (fun tx => tx.type) = ["COLLABORATIVE", "REWARD"] ∧
    zeroWeightLedger.userReputations = [] ∧
    (zeroWeightLedger.distributeRewards demoLib 0 "m" 100).ledger.userReputations
      = [("a", { score := 0, totalVotes := 1, modelsShared := 0, reviews := [] })] := by
  decide!

/-- C7: `addCollaborativeTransaction` throws exactly when the two lists differ in length,
or the contributor list is empty, or the total of the contributions is `≤ 0`, the total
being the value `std::accumulate` computes: the contributions added one after the other
to `0.0`, each addition rounded to a double (`lib.addDouble`).  When it throws the
ledger is unchanged; otherwise it appends exactly one collaborative record for the
model, listing the given contributors and carrying that total, and changes nothing
else. -/
theorem addCollaborativeTransaction_fails_iff (lib : StdLib) (l : Ledger) (now : Int)
    (modelId : String) (contributors : List String) (contributions : List ℚ) :
    ((l.addCollaborativeTransaction lib now modelId contributors contributions).failed = true ↔
      (contributors.length ≠ contributions.length ∨ contributors = [] ∨
        contributions.foldl lib.addDouble 0 ≤ 0)) ∧
    ((l.addCollaborativeTransaction lib now modelId contributors contributions).failed = true →
      (l.addCollaborativeTransaction lib now modelId contributors contributions).ledger = l) ∧
    ((l.addCollaborativeTransaction lib now modelId contributors contributions).failed = false →
      ∃ tx : Transaction, tx.isCollaborative = true ∧ tx.type = "COLLABORATIVE" ∧
        tx.modelId = modelId ∧ tx.contributors = contributors ∧
        tx.resourceContribution = contributions.foldl lib.addDouble 0 ∧
        (l.addCollaborativeTransaction lib now modelId contributors contributions).ledger =
          { l with transactions := l.transactions ++ [tx] }) := by
  unfold Ledger.addCollaborativeTransaction
  simp only [verifySignature_sign]
  by_cases h1 : contributors.length ≠ contributions.length ∨ contributors = []
  · simp only [if_pos h1, Outcome.failed, Outcome.ledger]
    refine ⟨⟨fun _ => ?_, fun _ => trivial⟩, fun _ => trivial, fun h => by cases h⟩
    rcases h1 with h | h
    · exact Or.inl h
    · exact Or.inr (Or.inl h)
  · simp only [if_neg h1]
    by_cases h2 : contributions.foldl lib.addDouble 0 ≤ 0
    · simp only [if_pos h2, Outcome.failed, Outcome.ledger]
      exact ⟨⟨fun _ => Or.inr (Or.inr h2), fun _ => trivial⟩, fun _ => trivial,
        fun h => by cases h⟩
    · simp only [if_neg h2, Outcome.failed, Outcome.ledger]
      refine ⟨⟨fun h => by simp at h, fun h => ?_⟩, fun h => by simp at h, fun _ => ?_⟩
      · rcases h with h | h | h
        · exact absurd (Or.inl h) h1
        · exact absurd (Or.inr h) h1
        · exact absurd h h2
      · exact ⟨_, by simp [Transaction.sign], by simp [Transaction.sign, Transaction.new],
          by simp [Transaction.sign, Transaction.new], by simp [Transaction.sign],
          by simp [Transaction.sign], rfl⟩

/-- C7 (at rounded sums): the contributions `1e16, 1.0, -1e16` have the exact sum 1, but
added as doubles `1e16 + 1.0` is `1e16` and the total is 0: the call throws and leaves
the ledger empty, while with exact addition it appends a record. -/
theorem addCollaborativeTransaction_fails_iff_witness :
    ([10000000000000000, 1, -10000000000000000] : List ℚ).sum = 1 ∧
    ([10000000000000000, 1, -10000000000000000] : List ℚ).foldl binary64Lib.addDouble 0 = 0 ∧
    (Ledger.empty.addCollaborativeTransaction binary64Lib 0 "m" ["a", "b", "c"]
      [10000000000000000, 1, -10000000000000000]).failed = true ∧
    (Ledger.empty.addCollaborativeTransaction binary64Lib 0 "m" ["a", "b", "c"]
      [10000000000000000, 1, -10000000000000000]).ledger = Ledger.empty ∧
    (Ledger.empty.addCollaborativeTransaction demoLib 0 "m" ["a", "b", "c"]
      [10000000000000000, 1, -10000000000000000]).failed = false :=
  ⟨by decide!, by decide!,
   (addCollaborativeTransaction_fails_iff binary64Lib Ledger.empty 0 "m" ["a", "b", "c"]
      [10000000000000000, 1, -10000000000000000]).1.2 (Or.inr (Or.inr (by decide!))),
   (addCollaborativeTransaction_fails_iff binary64Lib Ledger.empty 0 "m" ["a", "b", "c"]
      [10000000000000000, 1, -10000000000000000]).2.1
      ((addCollaborativeTransaction_fails_iff binary64Lib Ledger.empty 0 "m" ["a", "b", "c"]
        [10000000000000000, 1, -10000000000000000]).1.2 (Or.inr (Or.inr (by decide!)))),
   by decide!⟩

/-- C8: two records that agree on every field except that their contributor lists are
permutations of one another (and their reward-share entries are the same pairs, in any
order) have the same `calculateHash()`. -/
theorem calculateHash_contributor_order (lib : StdLib) (tx₁ tx₂ : Transaction)
    (hc : tx₂.contributors.Perm tx₁.contributors)
    (hs : tx₂.rewardShares.Perm tx₁.rewardShares)
    (hrest : { tx₂ with contributors := tx₁.contributors, rewardShares := tx₁.rewardShares } = tx₁) :
    tx₂.calculateHash lib = tx₁.calculateHash lib := by
  have hdata : tx₂.hashData = tx₁.hashData := by
    rw [← hrest]
    simp only [Transaction.hashData, Transaction.baseData, Transaction.collaborativeData]
    rw [insertionSort_eq_of_perm _ hc, insertionSort_eq_of_perm _ hs]
  simp only [Transaction.calculateHash, hdata]

/-- C8 (witness): listing `bob` before `alice` gives a different record with the same
digest. -/
theorem calculateHash_contributor_order_witness :
    ({ demoRecord with contributors := ["bob", "alice"] } : Transaction) ≠ demoRecord ∧
    ({ demoRecord with contributors := ["bob", "alice"] } : Transaction).calculateHash demoLib
      = demoRecord.calculateHash demoLib :=
  ⟨by decide!,
   calculateHash_contributor_order demoLib demoRecord
    { demoRecord with contributors := ["bob", "alice"] }
    (List.Perm.swap _ _ _) (List.Perm.refl _) rfl⟩

/-- C9 (code at the failing input): `updateRewardShares("m", {})` on the empty ledger
appends a first record whose `previousHash` is empty, not `hashString("genesis_block")`;
called after an `addTransaction`, it appends a second record whose `previousHash` is not
`calculateHash()` of the first. -/
theorem updateRewardShares_breaks_chain_link :
    (Call.run demoLib Ledger.empty (Call.updateRewardShares 0 "m" [])).2 = true ∧
    (Call.runAll demoLib Ledger.empty [Call.updateRewardShares 0 "m" []]).transactions.map
      (fun tx => (tx.type, tx.previousHash, tx.signature)) = [("REWARD_UPDATE", "", "")] ∧
    hashString demoLib "genesis_block" ≠ "" ∧
    (recordAt (Call.runAll demoLib Ledger.empty
        [Call.addTransaction 0 "CREATE" "m" "a" "" 0 0, Call.updateRewardShares 0 "m" []])
      1).previousHash
      ≠ (recordAt (Call.runAll demoLib Ledger.empty
        [Call.addTransaction 0 "CREATE" "m" "a" "" 0 0, Call.updateRewardShares 0 "m" []])
      0).calculateHash demoLib := by
  decide!

/-- C10 (code at the failing input): `distributeRewards("m", 300)` succeeds and pays the
only contributor `a` the whole 300 (its score rises by 3), but the appended `REWARD`
record stores the weight `a ↦ 2/5`, so `calculateUserReward("a", "m")` rises from 0 to
2/5, not by 300. -/
theorem reward_record_stores_weights_not_payouts :
    (Call.run demoLib (Call.runAll demoLib Ledger.empty rewardCalls)
      (Call.distributeRewards 0 "m" 300)).2 = true ∧
    payouts (accumulateShares (Call.runAll demoLib Ledger.empty rewardCalls) "m").1
      (accumulateShares (Call.runAll demoLib Ledger.empty rewardCalls) "m").2 300
      = [("a", 300)] ∧
    ((Call.runAll demoLib Ledger.empty rewardCalls).getUserReputation "a").score = 1 / 5 ∧
    ((Call.runAll demoLib Ledger.empty
      (rewardCalls ++ [Call.distributeRewards 0 "m" 300])).getUserReputation "a").score
      = 1 / 5 + 3 ∧
    (recordAt (Call.runAll demoLib Ledger.empty
      (rewardCalls ++ [Call.distributeRewards 0 "m" 300])) 2).rewardShares = [("a", 2 / 5)] ∧
    calculateUserReward (Call.runAll demoLib Ledger.empty rewardCalls) "a" "m" = 0 ∧
    calculateUserReward (Call.runAll demoLib Ledger.empty
      (rewardCalls ++ [Call.distributeRewards 0 "m" 300])) "a" "m" = 2 / 5 := by
  decide!

/-- C11: `verifyChain()` returns false on every ledger in which the first record's
`previousHash` differs from `hashString("genesis_block")`, or some record (the first
included) fails `verifySignature`, or some record after the first has a `previousHash`
different from `calculateHash()` of the record just before it. -/
theorem verifyChain_false_of_broken_record (lib : StdLib) (l : Ledger)
    (h : (∃ g : Transaction,
        l.transactions[0]? = some g ∧ g.previousHash ≠ hashString lib "genesis_block") ∨
      (∃ (i : Nat) (tx : Transaction),
        l.transactions[i]? = some tx ∧ tx.verifySignature lib = false) ∨
      (∃ (i : Nat) (p tx : Transaction),
        l.transactions[i]? = some p ∧ l.transactions[i + 1]? = some tx ∧
        tx.previousHash ≠ p.calculateHash lib)) :
    verifyChain lib l = false := by
  rw [← Bool.not_eq_true, verifyChain_iff]
  intro hv
  rcases h with ⟨g, hg, hne⟩ | ⟨i, tx, hi, hs⟩ | ⟨i, p, tx, hi, hi', hne⟩
  · exact hne (firstInvalid_genesis_link lib g _ hg hv)
  · rw [firstInvalid_verifySignature lib tx _ i hi hv] at hs
    cases hs
  · exact hne (firstInvalid_link lib p tx _ i hi hi' hv)

/-- C11 (witness): one ledger for each of the three cases: an unlinked first record, a
record with an erased signature, and an unlinked second record. -/
theorem verifyChain_false_of_broken_record_witness :
    verifyChain demoLib unsignedGenesisLedger = false ∧
    verifyChain demoLib emptySignatureLedger = false ∧
    verifyChain demoLib unlinkedSecondLedger = false :=
  ⟨verifyChain_false_of_broken_record demoLib unsignedGenesisLedger
    (Or.inl ⟨recordAt unsignedGenesisLedger 0, by decide!, by decide!⟩),
   verifyChain_false_of_broken_record demoLib emptySignatureLedger
    (Or.inr (Or.inl ⟨1, recordAt emptySignatureLedger 1, by decide!, by decide!⟩)),
   verifyChain_false_of_broken_record demoLib unlinkedSecondLedger
    (Or.inr (Or.inr ⟨0, recordAt unlinkedSecondLedger 0, recordAt unlinkedSecondLedger 1,
      by decide!, by decide!, by decide!⟩))⟩

/-- C12 (code at the failing input): `addCollaborativeTransaction("m", {"a", "a"},
{1, 3})` on the empty ledger commits, as first record, a collaborative record whose shares
sum to 3/4, and `verifyChain()` returns true; it still returns true when that first record
is replaced by a re-signed copy with an empty contributor list. -/
theorem verifyChain_accepts_malformed_collaborative_genesis :
    (Call.run demoLib Ledger.empty
      (Call.addCollaborativeTransaction 0 "m" ["a", "a"] [1, 3])).2 = true ∧
    collaborativeGenesisLedger.transactions.map
      (fun tx => (tx.isCollaborative, tx.contributors, tx.rewardShares))
      = [(true, ["a", "a"], [("a", 3 / 4)])] ∧
    collaborativeGenesisLedger.transactions.map totalShares = [3 / 4] ∧
    verifyChain demoLib collaborativeGenesisLedger = true ∧
    verifyChain demoLib (replaceRecord collaborativeGenesisLedger 0
      ((({ recordAt collaborativeGenesisLedger 0 with contributors := [] } :
        Transaction)).sign demoLib "mock_private_key")) = true := by
  decide!

/-- C13 (counterexample): after `sign("other_key")` the record carries the signature
computed with that key, and `verifySignature()` returns false. -/
theorem sign_other_key_not_verified :
    (demoRecord.sign demoLib "other_key").signature
      = hashString demoLib ("other_key" ++ demoRecord.calculateHash demoLib) ∧
    (demoRecord.sign demoLib "other_key").verifySignature demoLib = false := by
  decide!

/-- C13 (amended): after `sign("mock_private_key")`, the key every ledger operation signs
with, `verifySignature()` returns true; after `sign(k)` with any key `k` it returns true
exactly when `hashString(k ++ calculateHash())` equals
`hashString("mock_private_key" ++ calculateHash())`, the value `verifySignature()`
recomputes with its fixed key. -/
theorem sign_verify_round_trip (lib : StdLib) (tx : Transaction) (k : String) :
    (tx.sign lib "mock_private_key").verifySignature lib = true ∧
    ((tx.sign lib k).verifySignature lib = true ↔
      hashString lib (k ++ tx.calculateHash lib)
        = hashString lib ("mock_private_key" ++ tx.calculateHash lib)) := by
  refine ⟨verifySignature_sign lib tx, ?_⟩
  unfold Transaction.verifySignature
  rw [calculateHash_sign]
  simp [Transaction.sign, hashString_ne_empty]

/-- C14: `verifySignature()` returns false exactly when the signature is empty or differs
from `hashString("mock_private_key" ++ calculateHash())` recomputed over the record's
current fields, and returns true exactly in the other case. -/
theorem verifySignature_false_iff (lib : StdLib) (tx : Transaction) :
    (tx.verifySignature lib = false ↔
      (tx.signature = "" ∨
        tx.signature ≠ hashString lib ("mock_private_key" ++ tx.calculateHash lib))) ∧
    (tx.verifySignature lib = true ↔
      (tx.signature ≠ "" ∧
        tx.signature = hashString lib ("mock_private_key" ++ tx.calculateHash lib))) := by
  unfold Transaction.verifySignature
  by_cases h : tx.signature = ""
  · simp [h]
  · simp [h]

/-- C15: `addTransaction` on a ledger of `n` records returns normally with `n + 1`
records, the first `n` unchanged and nothing else in the ledger changed; the last record
carries the given kind, modelId, from, to and amount, its `previousHash` is
`calculateHash()` of the former last record (the genesis digest when `n = 0`), and
`verifySignature` accepts its signature. -/
theorem addTransaction_appends_linked_signed_record (lib : StdLib) (l : Ledger) (now : Int)
    (type modelId sender receiver : String) (amount : ℚ) (rentalDuration : Int) :
    ∃ tx : Transaction,
      l.addTransaction lib now type modelId sender receiver amount rentalDuration
        = .returned { l with transactions := l.transactions ++ [tx] } () ∧
      (l.transactions ++ [tx]).length = l.transactions.length + 1 ∧
      (l.transactions ++ [tx]).take l.transactions.length = l.transactions ∧
      tx.type = type ∧ tx.modelId = modelId ∧ tx.sender = sender ∧ tx.receiver = receiver ∧
      tx.amount = amount ∧
      tx.previousHash = (match l.transactions.getLast? with
        | none => hashString lib "genesis_block"
        | some back => back.calculateHash lib) ∧
      tx.verifySignature lib = true := by
  refine ⟨_, addTransaction_eq lib l now type modelId sender receiver amount rentalDuration,
    by simp, by simp, rfl, rfl, rfl, rfl, rfl, rfl, verifySignature_sign lib _⟩

/-- C16: `calculateUserReward(userId, modelId)` is the sum, over the records of kind
`REWARD` with that modelId, of the record's `rewardShares` entry for the user (`0` without
an entry).  The function is a `const` member: its embedding returns the value only. -/
theorem calculateUserReward_eq_rewardSum (l : Ledger) (userId modelId : String) :
    l.calculateUserReward userId modelId = rewardSum l userId modelId := by
  unfold Ledger.calculateUserReward rewardSum
  rw [calculateUserReward_foldl, zero_add]

/-- C17: `updateReputationScore(userId, delta)` sets the user's score to
`max(0, old score + delta)` and raises the user's `totalVotes` by one, keeping
`modelsShared` and `reviews` (the old values are those of `getUserReputation`, score 0 for
a user not yet known); every other user's entry and the rest of the ledger are
unchanged. -/
theorem updateReputationScore_spec (l : Ledger) (userId : String) (delta : ℚ) :
    (l.updateReputationScore userId delta).userReputations.find userId =
      some { score := max 0 ((l.getUserReputation userId).score + delta)
             totalVotes := (l.getUserReputation userId).totalVotes + 1
             modelsShared := (l.getUserReputation userId).modelsShared
             reviews := (l.getUserReputation userId).reviews } ∧
    (l.userReputations.find userId = none → (l.getUserReputation userId).score = 0) ∧
    (∀ other : String, other ≠ userId →
      (l.updateReputationScore userId delta).userReputations.find other
        = l.userReputations.find other) ∧
    ({ l.updateReputationScore userId delta with userReputations := l.userReputations } : Ledger)
      = l := by
  refine ⟨?_, ?_, ?_, rfl⟩
  · unfold updateReputationScore getUserReputation
    simp only [StrMap.find_insert_self]
    cases l.userReputations.find userId <;> rfl
  · intro h
    simp [getUserReputation, h]
  · intro other h
    exact StrMap.find_insert_of_ne _ _ _ _ h

/-- C18: in every ledger state reached from the empty ledger by a sequence of calls of the
public operations, with arbitrary arguments, every stored reputation score is `≥ 0`, and
so is the score `getUserReputation` reports for any user. -/
theorem reputation_scores_nonneg (lib : StdLib) (calls : List Call) :
    (∀ p ∈ (Call.runAll lib Ledger.empty calls).userReputations, 0 ≤ p.2.score) ∧
    (∀ userId : String,
      0 ≤ ((Call.runAll lib Ledger.empty calls).getUserReputation userId).score) := by
  have hs : ScoresNonneg (Call.runAll lib Ledger.empty calls) :=
    scoresNonneg_runAll lib calls Ledger.empty (by intro p hp; cases hp)
  refine ⟨hs, fun userId => ?_⟩
  unfold getUserReputation
  cases hf : (Call.runAll lib Ledger.empty calls).userReputations.find userId with
  | none => exact le_refl _
  | some rep => exact hs _ (StrMap.mem_of_find_eq_some _ _ _ hf)

/-- C19: `addVote` throws exactly when `rating < 1` or `rating > 5`, and then leaves the
whole ledger unchanged; otherwise the vote list of the model becomes the old list with the
new vote appended, the vote lists of the other models and the records are unchanged. -/
theorem addVote_fails_iff (l : Ledger) (now : Int) (modelId voterId : String) (rating : Int)
    (review : String) :
    ((l.addVote now modelId voterId rating review).failed = true ↔ (rating < 1 ∨ rating > 5)) ∧
    ((l.addVote now modelId voterId rating review).failed = true →
      (l.addVote now modelId voterId rating review).ledger = l) ∧
    ((l.addVote now modelId voterId rating review).failed = false →
      (l.addVote now modelId voterId rating review).ledger.modelVotes.find modelId =
        some ((l.modelVotes.find modelId).getD [] ++
          [Vote.mk modelId voterId rating review now]) ∧
      (∀ other : String, other ≠ modelId →
        (l.addVote now modelId voterId rating review).ledger.modelVotes.find other
          = l.modelVotes.find other) ∧
      (l.addVote now modelId voterId rating review).ledger.transactions = l.transactions) := by
  by_cases h : rating < 1 ∨ rating > 5
  · have he : l.addVote now modelId voterId rating review
        = .thrown l "Rating must be between 1 and 5" := by
      unfold Ledger.addVote; simp only [h, if_true]
    rw [he]
    simp [Outcome.failed, Outcome.ledger, h]
  · have h1 : 1 ≤ rating := by omega
    have h5 : rating ≤ 5 := by omega
    rw [addVote_eq l now modelId voterId rating review h1 h5]
    cases l.transactions.find? (fun tx => decide (tx.modelId = modelId ∧ tx.type = "CREATE")) with
    | none =>
      simp only [Outcome.failed, Outcome.ledger]
      refine ⟨by simp [h], by simp, fun _ => ⟨StrMap.find_insert_self _ _ _, ?_, trivial⟩⟩
      intro other ho
      exact StrMap.find_insert_of_ne _ _ _ _ ho
    | some tx =>
      simp only [Outcome.failed, Outcome.ledger]
      refine ⟨by simp [h], by simp, fun _ => ⟨StrMap.find_insert_self _ _ _, ?_, rfl⟩⟩
      intro other ho
      exact StrMap.find_insert_of_ne _ _ _ _ ho

/-- C20: for a rating `r` from 1 to 5, `addVote` applies `updateReputationScore` once, with
delta `(r − 3) × 0.1`, to the `from` of the first `CREATE` record of the model: the
creator's score becomes `max(0, old + delta)` and no other user's entry changes; when the
ledger has no `CREATE` record for the model the reputations are unchanged. -/
theorem addVote_updates_creator_once (l : Ledger) (now : Int) (modelId voterId : String) (rating : Int)
    (review : String) (h1 : 1 ≤ rating) (h5 : rating ≤ 5) :
    (∀ creation : Transaction,
      l.transactions.find? (fun tx => decide (tx.modelId = modelId ∧ tx.type = "CREATE"))
        = some creation →
      (l.addVote now modelId voterId rating review).ledger.userReputations
        = (l.updateReputationScore creation.sender
            (((rating : ℚ) - 3) * (1 / 10))).userReputations ∧
      ((l.addVote now modelId voterId rating review).ledger.getUserReputation
          creation.sender).score
        = max 0 ((l.getUserReputation creation.sender).score + ((rating : ℚ) - 3) * (1 / 10)) ∧
      (∀ other : String, other ≠ creation.sender →
        (l.addVote now modelId voterId rating review).ledger.userReputations.find other
          = l.userReputations.find other)) ∧
    (l.transactions.find? (fun tx => decide (tx.modelId = modelId ∧ tx.type = "CREATE")) = none →
      (l.addVote now modelId voterId rating review).ledger.userReputations
        = l.userReputations) := by
  rw [addVote_eq l now modelId voterId rating review h1 h5]
  constructor
  · intro creation hc
    rw [hc]
    simp only [Outcome.ledger]
    refine ⟨rfl, ?_, ?_⟩
    · rw [getUserReputation_updateReputationScore_self]
      rfl
    · intro other ho
      exact StrMap.find_insert_of_ne _ _ _ _ ho
  · intro hn
    rw [hn]
    rfl

/-- C20 (witness): a five-star vote on model `"m"` created by `"a"` gives `a` the score
1/5; on the empty ledger it changes no reputation. -/
theorem addVote_updates_creator_once_witness :
    (createdModelLedger.addVote 1 "m" "v" 5 "good").ledger.userReputations
      = [("a", { score := 1 / 5, totalVotes := 1, modelsShared := 0, reviews := [] })] ∧
    (Ledger.empty.addVote 1 "m" "v" 5 "good").ledger.userReputations = [] := by
  have h := addVote_updates_creator_once createdModelLedger 1 "m" "v" 5 "good" (by decide) (by decide)
  have h' := addVote_updates_creator_once Ledger.empty 1 "m" "v" 5 "good" (by decide) (by decide)
  exact ⟨(h.1 (recordAt createdModelLedger 0) (by decide!)).1.trans (by decide!),
    h'.2 (by decide!)⟩

/-- C21: `getModelRating(modelId)` is the arithmetic mean of the ratings of the votes stored
for the model (`meanRating`), and `0` when the model has no votes. -/
theorem getModelRating_eq_meanRating (l : Ledger) (modelId : String) :
    l.getModelRating modelId = meanRating l modelId ∧
    ((l.modelVotes.find modelId).getD [] = [] → l.getModelRating modelId = 0) := by
  have h : l.getModelRating modelId = meanRating l modelId := by
    unfold Ledger.getModelRating meanRating
    cases hf : l.modelVotes.find modelId with
    | none => simp
    | some votes =>
      simp only [Option.getD_some]
      split_ifs
      · rfl
      · rw [foldl_add_rating, zero_add]
  refine ⟨h, fun hnone => ?_⟩
  rw [h]
  unfold meanRating
  simp [hnone]

/-- C21 (witness): the votes 5, 4, 5 give the rating 14/3. -/
theorem getModelRating_eq_meanRating_witness : votedLedger.getModelRating "m" = 14 / 3 :=
  (getModelRating_eq_meanRating votedLedger "m").1.trans (by decide!)

/-- C22: `calculateFairPrice(modelId)` is `100 × (0.5 + getModelRating(modelId) / 10) ×
log10(1 + T)`, where `T` is the sum of `resourceContribution` over the records of the model
that are of kind `RESOURCE_CONTRIBUTION` or are collaborative (`resourceSum`). -/
theorem calculateFairPrice_formula (lib : StdLib) (l : Ledger) (modelId : String) :
    l.calculateFairPrice lib modelId =
      100 * (1 / 2 + l.getModelRating modelId / 10) * lib.log10 (1 + resourceSum l modelId) := by
  unfold Ledger.calculateFairPrice
  rw [totalResources_eq_resourceSum]

/-- C23: on a ledger with no `RESOURCE_CONTRIBUTION` or collaborative record for the model,
`calculateFairPrice` returns `0`, given `log10(1) = 0`; the rating (in particular the
absence of votes) plays no part, the factor `log10(1 + 0)` being zero. -/
theorem calculateFairPrice_zero_without_resources (lib : StdLib) (l : Ledger) (modelId : String)
    (hlog : lib.log10 1 = 0)
    (hrecords : ∀ tx ∈ l.transactions, ¬ (tx.modelId = modelId ∧
      (tx.type = "RESOURCE_CONTRIBUTION" ∨ tx.isCollaborative = true))) :
    l.calculateFairPrice lib modelId = 0 := by
  have hsum : resourceSum l modelId = 0 := by
    unfold resourceSum
    rw [List.filter_eq_nil_iff.2 (fun tx htx => by simpa using hrecords tx htx)]
    rfl
  unfold Ledger.calculateFairPrice
  rw [totalResources_eq_resourceSum, hsum, add_zero, hlog, mul_zero]

/-- C23 (witness): a model without votes and without records has price 0; the same ledger
with votes 5, 4, 5 and a contribution of 3 for `"m"` gives a non-zero price for `"m"`. -/
theorem calculateFairPrice_zero_without_resources_witness :
    (votedLedger.modelVotes.find "other").getD [] = [] ∧
    votedLedger.calculateFairPrice linearLogLib "other" = 0 ∧
    (Call.runAll linearLogLib votedLedger
      [Call.addCollaborativeTransaction 0 "m" ["a"] [3]]).calculateFairPrice linearLogLib "m"
      = 290 :=
  ⟨by decide!, calculateFairPrice_zero_without_resources linearLogLib votedLedger "other" (by decide!) (by decide!), by decide!⟩

/-- C24: when `std::sort` meets its postcondition and the reputation store has distinct
keys, `getTopContributors` returns exactly `min(10, number of stored users)` user ids,
each of them a stored user, without repetition, in non-increasing order of reputation
score, and every stored user it omits has a score no greater than that of every user it
returns. -/
theorem getTopContributors_top_ten_by_score
    (stdSort : List (String × ℚ) → List (String × ℚ)) (l : Ledger)
    (hsort : SortsByScore stdSort) (hnd : (l.userReputations.map Prod.fst).Nodup) :
    (getTopContributors stdSort l).length = min 10 l.userReputations.length ∧
    (∀ u ∈ getTopContributors stdSort l, u ∈ l.userReputations.map Prod.fst) ∧
    (getTopContributors stdSort l).length ≤ 10 ∧
    (getTopContributors stdSort l).Nodup ∧
    (getTopContributors stdSort l).Pairwise
      (fun u v => (l.getUserReputation v).score ≤ (l.getUserReputation u).score) ∧
    (∀ u ∈ l.userReputations.map Prod.fst, u ∉ getTopContributors stdSort l →
      ∀ v ∈ getTopContributors stdSort l,
        (l.getUserReputation u).score ≤ (l.getUserReputation v).score) := by
  obtain ⟨hperm, hsorted⟩ := hsort (l.userReputations.map fun q => (q.1, q.2.score))
  have hkeys : ((stdSort (l.userReputations.map fun q => (q.1, q.2.score))).map Prod.fst).Nodup := by
    rw [(hperm.map Prod.fst).nodup_iff, keys_scorePairs]; exact hnd
  have hscore : ∀ p ∈ stdSort (l.userReputations.map fun q => (q.1, q.2.score)),
      (l.getUserReputation p.1).score = p.2 :=
    fun p hp => score_of_mem l hnd p (hperm.mem_iff.1 hp)
  have hle : (stdSort (l.userReputations.map fun q => (q.1, q.2.score))).Pairwise
      (fun a b => (l.getUserReputation b.1).score ≤ (l.getUserReputation a.1).score) := by
    refine (List.Pairwise.and_mem.1 hsorted).imp ?_
    rintro a b ⟨ha, hb, hab⟩
    rw [hscore a ha, hscore b hb]
    exact not_lt.1 hab
  have hmap : ((stdSort (l.userReputations.map fun q => (q.1, q.2.score))).map Prod.fst).Pairwise
      (fun u v => (l.getUserReputation v).score ≤ (l.getUserReputation u).score) :=
    (List.pairwise_map).2 hle
  have hlen : (stdSort (l.userReputations.map fun q => (q.1, q.2.score))).length
      = l.userReputations.length := by
    rw [hperm.length_eq, List.length_map]
  unfold Ledger.getTopContributors
  refine ⟨?_, ?_, ?_, ?_, ?_, ?_⟩
  · simp only [List.length_take, List.length_map, hlen]
  · intro u hu
    have hu' := List.mem_of_mem_take hu
    rw [(hperm.map Prod.fst).mem_iff, keys_scorePairs] at hu'
    exact hu'
  · simp only [List.length_take]; omega
  · exact hkeys.sublist (List.take_sublist _ _)
  · exact hmap.sublist (List.take_sublist _ _)
  · intro u hu hnot v hv
    have hu' : u ∈ (stdSort (l.userReputations.map fun q => (q.1, q.2.score))).map Prod.fst := by
      rw [(hperm.map Prod.fst).mem_iff, keys_scorePairs]; exact hu
    rw [← List.take_append_drop 10
      ((stdSort (l.userReputations.map fun q => (q.1, q.2.score))).map Prod.fst)] at hu' hmap
    rcases List.mem_append.1 hu' with h | h
    · exact absurd h hnot
    · exact (List.pairwise_append.1 hmap).2.2 v hv u h

/-- C24 (witness): of eleven stored users, `k` with score 2/5 and the others with score
1/5, ten are returned, `k` first; and scores 2/5, 1/5 and 1/10 are listed as `carol`,
`bob`, `alice`. -/
theorem getTopContributors_top_ten_by_score_witness :
    elevenUsersLedger.userReputations.length = 11 ∧
    getTopContributors insertionSortByScore elevenUsersLedger
      = ["k", "a", "b", "c", "d", "e", "f", "g", "h", "i"] ∧
    getTopContributors insertionSortByScore rankedLedger = ["carol", "bob", "alice"] ∧
    ((getTopContributors insertionSortByScore elevenUsersLedger).length
      = min 10 elevenUsersLedger.userReputations.length ∧
    (∀ u ∈ getTopContributors insertionSortByScore elevenUsersLedger,
      u ∈ elevenUsersLedger.userReputations.map Prod.fst) ∧
    (getTopContributors insertionSortByScore elevenUsersLedger).length ≤ 10 ∧
    (getTopContributors insertionSortByScore elevenUsersLedger).Nodup ∧
    (getTopContributors insertionSortByScore elevenUsersLedger).Pairwise
      (fun u v => (elevenUsersLedger.getUserReputation v).score
        ≤ (elevenUsersLedger.getUserReputation u).score) ∧
    (∀ u ∈ elevenUsersLedger.userReputations.map Prod.fst,
      u ∉ getTopContributors insertionSortByScore elevenUsersLedger →
      ∀ v ∈ getTopContributors insertionSortByScore elevenUsersLedger,
        (elevenUsersLedger.getUserReputation u).score
          ≤ (elevenUsersLedger.getUserReputation v).score)) :=
  ⟨by decide!, by decide!, by decide!,
   getTopContributors_top_ten_by_score insertionSortByScore elevenUsersLedger
     sortsByScore_insertionSort (by decide!)⟩

/-- C25 (counterexample): `bob` enters the reputation store first, `alice` second, both
with score 1/5; `getTopContributors`, its sort leaving equal scores in place, returns
`alice` before `bob`. -/
theorem getTopContributors_ties_not_in_insertion_order :
    (Call.runAll demoLib Ledger.empty
      [Call.addDocumentation 0 "m" "bob" "guide" []]).userReputations.map Prod.fst = ["bob"] ∧
    tiedLedger.userReputations.map (fun q => (q.1, q.2.score))
      = [("alice", 1 / 5), ("bob", 1 / 5)] ∧
    getTopContributors insertionSortByScore tiedLedger = ["alice", "bob"] := by
  decide!

/-- C25 (amended): the order in which `getTopContributors` lists users, those with equal
reputation score included, does not depend on the order in which the users entered the
reputation store: two sequences of public calls that leave the same reputation entries
give the same list, whatever `std::sort` does with equal scores. -/
theorem getTopContributors_independent_of_entry_order (lib : StdLib)
    (stdSort : List (String × ℚ) → List (String × ℚ)) (calls₁ calls₂ : List Call)
    (hsame : ∀ entry : String × UserReputation,
      entry ∈ (Call.runAll lib Ledger.empty calls₁).userReputations ↔
        entry ∈ (Call.runAll lib Ledger.empty calls₂).userReputations) :
    getTopContributors stdSort (Call.runAll lib Ledger.empty calls₁)
      = getTopContributors stdSort (Call.runAll lib Ledger.empty calls₂) := by
  have heq := eq_of_keysSorted_of_mem_iff _ _
    (keysSorted_runAll lib calls₁ Ledger.empty List.Pairwise.nil)
    (keysSorted_runAll lib calls₂ Ledger.empty List.Pairwise.nil) hsame
  unfold Ledger.getTopContributors
  rw [heq]

/-- C25 (witness): `bob` before `alice` and `alice` before `bob` leave the same two
reputation entries, and `getTopContributors` returns the same list after both. -/
theorem getTopContributors_independent_of_entry_order_witness :
    (Call.runAll demoLib Ledger.empty bobFirstCalls).userReputations
      = (Call.runAll demoLib Ledger.empty aliceFirstCalls).userReputations ∧
    getTopContributors insertionSortByScore (Call.runAll demoLib Ledger.empty bobFirstCalls)
      = getTopContributors insertionSortByScore
          (Call.runAll demoLib Ledger.empty aliceFirstCalls) :=
  ⟨by decide!,
   getTopContributors_independent_of_entry_order demoLib insertionSortByScore bobFirstCalls
     aliceFirstCalls
     (fun entry => by
       rw [show (Call.runAll demoLib Ledger.empty bobFirstCalls).userReputations
         = (Call.runAll demoLib Ledger.empty aliceFirstCalls).userReputations from by decide!])⟩

/-- C26: `isModelAvailableForRent(modelId, now)` returns false if and only if some record of
kind `RENT` for the model has `expiryTime == 0` or `expiryTime > now`. -/
theorem isModelAvailableForRent_false_iff (l : Ledger) (now : Int) (modelId : String) :
    l.isModelAvailableForRent now modelId = false ↔
      ∃ tx ∈ l.transactions, tx.modelId = modelId ∧ tx.type = "RENT" ∧
        (tx.expiryTime = 0 ∨ tx.expiryTime > now) := by
  unfold Ledger.isModelAvailableForRent
  simp only [Bool.not_eq_false', List.any_eq_true, Bool.and_eq_true, decide_eq_true_eq]
  constructor
  · rintro ⟨tx, htx, ⟨h1, h2⟩, h3⟩
    exact ⟨tx, htx, h1, h2, h3⟩
  · rintro ⟨tx, htx, h1, h2, h3⟩
    exact ⟨tx, htx, ⟨h1, h2⟩, h3⟩

/-- C27 (code at the failing input): user `a` (score 1/5) is the only contributor of two
collaborative records of `"m"`, each with resource contribution 1, so its weight is 2/5;
the first loop of `distributeRewards` leaves `totalShares = 3/5`, the payout computed for
`distributeRewards("m", 300)` is 200 and the score of `a` rises by 2, not by 3. -/
theorem distributeRewards_repeated_contributor_underpays :
    repeatedContributorLedger.transactions.map
      (fun tx => (tx.modelId, tx.isCollaborative, tx.contributors, tx.resourceContribution))
      = [("m", false, [], 0), ("m", true, ["a"], 1), ("m", true, ["a"], 1)] ∧
    (repeatedContributorLedger.getUserReputation "a").score = 1 / 5 ∧
    accumulateShares repeatedContributorLedger "m" = ([("a", 2 / 5)], 3 / 5) ∧
    payouts (accumulateShares repeatedContributorLedger "m").1
      (accumulateShares repeatedContributorLedger "m").2 300 = [("a", 200)] ∧
    (repeatedContributorLedger.distributeRewards demoLib 0 "m" 300).failed = false ∧
    ((repeatedContributorLedger.distributeRewards demoLib 0 "m" 300).ledger.getUserReputation
      "a").score = 1 / 5 + 2 := by
  decide!

/-- C28 (code at the failing input): `updateResourceContribution("alice", 25.5)` on the
empty ledger appends one record of kind `RESOURCE` from `alice` whose
`resourceContribution` is 0, so the resource total `calculateFairPrice` sums stays 0. -/
theorem updateResourceContribution_appends_plain_record :
    (Ledger.empty.updateResourceContribution demoLib 0 "alice" (51 / 2)).failed = false ∧
    (Ledger.empty.updateResourceContribution demoLib 0 "alice"
      (51 / 2)).ledger.transactions.map
      (fun tx => (tx.type, tx.modelId, tx.sender, tx.resourceContribution))
      = [("RESOURCE", "", "alice", 0)] ∧
    (Ledger.empty.updateResourceContribution demoLib 0 "alice"
      (51 / 2)).ledger.totalResources "" = 0 := by
  decide!

/-- C29: for a monotone `log10` with `log10(1) = 0`, and for any two states reached from the
empty ledger, `calculateFairPrice` is non-decreasing in the rating when the resource
totals are equal, and non-decreasing in the resource total when the ratings are equal. -/
theorem calculateFairPrice_monotone (lib : StdLib) (hmono : Monotone lib.log10)
    (hone : lib.log10 1 = 0)
    (calls₁ calls₂ : List Call) (m₁ m₂ : String) :
    ((Call.runAll lib Ledger.empty calls₁).totalResources m₁
        = (Call.runAll lib Ledger.empty calls₂).totalResources m₂ →
      (Call.runAll lib Ledger.empty calls₁).getModelRating m₁
        ≤ (Call.runAll lib Ledger.empty calls₂).getModelRating m₂ →
      (Call.runAll lib Ledger.empty calls₁).calculateFairPrice lib m₁
        ≤ (Call.runAll lib Ledger.empty calls₂).calculateFairPrice lib m₂) ∧
    ((Call.runAll lib Ledger.empty calls₁).getModelRating m₁
        = (Call.runAll lib Ledger.empty calls₂).getModelRating m₂ →
      (Call.runAll lib Ledger.empty calls₁).totalResources m₁
        ≤ (Call.runAll lib Ledger.empty calls₂).totalResources m₂ →
      (Call.runAll lib Ledger.empty calls₁).calculateFairPrice lib m₁
        ≤ (Call.runAll lib Ledger.empty calls₂).calculateFairPrice lib m₂) := by
  have hT : ∀ calls m, 0 ≤ (Call.runAll lib Ledger.empty calls).totalResources m := by
    intro calls m
    rw [totalResources_eq_resourceSum]
    exact resourceSum_nonneg _
      (recordsNonneg_runAll lib calls Ledger.empty (by intro tx htx; cases htx)) m
  have hR : ∀ calls m, 0 ≤ (Call.runAll lib Ledger.empty calls).getModelRating m := by
    intro calls m
    exact getModelRating_nonneg _
      (votesInRange_runAll lib calls Ledger.empty (by intro p hp; cases hp)) m
  have hlog : ∀ calls m,
      0 ≤ lib.log10 (1 + (Call.runAll lib Ledger.empty calls).totalResources m) := by
    intro calls m
    rw [← hone]
    exact hmono (by linarith [hT calls m])
  unfold Ledger.calculateFairPrice
  constructor
  · intro hsame hle
    simp only
    rw [hsame]
    apply mul_le_mul_of_nonneg_right _ (hlog calls₂ m₂)
    linarith
  · intro hsame hle
    simp only
    rw [hsame]
    apply mul_le_mul_of_nonneg_left (hmono (by linarith))
    have := hR calls₂ m₂
    positivity

/-- C29 (witness): with a resource total of 3, raising the rating from 0 to 5 raises the
price from 150 to 300 (for the stand-in `log10 x = x − 1`). -/
theorem calculateFairPrice_monotone_witness :
    (Call.runAll linearLogLib Ledger.empty
      [Call.addCollaborativeTransaction 0 "m" ["a"] [3]]).calculateFairPrice linearLogLib "m"
      = 150 ∧
    (Call.runAll linearLogLib Ledger.empty
      [Call.addCollaborativeTransaction 0 "m" ["a"] [3],
       Call.addVote 0 "m" "v" 5 ""]).calculateFairPrice linearLogLib "m" = 300 ∧
    (Call.runAll linearLogLib Ledger.empty
      [Call.addCollaborativeTransaction 0 "m" ["a"] [3]]).calculateFairPrice linearLogLib "m"
      ≤ (Call.runAll linearLogLib Ledger.empty
        [Call.addCollaborativeTransaction 0 "m" ["a"] [3],
         Call.addVote 0 "m" "v" 5 ""]).calculateFairPrice linearLogLib "m" :=
  ⟨by decide!, by decide!,
   (calculateFairPrice_monotone linearLogLib monotone_linearLog (by decide!)
      [Call.addCollaborativeTransaction 0 "m" ["a"] [3]]
      [Call.addCollaborativeTransaction 0 "m" ["a"] [3], Call.addVote 0 "m" "v" 5 ""]
      "m" "m").1 (by decide!) (by decide!)⟩

/-- C31: on a ledger that `verifyChain` accepts, and for all arguments, `verifyChain` still
returns true after `addTransaction`, after `distributeRewards`, and after
`rollbackVersion` (whatever it returns, so in particular when it returns true). -/
theorem verifyChain_preserved_by_plain_appends (lib : StdLib) (l : Ledger)
    (hv : verifyChain lib l = true) (now : Int) (type modelId sender receiver : String)
    (amount : ℚ) (rentalDuration : Int) (totalReward : ℚ) (targetVersion : Nat) :
    verifyChain lib
      (l.addTransaction lib now type modelId sender receiver amount rentalDuration).ledger
      = true ∧
    verifyChain lib (l.distributeRewards lib now modelId totalReward).ledger = true ∧
    verifyChain lib (l.rollbackVersion lib now modelId targetVersion).ledger = true :=
  ⟨verifyChain_addTransaction lib l now type modelId sender receiver amount rentalDuration hv,
   verifyChain_distributeRewards lib l now modelId totalReward hv,
   verifyChain_rollbackVersion lib l now modelId targetVersion hv⟩

/-- C31 (witness): the ledger of Test 13 is accepted, `rollbackVersion("m", 1)` returns true
on it and appends a record, and the three appends leave an accepted chain. -/
theorem verifyChain_preserved_by_plain_appends_witness :
    verifyChain demoLib versionedLedger = true ∧
    (versionedLedger.rollbackVersion demoLib 0 "m" 1).ledger.transactions.length = 1 ∧
    (verifyChain demoLib
      (versionedLedger.addTransaction demoLib 0 "CREATE" "m" "a" "" 5 0).ledger = true ∧
    verifyChain demoLib (versionedLedger.distributeRewards demoLib 0 "m" 100).ledger = true ∧
    verifyChain demoLib (versionedLedger.rollbackVersion demoLib 0 "m" 1).ledger = true) :=
  ⟨by decide!, by decide!,
   verifyChain_preserved_by_plain_appends demoLib versionedLedger (by decide!) 0 "CREATE" "m"
     "a" "" 5 0 100 1⟩

/-- C32: `addTransaction` never fails.  For every ledger and all arguments, `hashString`
never returns the empty string, the freshly signed record passes `verifySignature`, the
re-check of the chain link passes, and the call returns with exactly that one record
appended to the records and nothing else changed. -/
theorem addTransaction_never_fails (lib : StdLib) (l : Ledger) (now : Int)
    (type modelId sender receiver : String) (amount : ℚ) (rentalDuration : Int) :
    (∀ s : String, hashString lib s ≠ "") ∧
    (({ Transaction.new now type modelId sender receiver amount rentalDuration with
        previousHash := tailHash lib l.transactions }).sign lib
      "mock_private_key").verifySignature lib = true ∧
    linkBroken lib l.transactions
      (({ Transaction.new now type modelId sender receiver amount rentalDuration with
          previousHash := tailHash lib l.transactions }).sign lib "mock_private_key") = false ∧
    l.addTransaction lib now type modelId sender receiver amount rentalDuration =
      .returned { l with transactions := l.transactions ++
        [({ Transaction.new now type modelId sender receiver amount rentalDuration with
            previousHash := tailHash lib l.transactions }).sign lib "mock_private_key"] } () :=
  ⟨hashString_ne_empty lib, verifySignature_sign lib _, linkBroken_tailHash lib _ _ rfl,
   addTransaction_eq lib l now type modelId sender receiver amount rentalDuration⟩

/-- C33: a `RENT` record appended by `addTransaction` with `rentalDuration ≤ 0` has
`expiryTime = 0`; and in the state after the call and in every state reached from it by
any sequence of public calls, `isModelAvailableForRent(modelId)` is false at every
evaluation time. -/
theorem rent_without_duration_never_expires (lib : StdLib) (l : Ledger) (now : Int)
    (modelId sender receiver : String) (amount : ℚ) (rentalDuration : Int)
    (hd : rentalDuration ≤ 0) (calls : List Call) (later : Int) :
    (∃ tx : Transaction,
      (l.addTransaction lib now "RENT" modelId sender receiver amount
        rentalDuration).ledger.transactions = l.transactions ++ [tx] ∧
      tx.type = "RENT" ∧ tx.modelId = modelId ∧ tx.expiryTime = 0) ∧
    (Call.runAll lib
      (l.addTransaction lib now "RENT" modelId sender receiver amount rentalDuration).ledger
      calls).isModelAvailableForRent later modelId = false := by
  have he : (Transaction.new now "RENT" modelId sender receiver amount
      rentalDuration).expiryTime = 0 := by
    simp only [Transaction.new]
    rw [if_neg (by omega)]
  rw [addTransaction_eq]
  refine ⟨⟨_, rfl, rfl, rfl, he⟩, ?_⟩
  have hm := mem_transactions_runAll lib
    (({ Transaction.new now "RENT" modelId sender receiver amount rentalDuration with
        previousHash := tailHash lib l.transactions }).sign lib "mock_private_key")
    calls
    (Outcome.returned { l with transactions := l.transactions ++
        [({ Transaction.new now "RENT" modelId sender receiver amount rentalDuration with
            previousHash := tailHash lib l.transactions }).sign lib "mock_private_key"] }
      ()).ledger
    (List.mem_append_right _ (List.mem_singleton_self _))
  unfold Ledger.isModelAvailableForRent
  rw [Bool.not_eq_false_eq_eq_true, List.any_eq_true]
  refine ⟨_, hm, ?_⟩
  have he2 : (({ Transaction.new now "RENT" modelId sender receiver amount rentalDuration with
        previousHash := tailHash lib l.transactions }).sign lib "mock_private_key").expiryTime
      = 0 := he
  simp only [Bool.and_eq_true, decide_eq_true_eq]
  exact ⟨⟨rfl, rfl⟩, Or.inl he2⟩

/-- C33 (witness): `addTransaction("RENT", "m", "owner", "renter", 10.0)` at time 1000 on
the empty ledger; after a later rental of one second by somebody else the model is
still unavailable at time 5000. -/
theorem rent_without_duration_never_expires_witness :
    (0 : Int) ≤ 0 ∧
    (Call.runAll demoLib
      (Ledger.empty.addTransaction demoLib 1000 "RENT" "m" "owner" "renter" 10 0).ledger
      [Call.addTransaction 2000 "RENT" "m" "owner" "other" 10 1]).isModelAvailableForRent
        5000 "m" = false :=
  ⟨le_refl 0,
   (rent_without_duration_never_expires demoLib Ledger.empty 1000 "m" "owner" "renter" 10 0
     (le_refl 0) [Call.addTransaction 2000 "RENT" "m" "owner" "other" 10 1] 5000).2⟩

/-- C34: for every ledger, model, user and evaluation time, if `isModelRentedBy` is true
then `isModelAvailableForRent` is false. -/
theorem isModelRentedBy_implies_unavailable (l : Ledger) (now : Int) (modelId user : String)
    (h : l.isModelRentedBy now modelId user = true) :
    l.isModelAvailableForRent now modelId = false := by
  unfold Ledger.isModelRentedBy at h
  unfold Ledger.isModelAvailableForRent
  rw [Bool.not_eq_false_eq_eq_true, List.any_eq_true]
  rw [List.any_eq_true] at h
  obtain ⟨tx, hm, htx⟩ := h
  refine ⟨tx, hm, ?_⟩
  simp only [Bool.and_eq_true, decide_eq_true_eq] at htx ⊢
  exact ⟨⟨htx.1.1, htx.1.2.1⟩, htx.2⟩

/-- C34 (witness): after `addTransaction("RENT", "m", "owner", "renter", 10.0)` the model
is rented by `"renter"` (the `to` field) and is not available. -/
theorem isModelRentedBy_implies_unavailable_witness :
    openRentalLedger.isModelRentedBy 2000 "m" "renter" = true ∧
    openRentalLedger.isModelAvailableForRent 2000 "m" = false :=
  ⟨by decide!,
   isModelRentedBy_implies_unavailable openRentalLedger 2000 "m" "renter" (by decide!)⟩

/-- C35: `rollbackVersion(modelId, v)` never throws.  It returns true exactly when the
version history of the model has an entry with `version == v` and `canRollback` set;
in that case the records grow by exactly one record, of type `ROLLBACK` and for
`modelId`; otherwise the records are unchanged.  In both cases
`getVersionHistory(modelId)` is what it was before the call. -/
theorem rollbackVersion_spec (lib : StdLib) (l : Ledger) (now : Int) (modelId : String)
    (v : Nat) :
    ∃ (after : Ledger) (ok : Bool),
      l.rollbackVersion lib now modelId v = .returned after ok ∧
      (ok = true ↔
        ∃ e : ModelVersion, e ∈ l.getVersionHistory modelId ∧ e.version = v ∧
          e.canRollback = true) ∧
      (ok = true →
        ∃ tx : Transaction, after.transactions = l.transactions ++ [tx] ∧
          tx.type = "ROLLBACK" ∧ tx.modelId = modelId) ∧
      (ok = false → after.transactions = l.transactions) ∧
      after.getVersionHistory modelId = l.getVersionHistory modelId := by
  have hg : ∀ vh : StrMap (List ModelVersion),
      ((vh.insert modelId ((vh.find modelId).getD [])).find modelId).getD []
        = (vh.find modelId).getD [] := by
    intro vh
    rw [StrMap.find_insert_self]
    rfl
  rw [rollbackVersion_eq]
  simp only [getVersionHistory_eq]
  split_ifs with h
  · refine ⟨_, true, rfl, ?_, ?_, ?_, hg _⟩
    · rw [List.any_eq_true] at h
      obtain ⟨e, he, hp⟩ := h
      simp only [decide_eq_true_eq] at hp
      exact ⟨fun _ => ⟨e, he, hp.1, hp.2⟩, fun _ => rfl⟩
    · intro _
      exact ⟨_, rfl, rfl, rfl⟩
    · intro hf
      cases hf
  · refine ⟨_, false, rfl, ?_, ?_, ?_, hg _⟩
    · constructor
      · intro hf
        cases hf
      · rintro ⟨e, he, hv, hc⟩
        exfalso
        apply h
        rw [List.any_eq_true]
        exact ⟨e, he, by simp only [decide_eq_true_eq]; exact ⟨hv, hc⟩⟩
    · intro hf
      cases hf
    · intro _
      rfl

/-- C36: `processContext` rejects an invalid context.  When the model does not support the
media type of the context, or the payload is empty (empty `input` for `TEXT`, empty
`binaryData` for `IMAGE`, `AUDIO` and `VIDEO`), `validateContext` returns false and
`processContext` returns with the state `ERROR` and the reasoning
`"Invalid context provided"`, the action scores, the decision history and the model
being what they were. -/
theorem processContext_rejects_invalid_context (showDouble : ℚ → String) (rnd : Nat → ℚ)
    (a : ModelAgent) (context : AgentContext) (h : InvalidContext a context) :
    a.validateContext context = false ∧
    ∃ after : ModelAgent, a.processContext showDouble rnd context = some after ∧
      after.state = AgentState.ERROR ∧
      after.lastReasoning = "Invalid context provided" ∧
      after.actionScores = a.actionScores ∧
      after.decisionHistory = a.decisionHistory ∧
      after.model = a.model := by
  have hv := (validateContext_eq_false_iff a context).2 h
  refine ⟨hv, ?_⟩
  unfold ModelAgent.processContext
  rw [hv]
  exact ⟨_, rfl, rfl, rfl, rfl, rfl, rfl⟩

/-- C36 (witness): a new agent on a text-only model rejects an image context (unsupported
type) and a text context with empty input. -/
theorem processContext_rejects_invalid_context_witness :
    (InvalidContext (ModelAgent.new demoModel) imageContext ∧
      InvalidContext (ModelAgent.new demoModel) emptyTextContext) ∧
    ((ModelAgent.new demoModel).validateContext imageContext = false ∧
      ∃ after : ModelAgent,
        (ModelAgent.new demoModel).processContext fixed6 zeroDraws imageContext = some after ∧
        after.state = AgentState.ERROR ∧
        after.lastReasoning = "Invalid context provided" ∧
        after.actionScores = (ModelAgent.new demoModel).actionScores ∧
        after.decisionHistory = (ModelAgent.new demoModel).decisionHistory ∧
        after.model = (ModelAgent.new demoModel).model) ∧
    ((ModelAgent.new demoModel).validateContext emptyTextContext = false ∧
      ∃ after : ModelAgent,
        (ModelAgent.new demoModel).processContext fixed6 zeroDraws emptyTextContext
          = some after ∧
        after.state = AgentState.ERROR ∧
        after.lastReasoning = "Invalid context provided" ∧
        after.actionScores = (ModelAgent.new demoModel).actionScores ∧
        after.decisionHistory = (ModelAgent.new demoModel).decisionHistory ∧
        after.model = (ModelAgent.new demoModel).model) :=
  ⟨⟨Or.inl (by decide), Or.inr (Or.inl ⟨rfl, rfl⟩)⟩,
   processContext_rejects_invalid_context fixed6 zeroDraws (ModelAgent.new demoModel)
     imageContext (Or.inl (by decide)),
   processContext_rejects_invalid_context fixed6 zeroDraws (ModelAgent.new demoModel)
     emptyTextContext (Or.inr (Or.inl ⟨rfl, rfl⟩))⟩

/-- C37: for every agent state, whatever its scores, every context and both values of
`success`, `updateBehavior` keeps the keys of `actionScores` and leaves every score in
the closed interval from 0.1 to 2.0; and so does `executeAction`, for every action,
whether the action throws or not. -/
theorem action_scores_clamped (rnd : Nat → ℚ) (a : ModelAgent) (action : AgentAction)
    (context : AgentContext) (success : Bool) :
    ((a.updateBehavior context success).actionScores.map Prod.fst
        = a.actionScores.map Prod.fst ∧
      ∀ entry ∈ (a.updateBehavior context success).actionScores,
        1 / 10 ≤ entry.2 ∧ entry.2 ≤ 2) ∧
    ((a.executeAction rnd action context).actionScores.map Prod.fst
        = a.actionScores.map Prod.fst ∧
      ∀ entry ∈ (a.executeAction rnd action context).actionScores,
        1 / 10 ≤ entry.2 ∧ entry.2 ≤ 2) :=
  ⟨⟨keys_updateBehavior a context success, scoresInRange_updateBehavior a context success⟩,
   ⟨keys_executeAction rnd a action context, scoresInRange_executeAction rnd a action context⟩⟩

/-- C38: every sequence of public calls on a newly constructed agent is defined and
leaves at most 1000 entries in `decisionHistory`; and `logDecision` on a history of
exactly 1000 entries leaves the old entries but the first, in their order, followed by
the new decision, which is again 1000 entries. -/
theorem decisionHistory_bounded (showDouble : ℚ → String) (model : AIModel)
    (calls : List AgentCall) (a : ModelAgent) (action : AgentAction)
    (context : AgentContext) (success : Bool) :
    (∃ r : ModelAgent, AgentCall.runAll showDouble (ModelAgent.new model) calls = some r ∧
      r.decisionHistory.length ≤ 1000) ∧
    (a.decisionHistory.length = 1000 →
      (a.logDecision action context success).decisionHistory
        = a.decisionHistory.tail ++ [Decision.mk action context success] ∧
      (a.logDecision action context success).decisionHistory.length = 1000) := by
  constructor
  · obtain ⟨r, hr, _, h⟩ := agent_runAll showDouble calls (ModelAgent.new model)
      (fourScores_new model) (Nat.zero_le _)
    exact ⟨r, hr, h⟩
  · intro h
    have h1 := logDecision_full a action context success h
    refine ⟨h1, ?_⟩
    rw [h1, List.length_append, List.length_tail, List.length_singleton, h]

/-- C38 (witness): an agent that processes a text in mode `analysis` has one decision in
its history; and logging a decision on a history of 1000 entries drops the first entry
and appends the new one. -/
theorem decisionHistory_bounded_witness :
    fullHistoryAgent.decisionHistory.length = 1000 ∧
    (∃ r : ModelAgent,
      AgentCall.runAll fixed6 (ModelAgent.new demoModel)
        [AgentCall.processContext zeroDraws analysisContext] = some r ∧
      r.decisionHistory.length ≤ 1000) ∧
    (fullHistoryAgent.logDecision AgentAction.TRAIN analysisContext false).decisionHistory
      = fullHistoryAgent.decisionHistory.tail ++
        [Decision.mk AgentAction.TRAIN analysisContext false] ∧
    (fullHistoryAgent.logDecision AgentAction.TRAIN analysisContext
      false).decisionHistory.length = 1000 :=
  ⟨List.length_replicate _ _,
   (decisionHistory_bounded fixed6 demoModel
     [AgentCall.processContext zeroDraws analysisContext] fullHistoryAgent AgentAction.TRAIN
     analysisContext false).1,
   (decisionHistory_bounded fixed6 demoModel
     [AgentCall.processContext zeroDraws analysisContext] fullHistoryAgent AgentAction.TRAIN
     analysisContext false).2 (List.length_replicate _ _)⟩

end DAGI
